import Mathlib

/-!
# Arborist core: boosting residuals and CART cut search

A shallow embedding of `booster.cc`, `nodescorer.h` and `cutaccumcart.cc`, with
`IndexRange` and `areEqual` of `typeparam.h` and `meanTrain` of `response.h`.

Conventions of the embedding:

* a C++ `double` is an element of a linearly ordered field `F` (exact
  arithmetic: `ℚ` for evaluation, `ℝ` where `exp` and `log` are needed);
  rounding and overflow to infinity are outside the embedding, and NaN appears
  only in `Dbl`, the doubles that `areEqual` compares;
* `IndexT` (`unsigned int`) is a `Nat`, reduced modulo `2 ^ 32` where the
  source decrements or subtracts indices;
* a `vector<T>` is a `List T` whose size fits `IndexT`, so a counter running
  over its positions does not wrap; an out-of-range subscript, like a null
  dereference of the `booster` singleton, has no defined result and is `none`;
* `exp` and `log` of `<cmath>` are passed as functions;
* a member-function pointer is a value of an enumeration of the members it
  can hold.
-/

namespace Arborist

variable {F : Type} [LinearOrderedField F]

/-! ## Samples -/

/-- Modelled from the spec: `SampleNux` (samplenux.h is not among the sources) is one
bagged observation's contribution `(sum, sampleCount)`. -/
structure SampleNux (F : Type) where
  sum : F
  sampleCount : Nat
  deriving DecidableEq

/-- Modelled from the spec: `SampleNux::getSCount` reads the sample count. -/
def SampleNux.getSCount (nux : SampleNux F) : Nat :=
  nux.sampleCount

/-- Modelled from the spec: `SampleNux::decrementSum(adjustment)` replaces `sum` with
`sum - adjustment * sampleCount`.  The value handed back is the decremented sum,
the sample's signed contribution to the bag: this is the reading under which the
spec's L2 scenario (`bagSum = 0` for `y = [1, 3, 5]`, estimate `3`) holds.
The result is the updated sample paired with the returned value. -/
def SampleNux.decrementSum (nux : SampleNux F) (decr : F) : SampleNux F × F :=
  let s := nux.sum - decr * (nux.getSCount : F)
  ({ nux with sum := s }, s)

/-- Modelled from the spec: `SampledObs` (sampledobs.h is not among the sources) is the
ordered sequence of `SampleNux` of the current tree plus the bagged count. -/
structure SampledObs (F : Type) where
  samples : List (SampleNux F)
  bagCount : Nat
  deriving DecidableEq

/-- Modelled from the spec: `SampledObs::getSamples`. -/
def SampledObs.getSamples (s : SampledObs F) : List (SampleNux F) :=
  s.samples

/-- Modelled from the spec: `SampledObs::getBagCount`. -/
def SampledObs.getBagCount (s : SampledObs F) : Nat :=
  s.bagCount

/-- Modelled from the spec: `SampledObs::setSamples` replaces the sample sequence
wholesale. -/
def SampledObs.setSamples (s : SampledObs F) (samples : List (SampleNux F)) : SampledObs F :=
  { s with samples := samples }

/-- Modelled from the spec: `IndexSet` (indexset.h is not among the sources) describes
one frontier node by its response sum, its sample count and its per-category
counts, read through `getSum`, `getSCount` and `getCategoryCount`. -/
structure IndexSet (F : Type) where
  sum : F
  sCount : Nat
  ctgCount : List Nat
  deriving DecidableEq

/-- Modelled from the spec: `IndexSet::getSum`. -/
def IndexSet.getSum (iSet : IndexSet F) : F :=
  iSet.sum

/-- Modelled from the spec: `IndexSet::getSCount`. -/
def IndexSet.getSCount (iSet : IndexSet F) : Nat :=
  iSet.sCount

/-- Modelled from the spec: `IndexSet::getCategoryCount(label)`; a label outside the
node's categories counts zero. -/
def IndexSet.getCategoryCount (iSet : IndexSet F) (ctg : Nat) : Nat :=
  iSet.ctgCount.getD ctg 0

/-! ## NodeScorer (nodescorer.h) -/

/-- The members a `NodeScorer::scorer` pointer can hold. -/
inductive ScorerKind where
  | scoreZero
  | scoreMean
  | scorePlurality
  | scoreLogOdds
  deriving DecidableEq

/-- Translates `struct NodeScorer`: the jitter vector, the per-sample weights `gamma` and the
selected scorer.  The `FrontierScorer` of `booster.cc` is this structure. -/
structure NodeScorer (F : Type) where
  ctgJitter : List F
  gamma : List F
  scorer : ScorerKind
  deriving DecidableEq

/-- Translates `NodeScorer::setGamma`: `gamma = std::move(prob)`. -/
def NodeScorer.setGamma (ns : NodeScorer F) (prob : List F) : NodeScorer F :=
  { ns with gamma := prob }

/-! ## Booster (booster.cc) -/

/-- The members a `Booster::baseScorer` pointer can hold. -/
inductive BaseScorer where
  | zero
  | mean
  | logit
  deriving DecidableEq

/-- The members a `Booster::updater` pointer can hold. -/
inductive Updater where
  | noUpdate
  | updateL2
  | updateLogOdds
  deriving DecidableEq

/-- Translates `class Booster`: learning rate, the two selectors, and the state written by
`baseEstimate` and `scoreSamples`. -/
structure Booster (F : Type) where
  nu : F
  baseScorer : BaseScorer
  updater : Updater
  baseScore : F
  baseSamples : List (SampleNux F)
  estimate : List F
  deriving DecidableEq

/-- Translates `struct ScoreDesc`: the pair `(nu, baseScore)`. -/
structure ScoreDesc (F : Type) where
  nu : F
  baseScore : F
  deriving DecidableEq

/-- Everything the static entry points of `Booster` read or write: the singleton
`Booster::booster` (`none` is `nullptr`) and the objects passed by pointer or
reference (`frontierScorer`, `sampledObs`, `bagSum`). -/
structure TrainState (F : Type) where
  booster : Option (Booster F)
  frontierScorer : NodeScorer F
  sampledObs : SampledObs F
  bagSum : F
  deriving DecidableEq

/-- Translates `Booster::Booster(baseScorer_, updater_, nu_)`: the initialiser list sets `nu`,
`baseScorer` and `updater`; the vectors start empty and `baseScore` is not
written, so it holds whatever value `junk` the storage had. -/
def Booster.ctor (baseScorer : BaseScorer) (updater : Updater) (nu : F) (junk : F) : Booster F :=
  { nu := nu, baseScorer := baseScorer, updater := updater,
    baseScore := junk, baseSamples := [], estimate := [] }

/-- Translates `Booster::makeZero`. -/
def makeZero (st : TrainState F) (junk : F) : TrainState F :=
  { st with booster := some (Booster.ctor BaseScorer.zero Updater.noUpdate 0 junk) }

/-- Translates `Booster::makeL2`. -/
def makeL2 (st : TrainState F) (nu : F) (junk : F) : TrainState F :=
  { st with booster := some (Booster.ctor BaseScorer.mean Updater.updateL2 nu junk) }

/-- Translates `Booster::makeLogOdds`. -/
def makeLogOdds (st : TrainState F) (nu : F) (junk : F) : TrainState F :=
  { st with booster := some (Booster.ctor BaseScorer.logit Updater.updateLogOdds nu junk) }

/-- Translates `Booster::deInit`. -/
def deInit (st : TrainState F) : TrainState F :=
  { st with booster := none }

/-- Translates `Booster::zero`. -/
def Booster.zero (_b : Booster F) (_iRoot : IndexSet F) : F :=
  0

/-- Translates `Booster::mean`: `iRoot.getSum() / iRoot.getSCount()`. -/
def Booster.mean (_b : Booster F) (iRoot : IndexSet F) : F :=
  iRoot.getSum / (iRoot.getSCount : F)

/-- Translates `Booster::logit`: `log(iRoot.getCategoryCount(1) / double(iRoot.getCategoryCount(0)))`. -/
def Booster.logit (log : F → F) (_b : Booster F) (iRoot : IndexSet F) : F :=
  log ((iRoot.getCategoryCount 1 : F) / (iRoot.getCategoryCount 0 : F))

/-- The call `(this->*baseScorer)(iRoot)`. -/
def Booster.applyBaseScorer (log : F → F) (b : Booster F) (iRoot : IndexSet F) : F :=
  match b.baseScorer with
  | BaseScorer.zero => b.zero iRoot
  | BaseScorer.mean => b.mean iRoot
  | BaseScorer.logit => b.logit log iRoot

/-- Translates `Booster::baseEstimate`.  `root` is the constructor `IndexSet(sampledObs)`,
which is not among the sources. -/
def Booster.baseEstimate (root : SampledObs F → IndexSet F) (log : F → F)
    (b : Booster F) (sampledObs : SampledObs F) : Booster F :=
  let b1 := { b with baseSamples := sampledObs.getSamples }
  let b2 := { b1 with baseScore := b1.applyBaseScorer log (root sampledObs) }
  { b2 with estimate := List.replicate sampledObs.getBagCount b2.baseScore }

/-- Translates `Booster::noUpdate`: empty body. -/
def Booster.noUpdate (b : Booster F) (st : TrainState F) : Option (TrainState F) :=
  some { st with booster := some b }

/-- The loop of `Booster::updateL2` over `residual`, from position `sIdx` on:
`bagSum += nux.decrementSum(estimate[sIdx++])`.  Returns the decremented samples
and the final `bagSum`. -/
def updateL2Loop (estimate : List F) :
    List (SampleNux F) → Nat → F → Option (List (SampleNux F) × F)
  | [], _, bagSum => some ([], bagSum)
  | nux :: rest, sIdx, bagSum =>
    match estimate[sIdx]? with
    | none => none
    | some e =>
      let r := nux.decrementSum e
      match updateL2Loop estimate rest (sIdx + 1) (bagSum + r.2) with
      | none => none
      | some (res, total) => some (r.1 :: res, total)

/-- Translates `Booster::updateL2`. -/
def Booster.updateL2 (b : Booster F) (st : TrainState F) : Option (TrainState F) :=
  match updateL2Loop b.estimate b.baseSamples 0 0 with
  | none => none
  | some (residual, bagSum) =>
    some { st with booster := some b,
                   sampledObs := st.sampledObs.setSamples residual,
                   bagSum := bagSum }

/-- Translates `Booster::logistic`: `p[i] = 1.0 / (1.0 + exp(-logOdds[i]))`. -/
def logistic (exp : F → F) (logOdds : List F) : List F :=
  logOdds.map fun x => 1 / (1 + exp (-x))

/-- Translates `Booster::scaleComplement`: `pq[i] = p[i] * (1.0 - p[i])`. -/
def scaleComplement (p : List F) : List F :=
  p.map fun x => x * (1 - x)

/-- The loop of `Booster::updateLogOdds` over `residual`, from position `sIdx` on:
`bagSum += nux.decrementSum(p[sIdx]); pq[sIdx] *= nux.getSCount(); sIdx++`.
Returns the decremented samples, the final `bagSum` and the final `pq`. -/
def updateLogOddsLoop (p : List F) :
    List (SampleNux F) → Nat → F → List F → Option (List (SampleNux F) × F × List F)
  | [], _, bagSum, pq => some ([], bagSum, pq)
  | nux :: rest, sIdx, bagSum, pq =>
    match p[sIdx]?, pq[sIdx]? with
    | some pi, some pqi =>
      let r := nux.decrementSum pi
      let pq1 := pq.set sIdx (pqi * (r.1.getSCount : F))
      match updateLogOddsLoop p rest (sIdx + 1) (bagSum + r.2) pq1 with
      | none => none
      | some (res, total, gamma) => some (r.1 :: res, total, gamma)
    | _, _ => none

/-- Translates `Booster::updateLogOdds`. -/
def Booster.updateLogOdds (exp : F → F) (b : Booster F) (st : TrainState F) :
    Option (TrainState F) :=
  let p := logistic exp b.estimate
  let pq := scaleComplement p
  match updateLogOddsLoop p b.baseSamples 0 0 pq with
  | none => none
  | some (residual, bagSum, gamma) =>
    some { st with booster := some b,
                   sampledObs := st.sampledObs.setSamples residual,
                   bagSum := bagSum,
                   frontierScorer := st.frontierScorer.setGamma gamma }

/-- Translates `Booster::update`, the call `(this->*updater)(frontierScorer, sampledObs, bagSum)`. -/
def Booster.update (exp : F → F) (b : Booster F) (st : TrainState F) : Option (TrainState F) :=
  match b.updater with
  | Updater.noUpdate => b.noUpdate st
  | Updater.updateL2 => b.updateL2 st
  | Updater.updateLogOdds => b.updateLogOdds exp st

/-- Translates `Booster::setEstimate`: `if (boosting()) booster->baseEstimate(sampledObs)`.
`boosting` is the predicate of booster.h, which is not among the sources. -/
def setEstimate (boosting : Booster F → Bool) (root : SampledObs F → IndexSet F)
    (log : F → F) (st : TrainState F) : Option (TrainState F) :=
  match st.booster with
  | none => none
  | some b =>
    if boosting b then
      some { st with booster := some (b.baseEstimate root log st.sampledObs) }
    else some st

/-- Translates `Booster::updateResidual`: `if (boosting()) booster->update(...)`. -/
def updateResidual (boosting : Booster F → Bool) (exp : F → F) (st : TrainState F) :
    Option (TrainState F) :=
  match st.booster with
  | none => none
  | some b => if boosting b then b.update exp st else some st

/-- Translates `Booster::scoreSamples`: `terminalMap.scaleSampleScores(pretree, estimate, nu)`.
`scale` is that call with the tree and the terminal map fixed; it receives
`estimate` and `nu` and yields the rewritten `estimate`. -/
def Booster.scoreSamples (scale : List F → F → List F) (b : Booster F) : Booster F :=
  { b with estimate := scale b.estimate b.nu }

/-- Translates `Booster::updateEstimate`: `if (boosting()) booster->scoreSamples(...)`. -/
def updateEstimate (boosting : Booster F → Bool) (scale : List F → F → List F)
    (st : TrainState F) : Option (TrainState F) :=
  match st.booster with
  | none => none
  | some b =>
    if boosting b then some { st with booster := some (b.scoreSamples scale) }
    else some st

/-- Translates `Booster::getScoreDesc`: `ScoreDesc(booster->nu, booster->baseScore)`. -/
def getScoreDesc (st : TrainState F) : Option (ScoreDesc F) :=
  match st.booster with
  | none => none
  | some b => some { nu := b.nu, baseScore := b.baseScore }

/-! ## CutAccum (cutaccumcart.cc)

`cutaccum.h`, `obs.h` and `splitnux.h` are not among the sources: the state of
the accumulator and the helpers `accumulateReg`, `infoVar`, `argmaxRL`,
`argmaxResidual`, `senseMonotone` and `residualReg` are modelled from the spec.
The members of `cutaccumcart.cc` are translated from the source. -/

/-- The modulus of `IndexT` (`unsigned int`). -/
def wordSize : Nat := 2 ^ 32

/-- Unsigned subtraction `a - b` on `IndexT`. -/
def subIdx (a b : Nat) : Nat :=
  (a + wordSize - b % wordSize) % wordSize

/-- Conversion of a `bool` to `double`: `true` is `1.0`, `false` is `0.0`. -/
def boolToDouble (v : Bool) : F :=
  if v then 1 else 0

/-- Modelled from the spec: `Obs`, one observation of a candidate's cell, carries a
response sum and a sample count.  `tied` says that the observation has the
predictor rank of its left neighbour, so that no cut lies between the two. -/
structure Obs (F : Type) where
  ySum : F
  sCount : Nat
  tied : Bool
  deriving DecidableEq

/-- Modelled from the spec: `SumCount`, the node's total response sum and sample
count. -/
structure SumCount (F : Type) where
  sum : F
  sCount : Nat
  deriving DecidableEq

/-- Modelled from the spec: the CutAccum state.  `obsStart`, `obsEnd` bound the cell,
`cutResidual` is the slot of the implicit observations, `sum` and `sCount` are
the running totals of the left side, `sumCount` the node totals, `info` the
best statistic so far.  `cutIndex` is the index and `residualLeft` the side
recorded with the best statistic; `monoMode` is the constraint of the
regression accumulator (positive: non-decreasing, negative: non-increasing,
zero: none). -/
structure CutAccum (F : Type) where
  obsCell : List (Obs F)
  obsStart : Nat
  obsEnd : Nat
  cutResidual : Nat
  sumCount : SumCount F
  sum : F
  sCount : Nat
  info : F
  cutIndex : Nat
  residualLeft : Bool
  monoMode : Int
  deriving DecidableEq

/-- Modelled from the spec: construction of the base accumulator.  The running totals
start at the node totals: the constructor of `CutAccumRegCart` reads the node
baseline `sum * sum / sCount` from them. -/
def CutAccum.ctor (obsCell : List (Obs F)) (obsStart obsEnd cutResidual : Nat)
    (sumCount : SumCount F) (monoMode : Int) : CutAccum F :=
  { obsCell := obsCell, obsStart := obsStart, obsEnd := obsEnd, cutResidual := cutResidual,
    sumCount := sumCount, sum := sumCount.sum, sCount := sumCount.sCount,
    info := 0, cutIndex := obsStart, residualLeft := false, monoMode := monoMode }

/-- Modelled from the spec: `accumulateReg(obs)` moves one observation out of the
running left totals and reports whether it is tied with its left neighbour. -/
def CutAccum.accumulateReg (c : CutAccum F) (obs : Obs F) : Bool × CutAccum F :=
  (obs.tied, { c with sum := c.sum - obs.ySum, sCount := subIdx c.sCount obs.sCount })

/-- Modelled from the spec: `infoVar = sumLeft²/countLeft + sumRight²/countRight`. -/
def infoVar (sumLeft sumRight : F) (sCountLeft sCountRight : Nat) : F :=
  sumLeft * sumLeft / (sCountLeft : F) + sumRight * sumRight / (sCountRight : F)

/-- Modelled from the spec: `argmaxRL(infoTrial, idx)` keeps the best statistic seen
and its index; an equal statistic does not replace the recorded one. -/
def CutAccum.argmaxRL (c : CutAccum F) (infoTrial : F) (idx : Nat) : CutAccum F :=
  if c.info < infoTrial then { c with info := infoTrial, cutIndex := idx } else c

/-- Modelled from the spec: `argmaxResidual(infoTrial, onLeft)` is the same test for
the cut at the residual slot; the side of the residual is recorded with the
statistic. -/
def CutAccum.argmaxResidual (c : CutAccum F) (infoTrial : F) (onLeft : Bool) : CutAccum F :=
  if c.info < infoTrial then
    { c with info := infoTrial, cutIndex := c.cutResidual, residualLeft := onLeft }
  else c

/-- Modelled from the spec: `senseMonotone()` compares the running left mean with the
right mean in the configured sense. -/
def CutAccum.senseMonotone (c : CutAccum F) : Bool :=
  let meanLeft := c.sum / (c.sCount : F)
  let meanRight := (c.sumCount.sum - c.sum) / (subIdx c.sumCount.sCount c.sCount : F)
  if 0 < c.monoMode then decide (meanLeft ≤ meanRight) else decide (meanRight ≤ meanLeft)

/-- Sum of the response sums of the cell's observations `lo ≤ i < hi`. -/
def cellSum (obsCell : List (Obs F)) (lo hi : Nat) : F :=
  (((obsCell.take hi).drop lo).map fun obs => obs.ySum).sum

/-- Sum of the sample counts of the cell's observations `lo ≤ i < hi`. -/
def cellCount (obsCell : List (Obs F)) (lo hi : Nat) : Nat :=
  (((obsCell.take hi).drop lo).map fun obs => obs.sCount).sum

/-- Modelled from the spec: `residualReg(obsCell)` moves the synthetic observation of
the implicit observations out of the running left totals.  Its sum and count
are what the node totals hold beyond the explicit observations of the cell. -/
def CutAccum.residualReg (c : CutAccum F) : CutAccum F :=
  { c with
    sum := c.sum - (c.sumCount.sum - cellSum c.obsCell c.obsStart c.obsEnd),
    sCount := subIdx c.sCount
      (subIdx c.sumCount.sCount (cellCount c.obsCell c.obsStart c.obsEnd)) }

/-- Translates `CutAccumRegCart::CutAccumRegCart`: `info = (sum * sum) / sCount` on
top of the base constructor. -/
def CutAccumRegCart.ctor (base : CutAccum F) : CutAccum F :=
  { base with info := (base.sum * base.sum) / (base.sCount : F) }

/-- The statistic of the current cut as every scan passes it to `infoVar`:
`infoVar(sum, sumCount.sum - sum, sCount, sumCount.sCount - sCount)`. -/
def CutAccum.infoVarHere (c : CutAccum F) : F :=
  infoVar c.sum (c.sumCount.sum - c.sum) c.sCount (subIdx c.sumCount.sCount c.sCount)

/-- The loop of `CutAccumRegCart::splitRL` from index `idx` on:
`for (...; idx != idxStart; idx--) if (!accumulateReg(obsCell[idx])) argmaxRL(infoVar(...), idx-1)`.
`fuel` bounds the number of iterations. -/
def splitRLFrom : Nat → Nat → Nat → CutAccum F → Option (CutAccum F)
  | 0, _, _, _ => none
  | fuel + 1, idxStart, idx, c =>
    if idx = idxStart then some c
    else
      match c.obsCell[idx]? with
      | none => none
      | some obs =>
        let r := c.accumulateReg obs
        let c1 := if r.1 then r.2 else r.2.argmaxRL r.2.infoVarHere (subIdx idx 1)
        splitRLFrom fuel idxStart (subIdx idx 1) c1

/-- Translates `CutAccumRegCart::splitRL`: the loop starts at `idxEnd - 1`; an
`IndexT` takes `2 ^ 32` values, so a fuel of `2 ^ 32` lets the loop reach any
`idxStart`. -/
def CutAccum.splitRL (idxStart idxEnd : Nat) (c : CutAccum F) : Option (CutAccum F) :=
  splitRLFrom wordSize idxStart (subIdx idxEnd 1) c

/-- The loop of `CutAccumRegCart::splitRLMono`: the argument of `argmaxRL` is the
`bool` `senseMonotone() && infoVar(...)`, converted to `double`. -/
def splitRLMonoFrom : Nat → Nat → Nat → CutAccum F → Option (CutAccum F)
  | 0, _, _, _ => none
  | fuel + 1, idxStart, idx, c =>
    if idx = idxStart then some c
    else
      match c.obsCell[idx]? with
      | none => none
      | some obs =>
        let r := c.accumulateReg obs
        let c1 :=
          if r.1 then r.2
          else r.2.argmaxRL
            (boolToDouble (r.2.senseMonotone && decide (r.2.infoVarHere ≠ 0))) (subIdx idx 1)
        splitRLMonoFrom fuel idxStart (subIdx idx 1) c1

/-- Translates `CutAccumRegCart::splitRLMono`. -/
def CutAccum.splitRLMono (idxStart idxEnd : Nat) (c : CutAccum F) : Option (CutAccum F) :=
  splitRLMonoFrom wordSize idxStart (subIdx idxEnd 1) c

/-- Translates `CutAccumRegCart::splitResidual`: accumulates `obsCell[cutResidual]`, then passes
the `bool` `(monoMode == 0 || senseMonotone()) && infoVar(...)`, converted to
`double`, to `argmaxResidual` with the residual on the left. -/
def CutAccum.splitResidual (c : CutAccum F) : Option (CutAccum F) :=
  match c.obsCell[c.cutResidual]? with
  | none => none
  | some obs =>
    let c1 := (c.accumulateReg obs).2
    some (c1.argmaxResidual
      (boolToDouble ((decide (c1.monoMode = 0) || c1.senseMonotone) &&
        decide (c1.infoVarHere ≠ 0))) true)

/-- Translates `CutAccumRegCart::residualRL`. -/
def CutAccum.residualRL (c : CutAccum F) : Option (CutAccum F) :=
  let c1 := c.residualReg
  let c2 := c1.argmaxResidual c1.infoVarHere false
  c2.splitRL c2.obsStart c2.cutResidual

/-- Translates `CutAccumRegCart::residualRLMono`. -/
def CutAccum.residualRLMono (c : CutAccum F) : Option (CutAccum F) :=
  let c1 := c.residualReg
  let c2 := c1.argmaxResidual
    (boolToDouble (c1.senseMonotone && decide (c1.infoVarHere ≠ 0))) false
  c2.splitRLMono c2.obsStart c2.cutResidual

/-- Translates `CutAccumRegCart::splitImpl`. -/
def CutAccum.splitImpl (c : CutAccum F) : Option (CutAccum F) :=
  let first :=
    if c.cutResidual < c.obsEnd then
      (c.splitRL c.cutResidual c.obsEnd).bind fun c1 => c1.splitResidual
    else some c
  first.bind fun c2 => if c2.cutResidual > c2.obsStart then c2.residualRL else some c2

/-- Translates `CutAccumRegCart::splitImplMono`. -/
def CutAccum.splitImplMono (c : CutAccum F) : Option (CutAccum F) :=
  let first :=
    if c.cutResidual < c.obsEnd then
      (c.splitRLMono c.cutResidual c.obsEnd).bind fun c1 => c1.splitResidual
    else some c
  first.bind fun c2 => if c2.cutResidual > c2.obsStart then c2.residualRLMono else some c2

/-- Translates `CutAccumRegCart::splitReg`: the scan selected by `cand.getImplicitCount()` and
`monoMode`, then `info - infoCell`.  Yields the final accumulator and the
returned gain. -/
def CutAccum.splitReg (implicitCount : Nat) (c : CutAccum F) : Option (CutAccum F × F) :=
  let infoCell := c.info
  let scanned :=
    if implicitCount ≠ 0 then
      if c.monoMode ≠ 0 then c.splitImplMono else c.splitImpl
    else
      if c.monoMode ≠ 0 then c.splitRLMono c.obsStart c.obsEnd
      else c.splitRL c.obsStart c.obsEnd
  scanned.map fun c1 => (c1, c1.info - infoCell)

/-- Whether the cell holds at `idx` an observation that is not tied with its left
neighbour. -/
def untiedAt (obsCell : List (Obs F)) (idx : Nat) : Bool :=
  match obsCell[idx]? with
  | some obs => !obs.tied
  | none => false

/-- The statistic `sumLeft²/countLeft + sumRight²/countRight` of the cut between
`idx - 1` and `idx` in the cell `lo ≤ i < hi`, from the sums of the two sides. -/
def cutStat (obsCell : List (Obs F)) (lo hi idx : Nat) : F :=
  infoVar (cellSum obsCell lo idx) (cellSum obsCell idx hi)
    (cellCount obsCell lo idx) (cellCount obsCell idx hi)

/-- The indices `idx` with `lo < idx ≤ lo + n` at which the cell holds an untied
observation, in scan order (right to left). -/
def cutsUpTo (obsCell : List (Obs F)) (lo n : Nat) : List Nat :=
  ((List.range' (lo + 1) n).reverse).filter (untiedAt obsCell)

/-- Invariant of the scan of a cell `lo ≤ i < hi` without implicit observations: the
node totals are the totals of the cell and the running totals are those of the
positions `lo ≤ i < k`. -/
def ScanInv (obsCell : List (Obs F)) (lo hi : Nat) (c : CutAccum F) (k : Nat) : Prop :=
  c.obsCell = obsCell ∧
  c.sumCount.sum = cellSum obsCell lo hi ∧
  c.sumCount.sCount = cellCount obsCell lo hi ∧
  c.sum = cellSum obsCell lo k ∧
  c.sCount = cellCount obsCell lo k

/-- A cell of four observations with responses `1, 2, 6, 7` and unit counts; the
last observation is tied with its left neighbour. -/
def cellExample : List (Obs ℚ) :=
  [⟨1, 1, false⟩, ⟨2, 1, false⟩, ⟨6, 1, false⟩, ⟨7, 1, true⟩]

/-- The regression accumulator over `cellExample`: node totals `16` and `4`, no
implicit observations, no constraint. -/
def accumExample : CutAccum ℚ :=
  CutAccumRegCart.ctor (CutAccum.ctor cellExample 0 4 0 ⟨16, 4⟩ 0)

/-! ## Closed forms and data for the evaluations -/

/-- One sample after the residual update: the sum loses `e * sampleCount`, the
count stays. -/
def residualNux (nux : SampleNux F) (e : F) : SampleNux F :=
  { sum := nux.sum - e * (nux.sampleCount : F), sampleCount := nux.sampleCount }

/-- An instance of the `boosting` predicate for the evaluations: boosting is on
when the learning rate is positive. -/
def boostingByRate (b : Booster F) : Bool :=
  decide (0 < b.nu)

/-- An instance of the constructor `IndexSet(sampledObs)` for the evaluations: the
root carries the bag's response sum and sample count, and no categories. -/
def rootOfBag (s : SampledObs F) : IndexSet F :=
  { sum := (s.samples.map fun nux => nux.sum).sum,
    sCount := (s.samples.map fun nux => nux.sampleCount).sum,
    ctgCount := [] }

/-- The bag of the spec's L2 scenario: `y = [1, 3, 5]` with unit sample counts. -/
def bag135 : SampledObs ℚ :=
  { samples := [⟨1, 1⟩, ⟨3, 1⟩, ⟨5, 1⟩], bagCount := 3 }

/-- The L2 booster of the spec's scenario, `nu = 1`, with estimate `[3, 3, 3]`. -/
def boosterL2Example : Booster ℚ :=
  { nu := 1, baseScorer := BaseScorer.mean, updater := Updater.updateL2, baseScore := 3,
      baseSamples := bag135.samples, estimate := [3, 3, 3] }

/-- A scorer with nothing set. -/
def scorerExample : NodeScorer ℚ :=
  { ctgJitter := [], gamma := [], scorer := ScorerKind.scoreMean }

/-- The state of the spec's L2 scenario before `updateResidual`; the stale `bagSum`
is `17`. -/
def stateL2Example : TrainState ℚ :=
  { booster := some boosterL2Example, frontierScorer := scorerExample,
      sampledObs := bag135, bagSum := 17 }

/-- The spec's L2 scenario before `setEstimate`: `makeL2` with `nu = 1` on the bag
`y = [1, 3, 5]`. -/
def stateL2Fresh : TrainState ℚ :=
  makeL2 { booster := none, frontierScorer := scorerExample, sampledObs := bag135,
             bagSum := 17 } 1 0

/-- An instance of the constructor `IndexSet(sampledObs)` for the evaluations: the
root carries the bag's response sum and sample count, and the given category
counts. -/
def rootOfBagCtg (ctgCount : List Nat) (s : SampledObs F) : IndexSet F :=
  { sum := (s.samples.map fun nux => nux.sum).sum,
    sCount := (s.samples.map fun nux => nux.sampleCount).sum,
    ctgCount := ctgCount }

/-- A scorer with nothing set, over any field. -/
def scorerEmpty : NodeScorer F :=
  { ctgJitter := [], gamma := [], scorer := ScorerKind.scoreLogOdds }

/-- The bag of the spec's LogOdds scenario: three observations of category `0` and
one of category `1`, each drawn once. -/
def bagTwoCtg : SampledObs F :=
  { samples := [⟨0, 1⟩, ⟨0, 1⟩, ⟨0, 1⟩, ⟨1, 1⟩], bagCount := 4 }

/-- The spec's LogOdds scenario before `setEstimate`: `makeLogOdds` with `nu = 1`. -/
def stateLogOddsFresh : TrainState F :=
  makeLogOdds { booster := none, frontierScorer := scorerEmpty, sampledObs := bagTwoCtg,
                  bagSum := 0 } 1 0

/-- A LogOdds booster whose estimate is `0` on both of its samples. -/
def boosterLogOddsExample : Booster F :=
  { nu := 1, baseScorer := BaseScorer.logit, updater := Updater.updateLogOdds, baseScore := 0,
      baseSamples := [⟨1, 2⟩, ⟨0, 1⟩], estimate := [0, 0] }

/-- A state holding `boosterLogOddsExample`. -/
def stateLogOddsExample : TrainState F :=
  { booster := some boosterLogOddsExample, frontierScorer := scorerEmpty,
      sampledObs := { samples := [], bagCount := 2 }, bagSum := 0 }

/-! ## IndexRange and areEqual (typeparam.h), meanTrain (response.h) -/

/-- Translates `struct IndexRange`: the low index and the extent, both `IndexT`. -/
structure IndexRange where
  idxStart : Nat
  idxExtent : Nat
  deriving DecidableEq

/-- Translates `IndexRange::IndexRange()`: both fields zero. -/
def IndexRange.ctor : IndexRange :=
  { idxStart := 0, idxExtent := 0 }

/-- Translates `IndexRange::empty`: `idxExtent == 0`. -/
def IndexRange.empty (r : IndexRange) : Bool :=
  r.idxExtent == 0

/-- Translates `IndexRange::adjust`: `idxStart -= margin; idxExtent -= implicit`, both
unsigned. -/
def IndexRange.adjust (r : IndexRange) (margin implicit : Nat) : IndexRange :=
  { idxStart := subIdx r.idxStart margin, idxExtent := subIdx r.idxExtent implicit }

/-- Translates `IndexRange::getStart`. -/
def IndexRange.getStart (r : IndexRange) : Nat :=
  r.idxStart

/-- Translates `IndexRange::getExtent`. -/
def IndexRange.getExtent (r : IndexRange) : Nat :=
  r.idxExtent

/-- Translates `IndexRange::getEnd`: `idxStart + idxExtent`, an unsigned sum. -/
def IndexRange.getEnd (r : IndexRange) : Nat :=
  (r.idxStart + r.idxExtent) % wordSize

/-- Translates `IndexRange::interpolate`: `idxStart + scale * idxExtent`, in `double`. -/
def IndexRange.interpolate (r : IndexRange) (scale : F) : F :=
  (r.idxStart : F) + scale * (r.idxExtent : F)

/-- Translates `ResponseReg::meanTrain`:
`yTrain.empty() ? 0.0 : accumulate(yTrain.begin(), yTrain.end(), 0.0) / yTrain.size()`. -/
def meanTrain (yTrain : List F) : F :=
  if yTrain.isEmpty then 0 else yTrain.foldl (fun acc y => acc + y) 0 / (yTrain.length : F)

/-- A `double` as the comparisons of typeparam.h see it: NaN, or a number of type `V`.
Numbers are the values that `==` tells apart: the two zeros are one number, an
infinity is a number. -/
inductive Dbl (V : Type) where
  | nan
  | num (v : V)
  deriving DecidableEq

/-- The test `isnan` of `<cmath>`. -/
def Dbl.isnan {V : Type} : Dbl V → Bool
  | Dbl.nan => true
  | Dbl.num _ => false

/-- The comparison `==` of two doubles: false as soon as one side is NaN, equality of
the numbers otherwise. -/
def Dbl.eqCmp {V : Type} [DecidableEq V] : Dbl V → Dbl V → Bool
  | Dbl.num a, Dbl.num b => decide (a = b)
  | _, _ => false

/-- Translates the `double` overload of `areEqual`:
`(val1 == val2) || (isnan(val1) && isnan(val2))`. -/
def areEqual {V : Type} [DecidableEq V] (val1 val2 : Dbl V) : Bool :=
  Dbl.eqCmp val1 val2 || (val1.isnan && val2.isnan)

/-- The template `areEqual<tn>`: `val1 == val2` on a type with plain equality. -/
def areEqualPlain {T : Type} [DecidableEq T] (val1 val2 : T) : Bool :=
  decide (val1 = val2)

/-- The range whose end is not representable: it starts at the last index and
extends over two positions. -/
def rangeOverflow : IndexRange :=
  { idxStart := 4294967295, idxExtent := 2 }

/-- A range of five positions starting at index ten. -/
def rangeExample : IndexRange :=
  { idxStart := 10, idxExtent := 5 }

/-- The static call `Booster::updateResidual` made `k` times in a row, with nothing in
between. -/
def updateResidualTimes (boosting : Booster F → Bool) (exp : F → F) :
    Nat → TrainState F → Option (TrainState F)
  | 0, st => some st
  | k + 1, st => (updateResidual boosting exp st).bind (updateResidualTimes boosting exp k)

/-! ## Cells for the evaluations of the constrained and implicit scans -/

/-- A cell holding the one explicit observation `(7, 1)` of a node with totals
`(8, 2)`: the node has one implicit observation, of response `1`. -/
def cellResidual : List (Obs ℚ) :=
  [⟨7, 1, false⟩]

/-- The cell `cellResidual` with the implicit observation `(1, 1)` written out at its
rank position, left of the explicit one. -/
def cellMaterialised : List (Obs ℚ) :=
  [⟨1, 1, false⟩, ⟨7, 1, false⟩]

/-- A cell with responses `1/5, 3/10, 1/10` and unit counts. -/
def cellSuppress : List (Obs ℚ) :=
  [⟨1 / 5, 1, false⟩, ⟨3 / 10, 1, false⟩, ⟨1 / 10, 1, false⟩]

/-- A cell with responses `1, 3` and unit counts. -/
def cellIncreasing : List (Obs ℚ) :=
  [⟨1, 1, false⟩, ⟨3, 1, false⟩]

/-- A cell holding the one explicit observation `(1/2, 1)` of a node with totals
`(1, 2)`: every observation of the node, explicit or implicit, has mean `1/2`. -/
def cellConstant : List (Obs ℚ) :=
  [⟨1 / 2, 1, false⟩]

/-- The regression accumulator of a cell that spans the whole list. -/
def accumOf (obsCell : List (Obs F)) (cutResidual : Nat) (sumCount : SumCount F)
    (monoMode : Int) : CutAccum F :=
  CutAccumRegCart.ctor (CutAccum.ctor obsCell 0 obsCell.length cutResidual sumCount monoMode)

/-- The gain `splitReg` returns. -/
def CutAccum.gainReg (implicitCount : Nat) (c : CutAccum F) : Option F :=
  (c.splitReg implicitCount).map fun r => r.2

/-! ## Traced scans

The three scans of `cutaccumcart.cc` (`CutAccumRegCart` with and without a
constraint, `CutAccumCtgCart`) run the same loops over different accumulators.
`ScanOps` collects what the loops call; `scan` is the control flow of
`splitRL`, `splitResidual`, `residualRL`, `splitImpl` and `splitReg` / `splitCtg`
over it, and records what the run does: the calls of `splitRL`, the
observations accumulated, the statistics handed to `argmaxRL` and
`argmaxResidual` together with the arguments they were computed from. -/

/-- What one iteration of the loop of `splitRL` does: `step idx` accumulates
`obsCell[idx]`; `cut idx infoTrial args` is the call `argmaxRL(infoTrial, idx)`,
with the arguments `args` of the statistic. -/
inductive LoopEvent (F A : Type) where
  | step (idx : Nat)
  | cut (idx : Nat) (infoTrial : F) (args : A)
  deriving DecidableEq

/-- What a scan does: `call idxStart idxEnd body` is a call `splitRL(idxStart, idxEnd)`
with the events of its loop, `slot idx` the accumulation of `obsCell[idx]` by
`splitResidual`, `residualCut onLeft infoTrial args` a call
`argmaxResidual(infoTrial, onLeft)`. -/
inductive ScanEvent (F A : Type) where
  | call (idxStart idxEnd : Nat) (body : List (LoopEvent F A))
  | slot (idx : Nat)
  | residualCut (onLeft : Bool) (infoTrial : F) (args : A)
  deriving DecidableEq

/-- The members a scan uses, over an accumulator `S`: the bounds, the best statistic
and its index, `accumulate(obsCell[idx])` (`none` when the subscript has no
defined result), `residual(obsCell)`, the arguments of the statistic, the value
each of `splitRL`, `splitResidual` and `residualRL` hands over, `argmaxRL` and
`argmaxResidual`. -/
structure ScanOps (S F A : Type) where
  obsStart : S → Nat
  obsEnd : S → Nat
  cutResidual : S → Nat
  info : S → F
  cutIndex : S → Nat
  accumulate : S → Nat → Option (Bool × S)
  residual : S → S
  args : S → A
  trialRL : S → F
  trialLeft : S → F
  trialRight : S → F
  argmaxRL : S → F → Nat → S
  argmaxResidual : S → F → Bool → S

/-- The loop `for (...; idx != idxStart; idx--) if (!accumulate(obsCell[idx])) argmaxRL(..., idx-1)`
from index `idx` on, with its events.  `fuel` bounds the number of iterations. -/
def scanFrom {S F A : Type} (ops : ScanOps S F A) :
    Nat → Nat → Nat → S → Option (S × List (LoopEvent F A))
  | 0, _, _, _ => none
  | fuel + 1, idxStart, idx, s =>
    if idx = idxStart then some (s, [])
    else
      match ops.accumulate s idx with
      | none => none
      | some (tied, s1) =>
        if tied then
          (scanFrom ops fuel idxStart (subIdx idx 1) s1).map fun r =>
            (r.1, LoopEvent.step idx :: r.2)
        else
          (scanFrom ops fuel idxStart (subIdx idx 1)
              (ops.argmaxRL s1 (ops.trialRL s1) (subIdx idx 1))).map fun r =>
            (r.1, LoopEvent.step idx ::
              LoopEvent.cut (subIdx idx 1) (ops.trialRL s1) (ops.args s1) :: r.2)

/-- The control flow of `splitRL(idxStart, idxEnd)`: the loop starts at `idxEnd - 1`. -/
def scanRL {S F A : Type} (ops : ScanOps S F A) (idxStart idxEnd : Nat) (s : S) :
    Option (S × List (ScanEvent F A)) :=
  (scanFrom ops wordSize idxStart (subIdx idxEnd 1) s).map fun r =>
    (r.1, [ScanEvent.call idxStart idxEnd r.2])

/-- The control flow of `splitResidual`: accumulates `obsCell[cutResidual]`, then
`argmaxResidual(..., true)`. -/
def scanResidual {S F A : Type} (ops : ScanOps S F A) (s : S) :
    Option (S × List (ScanEvent F A)) :=
  (ops.accumulate s (ops.cutResidual s)).map fun r =>
    (ops.argmaxResidual r.2 (ops.trialLeft r.2) true,
      [ScanEvent.slot (ops.cutResidual s),
        ScanEvent.residualCut true (ops.trialLeft r.2) (ops.args r.2)])

/-- The control flow of `residualRL`: `residual(obsCell)`, `argmaxResidual(..., false)`,
then `splitRL(obsStart, cutResidual)`. -/
def scanResidualRL {S F A : Type} (ops : ScanOps S F A) (s : S) :
    Option (S × List (ScanEvent F A)) :=
  let s1 := ops.residual s
  let s2 := ops.argmaxResidual s1 (ops.trialRight s1) false
  (scanRL ops (ops.obsStart s2) (ops.cutResidual s2) s2).map fun r =>
    (r.1, ScanEvent.residualCut false (ops.trialRight s1) (ops.args s1) :: r.2)

/-- The control flow of `splitImpl`. -/
def scanImpl {S F A : Type} (ops : ScanOps S F A) (s : S) :
    Option (S × List (ScanEvent F A)) :=
  let first :=
    if ops.cutResidual s < ops.obsEnd s then
      (scanRL ops (ops.cutResidual s) (ops.obsEnd s) s).bind fun r1 =>
        (scanResidual ops r1.1).map fun r2 => (r2.1, r1.2 ++ r2.2)
    else some (s, [])
  first.bind fun r =>
    if ops.cutResidual r.1 > ops.obsStart r.1 then
      (scanResidualRL ops r.1).map fun r3 => (r3.1, r.2 ++ r3.2)
    else some r

/-- The control flow of `splitReg` and `splitCtg`: the implicit-aware scan when
`cand.getImplicitCount()` is not zero, `splitRL(obsStart, obsEnd)` otherwise. -/
def scan {S F A : Type} (ops : ScanOps S F A) (implicitCount : Nat) (s : S) :
    Option (S × List (ScanEvent F A)) :=
  if implicitCount ≠ 0 then scanImpl ops s
  else scanRL ops (ops.obsStart s) (ops.obsEnd s) s

/-- The indices accumulated by the iterations of a loop, in order. -/
def stepsOf {F A : Type} : List (LoopEvent F A) → List Nat
  | [] => []
  | LoopEvent.step idx :: rest => idx :: stepsOf rest
  | LoopEvent.cut _ _ _ :: rest => stepsOf rest

/-- The statistics handed to `argmaxRL` by a loop with the indices they are
recorded under, in order. -/
def offersOf {F A : Type} : List (LoopEvent F A) → List (F × Nat)
  | [] => []
  | LoopEvent.step _ :: rest => offersOf rest
  | LoopEvent.cut idx x _ :: rest => (x, idx) :: offersOf rest

/-- The indices of `obsCell` a scan accumulates, in order. -/
def readsOf {F A : Type} : List (ScanEvent F A) → List Nat
  | [] => []
  | ScanEvent.call _ _ body :: rest => stepsOf body ++ readsOf rest
  | ScanEvent.slot idx :: rest => idx :: readsOf rest
  | ScanEvent.residualCut _ _ _ :: rest => readsOf rest

/-- The statistics handed to `argmaxRL` and `argmaxResidual` by a scan, with the
index each is recorded under (`cutResidual` for `argmaxResidual`), in order. -/
def allOffers {F A : Type} (cutResidual : Nat) : List (ScanEvent F A) → List (F × Nat)
  | [] => []
  | ScanEvent.call _ _ body :: rest => offersOf body ++ allOffers cutResidual rest
  | ScanEvent.slot _ :: rest => allOffers cutResidual rest
  | ScanEvent.residualCut _ x _ :: rest => (x, cutResidual) :: allOffers cutResidual rest

/-- The arguments of every statistic a scan evaluates, in order. -/
def argsOf {F A : Type} : List (ScanEvent F A) → List A
  | [] => []
  | ScanEvent.call _ _ body :: rest =>
    body.filterMap (fun e => match e with
      | LoopEvent.step _ => none
      | LoopEvent.cut _ _ a => some a) ++ argsOf rest
  | ScanEvent.slot _ :: rest => argsOf rest
  | ScanEvent.residualCut _ _ a :: rest => a :: argsOf rest

/-- The test of `argmaxRL` on the pair (best statistic, its index): a strictly larger
statistic replaces the pair. -/
def offerStep (best : F × Nat) (offer : F × Nat) : F × Nat :=
  if best.1 < offer.1 then offer else best

/-- The arguments the regression scans pass to `infoVar`. -/
structure RegArgs (F : Type) where
  sumLeft : F
  sumRight : F
  sCountLeft : Nat
  sCountRight : Nat
  deriving DecidableEq

/-- The arguments of `infoVar(sum, sumCount.sum - sum, sCount, sumCount.sCount - sCount)`. -/
def CutAccum.argsHere (c : CutAccum F) : RegArgs F :=
  { sumLeft := c.sum, sumRight := c.sumCount.sum - c.sum,
    sCountLeft := c.sCount, sCountRight := subIdx c.sumCount.sCount c.sCount }

/-- The members of `CutAccumRegCart` as the scans use them; `mono` selects
`splitRLMono` and `residualRLMono`, which hand over the `bool`
`senseMonotone() && infoVar(...)`, over `splitRL` and `residualRL`. -/
def regOps (mono : Bool) : ScanOps (CutAccum F) F (RegArgs F) :=
  { obsStart := fun c => c.obsStart
    obsEnd := fun c => c.obsEnd
    cutResidual := fun c => c.cutResidual
    info := fun c => c.info
    cutIndex := fun c => c.cutIndex
    accumulate := fun c idx => (c.obsCell[idx]?).map fun obs => c.accumulateReg obs
    residual := fun c => c.residualReg
    args := fun c => c.argsHere
    trialRL := fun c =>
      if mono then boolToDouble (c.senseMonotone && decide (c.infoVarHere ≠ 0))
      else c.infoVarHere
    trialLeft := fun c =>
      boolToDouble ((decide (c.monoMode = 0) || c.senseMonotone) && decide (c.infoVarHere ≠ 0))
    trialRight := fun c =>
      if mono then boolToDouble (c.senseMonotone && decide (c.infoVarHere ≠ 0))
      else c.infoVarHere
    argmaxRL := fun c x idx => c.argmaxRL x idx
    argmaxResidual := fun c x onLeft => c.argmaxResidual x onLeft }

/-- The traced run of `splitReg`. -/
def CutAccum.scanReg (implicitCount : Nat) (c : CutAccum F) :
    Option (CutAccum F × List (ScanEvent F (RegArgs F))) :=
  scan (regOps (decide (c.monoMode ≠ 0))) implicitCount c

/-- What the facts about a traced scan need of the members in `ops`, for a cell
`lo ≤ i < hi` with residual slot `cr`, tie flags `tied` and an invariant
`Inv k r s`: the accumulator `s` has accumulated the observations `k ≤ i < hi`,
and the residual iff `r`.  The bounds are those of the cell; accumulating
`obsCell[idx]` has a result, reports `tied idx`, moves the invariant from
`idx + 1` to `idx` and keeps the best statistic; `residual` sets `r`;
`argmaxRL` and `argmaxResidual` keep the invariant and apply `offerStep` to the
best statistic and its index. -/
structure ScanFrame {S A : Type} (ops : ScanOps S F A) (lo hi cr : Nat) (tied : Nat → Bool)
    (Inv : Nat → Bool → S → Prop) : Prop where
  bounds : ∀ k r s, Inv k r s →
    ops.obsStart s = lo ∧ ops.obsEnd s = hi ∧ ops.cutResidual s = cr
  acc : ∀ idx r s, Inv (idx + 1) r s → lo ≤ idx → idx < hi →
    ∃ s1, ops.accumulate s idx = some (tied idx, s1) ∧ Inv idx r s1 ∧
      ops.info s1 = ops.info s ∧ ops.cutIndex s1 = ops.cutIndex s
  res : ∀ k s, Inv k false s →
    Inv k true (ops.residual s) ∧
      ops.info (ops.residual s) = ops.info s ∧ ops.cutIndex (ops.residual s) = ops.cutIndex s
  argRL : ∀ k r s x j, Inv k r s →
    Inv k r (ops.argmaxRL s x j) ∧
      (ops.info (ops.argmaxRL s x j), ops.cutIndex (ops.argmaxRL s x j)) =
        offerStep (ops.info s, ops.cutIndex s) (x, j)
  argRes : ∀ k r s x b, Inv k r s →
    Inv k r (ops.argmaxResidual s x b) ∧
      (ops.info (ops.argmaxResidual s x b), ops.cutIndex (ops.argmaxResidual s x b)) =
        offerStep (ops.info s, ops.cutIndex s) (x, cr)

/-- What the loop of `splitRL(a, a + n + 1)` leaves in its trace, under an invariant
`Inv` with residual flag `r`: the iterations accumulate `a + n, ..., a + 1` in this
order; the cuts are offered under the indices `idx - 1` of the untied
positions `idx`, in this order; each statistic comes from an accumulator that
satisfies the invariant at the position right of the cut. -/
def LoopTrace {S A : Type} (ops : ScanOps S F A) (tied : Nat → Bool)
    (Inv : Nat → Bool → S → Prop) (r : Bool) (a n : Nat) (body : List (LoopEvent F A)) : Prop :=
  stepsOf body = (List.range' (a + 1) n).reverse ∧
  (offersOf body).map Prod.snd =
    (((List.range' (a + 1) n).reverse).filter fun i => !tied i).map (fun i => i - 1) ∧
  ∀ j x p, LoopEvent.cut j x p ∈ body →
    a ≤ j ∧ j < a + n ∧ tied (j + 1) = false ∧
      ∃ s1, Inv (j + 1) r s1 ∧ x = ops.trialRL s1 ∧ p = ops.args s1

/-- What the implicit-aware scan `splitImpl` leaves in its trace: when
`cutResidual < obsEnd`, the call `splitRL(cutResidual, obsEnd)`, the accumulation of
`obsCell[cutResidual]` and the residual cut with the residual on the left; then,
when `obsStart < cutResidual`, the residual cut with the residual on the right and
the call `splitRL(obsStart, cutResidual)`. -/
def ImplTrace {S A : Type} (ops : ScanOps S F A) (tied : Nat → Bool)
    (Inv : Nat → Bool → S → Prop) (lo hi cr : Nat) (tr : List (ScanEvent F A)) : Prop :=
  ∃ first second, tr = first ++ second ∧
    (cr < hi → ∃ body s1,
      first = [ScanEvent.call cr hi body, ScanEvent.slot cr,
        ScanEvent.residualCut true (ops.trialLeft s1) (ops.args s1)] ∧
      LoopTrace ops tied Inv false cr (hi - 1 - cr) body ∧ Inv cr false s1) ∧
    (¬ cr < hi → first = []) ∧
    (lo < cr → ∃ body s2,
      second = [ScanEvent.residualCut false (ops.trialRight s2) (ops.args s2),
        ScanEvent.call lo cr body] ∧
      LoopTrace ops tied Inv true lo (cr - 1 - lo) body ∧ Inv cr true s2) ∧
    (¬ lo < cr → second = [])

/-- What a scan leaves in its trace: that of `splitImpl` when the candidate has
implicit observations, the one call `splitRL(obsStart, obsEnd)` otherwise. -/
def ScanTrace {S A : Type} (ops : ScanOps S F A) (tied : Nat → Bool)
    (Inv : Nat → Bool → S → Prop) (lo hi cr implicitCount : Nat)
    (tr : List (ScanEvent F A)) : Prop :=
  (implicitCount ≠ 0 → ImplTrace ops tied Inv lo hi cr tr) ∧
  (implicitCount = 0 → ∃ body, tr = [ScanEvent.call lo hi body] ∧
    LoopTrace ops tied Inv false lo (hi - 1 - lo) body)

/-- Invariant of the regression scans over the cell `lo ≤ i < hi` of a node with
totals `total`: the running totals are those of the positions `lo ≤ i < k`,
plus those of the implicit observations unless `r` says that `residualReg` has
moved them out.  The implicit observations hold what the node totals hold
beyond the cell. -/
def RegInv (obsCell : List (Obs F)) (lo hi cr : Nat) (total : SumCount F)
    (k : Nat) (r : Bool) (c : CutAccum F) : Prop :=
  c.obsCell = obsCell ∧ c.obsStart = lo ∧ c.obsEnd = hi ∧ c.cutResidual = cr ∧
  c.sumCount = total ∧ lo ≤ k ∧ k ≤ hi ∧
  c.sum = cellSum obsCell lo k + (if r then 0 else total.sum - cellSum obsCell lo hi) ∧
  c.sCount = cellCount obsCell lo k +
    (if r then 0 else total.sCount - cellCount obsCell lo hi)

/-! ## CutAccumCtgCart (cutaccumcart.cc)

The base class `CutAccumCtg` (`cutaccum.h`) is not among the sources: its state and
the helpers `accumulateCtg`, `residualCtg` and `infoGini` are modelled from the
spec.  The members of `CutAccumCtgCart` are translated from the source. -/

/-- Modelled from the spec: an observation of a categorical cell carries the category
of its response besides its response sum, sample count and tie flag. -/
structure ObsCtg (F : Type) where
  ySum : F
  sCount : Nat
  tied : Bool
  ctg : Nat
  deriving DecidableEq

/-- Modelled from the spec: the CutAccumCtg state.  Besides the members of the base
accumulator it holds the node's sum per category `ctgSum`, the sum per
category moved to the right so far `ctgAccum`, and the running sums of squares
`ssL`, `ssR` of the per-category sums of the two sides. -/
structure CutAccumCtg (F : Type) where
  obsCell : List (ObsCtg F)
  obsStart : Nat
  obsEnd : Nat
  cutResidual : Nat
  sumCount : SumCount F
  sum : F
  sCount : Nat
  info : F
  cutIndex : Nat
  residualLeft : Bool
  ctgSum : List F
  ctgAccum : List F
  ssL : F
  ssR : F
  deriving DecidableEq

/-- Sum of the squares of the entries of a vector. -/
def sumSquares (l : List F) : F :=
  (l.map fun x => x * x).sum

/-- Modelled from the spec: construction of the categorical base accumulator.  Every
category starts on the left: `ssL` is the sum of the squared category sums of
the node, `ssR` is zero. -/
def CutAccumCtg.ctor (obsCell : List (ObsCtg F)) (obsStart obsEnd cutResidual : Nat)
    (sumCount : SumCount F) (ctgSum : List F) : CutAccumCtg F :=
  { obsCell := obsCell, obsStart := obsStart, obsEnd := obsEnd, cutResidual := cutResidual,
    sumCount := sumCount, sum := sumCount.sum, sCount := sumCount.sCount,
    info := 0, cutIndex := obsStart, residualLeft := false,
    ctgSum := ctgSum, ctgAccum := List.replicate ctgSum.length 0,
    ssL := sumSquares ctgSum, ssR := 0 }

/-- Modelled from the spec: moving the response `ySum` of category `ctg` from the left to
the right side updates the two sums of squares incrementally: with `sumR` and
`sumL` the sums of the category on the two sides before the move,
`ssR += ySum * (ySum + 2 * sumR)` and `ssL += ySum * (ySum - 2 * sumL)`. -/
def CutAccumCtg.moveCtg (g : CutAccumCtg F) (ySum : F) (ctg : Nat) : CutAccumCtg F :=
  let sumRCtg := g.ctgAccum.getD ctg 0
  let sumLCtg := g.ctgSum.getD ctg 0 - sumRCtg
  { g with
    ctgAccum := g.ctgAccum.set ctg (sumRCtg + ySum),
    ssR := g.ssR + ySum * (ySum + 2 * sumRCtg),
    ssL := g.ssL + ySum * (ySum - 2 * sumLCtg) }

/-- Modelled from the spec: `accumulateCtg(obs)` moves one observation out of the running
left totals, moves its response to the right side of its category, and
reports whether it is tied with its left neighbour.  A category outside the
per-category vectors has no defined result. -/
def CutAccumCtg.accumulateCtg (g : CutAccumCtg F) (obs : ObsCtg F) :
    Option (Bool × CutAccumCtg F) :=
  if obs.ctg < g.ctgSum.length ∧ obs.ctg < g.ctgAccum.length then
    some (obs.tied,
      ({ g with sum := g.sum - obs.ySum,
                sCount := subIdx g.sCount obs.sCount }).moveCtg obs.ySum obs.ctg)
  else none

/-- Modelled from the spec: `infoGini = (ssLeft + ssRight) / totalSum`; the scans pass the
sums of the two sides, which add up to the total. -/
def infoGini (ssLeft ssRight sumLeft sumRight : F) : F :=
  (ssLeft + ssRight) / (sumLeft + sumRight)

/-- Modelled from the spec: `argmaxRL` of the base accumulator, on the categorical
state. -/
def CutAccumCtg.argmaxRL (g : CutAccumCtg F) (infoTrial : F) (idx : Nat) : CutAccumCtg F :=
  if g.info < infoTrial then { g with info := infoTrial, cutIndex := idx } else g

/-- Modelled from the spec: `argmaxResidual` of the base accumulator, on the categorical
state. -/
def CutAccumCtg.argmaxResidual (g : CutAccumCtg F) (infoTrial : F) (onLeft : Bool) :
    CutAccumCtg F :=
  if g.info < infoTrial then
    { g with info := infoTrial, cutIndex := g.cutResidual, residualLeft := onLeft }
  else g

/-- Sum of the response sums of the categorical cell's observations `lo ≤ i < hi`. -/
def cellSumCtg (obsCell : List (ObsCtg F)) (lo hi : Nat) : F :=
  (((obsCell.take hi).drop lo).map fun obs => obs.ySum).sum

/-- Sum of the sample counts of the categorical cell's observations `lo ≤ i < hi`. -/
def cellCountCtg (obsCell : List (ObsCtg F)) (lo hi : Nat) : Nat :=
  (((obsCell.take hi).drop lo).map fun obs => obs.sCount).sum

/-- Sum of the response sums of the observations `lo ≤ i < hi` of category `ctg`. -/
def ctgCellSum (obsCell : List (ObsCtg F)) (lo hi ctg : Nat) : F :=
  (((obsCell.take hi).drop lo).map fun obs => if obs.ctg = ctg then obs.ySum else 0).sum

/-- Modelled from the spec: `residualCtg(obsCell)` moves the synthetic observation of the
implicit observations out of the running left totals and, category by
category, to the right side.  It holds what the node totals hold beyond the
explicit observations of the cell. -/
def CutAccumCtg.residualCtg (g : CutAccumCtg F) : CutAccumCtg F :=
  (List.range g.ctgSum.length).foldl
    (fun acc ctg =>
      acc.moveCtg (g.ctgSum.getD ctg 0 - ctgCellSum g.obsCell g.obsStart g.obsEnd ctg) ctg)
    { g with
      sum := g.sum - (g.sumCount.sum - cellSumCtg g.obsCell g.obsStart g.obsEnd),
      sCount := subIdx g.sCount
        (subIdx g.sumCount.sCount (cellCountCtg g.obsCell g.obsStart g.obsEnd)) }

/-- Translates `CutAccumCtgCart::CutAccumCtgCart`: `info = ssL / sum` on top of the base
constructor. -/
def CutAccumCtgCart.ctor (base : CutAccumCtg F) : CutAccumCtg F :=
  { base with info := base.ssL / base.sum }

/-- The statistic of the current cut as every categorical scan passes it to
`infoGini`: `infoGini(ssL, ssR, sum, sumCount.sum - sum)`. -/
def CutAccumCtg.infoGiniHere (g : CutAccumCtg F) : F :=
  infoGini g.ssL g.ssR g.sum (g.sumCount.sum - g.sum)

/-- The loop of `CutAccumCtgCart::splitRL` from index `idx` on:
`for (...; idx != idxStart; idx--) if (!accumulateCtg(obsCell[idx])) argmaxRL(infoGini(...), idx-1)`.
`fuel` bounds the number of iterations. -/
def splitRLCtgFrom : Nat → Nat → Nat → CutAccumCtg F → Option (CutAccumCtg F)
  | 0, _, _, _ => none
  | fuel + 1, idxStart, idx, g =>
    if idx = idxStart then some g
    else
      match g.obsCell[idx]? with
      | none => none
      | some obs =>
        match g.accumulateCtg obs with
        | none => none
        | some r =>
          let g1 := if r.1 then r.2 else r.2.argmaxRL r.2.infoGiniHere (subIdx idx 1)
          splitRLCtgFrom fuel idxStart (subIdx idx 1) g1

/-- Translates `CutAccumCtgCart::splitRL`. -/
def CutAccumCtg.splitRL (idxStart idxEnd : Nat) (g : CutAccumCtg F) : Option (CutAccumCtg F) :=
  splitRLCtgFrom wordSize idxStart (subIdx idxEnd 1) g

/-- Translates `CutAccumCtgCart::splitResidual`: accumulates `obsCell[cutResidual]`, then
`argmaxResidual(infoGini(...), true)`. -/
def CutAccumCtg.splitResidual (g : CutAccumCtg F) : Option (CutAccumCtg F) :=
  match g.obsCell[g.cutResidual]? with
  | none => none
  | some obs =>
    match g.accumulateCtg obs with
    | none => none
    | some r => some (r.2.argmaxResidual r.2.infoGiniHere true)

/-- Translates `CutAccumCtgCart::residualRL`. -/
def CutAccumCtg.residualRL (g : CutAccumCtg F) : Option (CutAccumCtg F) :=
  let g1 := g.residualCtg
  let g2 := g1.argmaxResidual g1.infoGiniHere false
  g2.splitRL g2.obsStart g2.cutResidual

/-- Translates `CutAccumCtgCart::splitImpl`. -/
def CutAccumCtg.splitImpl (g : CutAccumCtg F) : Option (CutAccumCtg F) :=
  let first :=
    if g.cutResidual < g.obsEnd then
      (g.splitRL g.cutResidual g.obsEnd).bind fun g1 => g1.splitResidual
    else some g
  first.bind fun g2 => if g2.cutResidual > g2.obsStart then g2.residualRL else some g2

/-- Translates `CutAccumCtgCart::splitCtg`: the scan selected by `cand.getImplicitCount()`, then
`info - infoCell`.  Yields the final accumulator and the returned gain. -/
def CutAccumCtg.splitCtg (implicitCount : Nat) (g : CutAccumCtg F) :
    Option (CutAccumCtg F × F) :=
  let infoCell := g.info
  let scanned :=
    if implicitCount ≠ 0 then g.splitImpl
    else g.splitRL g.obsStart g.obsEnd
  scanned.map fun g1 => (g1, g1.info - infoCell)

/-- The arguments the categorical scans pass to `infoGini`. -/
structure CtgArgs (F : Type) where
  ssLeft : F
  ssRight : F
  sumLeft : F
  sumRight : F
  deriving DecidableEq

/-- The arguments of `infoGini(ssL, ssR, sum, sumCount.sum - sum)`. -/
def CutAccumCtg.argsHere (g : CutAccumCtg F) : CtgArgs F :=
  { ssLeft := g.ssL, ssRight := g.ssR, sumLeft := g.sum, sumRight := g.sumCount.sum - g.sum }

/-- The members of `CutAccumCtgCart` as the scans use them. -/
def ctgOps : ScanOps (CutAccumCtg F) F (CtgArgs F) :=
  { obsStart := fun g => g.obsStart
    obsEnd := fun g => g.obsEnd
    cutResidual := fun g => g.cutResidual
    info := fun g => g.info
    cutIndex := fun g => g.cutIndex
    accumulate := fun g idx => (g.obsCell[idx]?).bind fun obs => g.accumulateCtg obs
    residual := fun g => g.residualCtg
    args := fun g => g.argsHere
    trialRL := fun g => g.infoGiniHere
    trialLeft := fun g => g.infoGiniHere
    trialRight := fun g => g.infoGiniHere
    argmaxRL := fun g x idx => g.argmaxRL x idx
    argmaxResidual := fun g x onLeft => g.argmaxResidual x onLeft }

/-- The traced run of `splitCtg`. -/
def CutAccumCtg.scanCtg (implicitCount : Nat) (g : CutAccumCtg F) :
    Option (CutAccumCtg F × List (ScanEvent F (CtgArgs F))) :=
  scan ctgOps implicitCount g

/-- Whether the categorical cell holds at `idx` an observation tied with its left
neighbour. -/
def tiedAtCtg (obsCell : List (ObsCtg F)) (idx : Nat) : Bool :=
  match obsCell[idx]? with
  | some obs => obs.tied
  | none => false

/-- The sum of category `ctg` on the right side when the observations `k ≤ i < hi` have
been accumulated, and the implicit observations iff `r`: the implicit
observations of a category hold what the node's category sum holds beyond the
cell. -/
def ctgRight (obsCell : List (ObsCtg F)) (lo hi : Nat) (ctgSum : List F) (k : Nat) (r : Bool)
    (ctg : Nat) : F :=
  ctgCellSum obsCell k hi ctg +
    (if r then ctgSum.getD ctg 0 - ctgCellSum obsCell lo hi ctg else 0)

/-- The sum of category `ctg` on the left side: the rest of the node's category sum. -/
def ctgLeft (obsCell : List (ObsCtg F)) (lo hi : Nat) (ctgSum : List F) (k : Nat) (r : Bool)
    (ctg : Nat) : F :=
  ctgSum.getD ctg 0 - ctgRight obsCell lo hi ctgSum k r ctg

/-- Sum of the squares of `f 0, ..., f (n - 1)`. -/
def sumSquaresUpTo (n : Nat) (f : Nat → F) : F :=
  Finset.sum (Finset.range n) fun c => f c * f c

/-- Invariant of the categorical scans over the cell `lo ≤ i < hi` of a node with
totals `total` and category sums `ctgSum`: the running sum is that of the
positions `lo ≤ i < k`, plus that of the implicit observations unless `r`;
`ctgAccum` holds the right-side sum of every category; `ssR` and `ssL` are the
sums of the squared right-side and left-side category sums. -/
def CtgInv (obsCell : List (ObsCtg F)) (lo hi cr : Nat) (total : SumCount F) (ctgSum : List F)
    (k : Nat) (r : Bool) (g : CutAccumCtg F) : Prop :=
  g.obsCell = obsCell ∧ g.obsStart = lo ∧ g.obsEnd = hi ∧ g.cutResidual = cr ∧
  g.sumCount = total ∧ g.ctgSum = ctgSum ∧ lo ≤ k ∧ k ≤ hi ∧
  g.sum = cellSumCtg obsCell lo k + (if r then 0 else total.sum - cellSumCtg obsCell lo hi) ∧
  g.ctgAccum.length = ctgSum.length ∧
  (∀ c, c < ctgSum.length → g.ctgAccum.getD c 0 = ctgRight obsCell lo hi ctgSum k r c) ∧
  g.ssR = sumSquaresUpTo ctgSum.length (ctgRight obsCell lo hi ctgSum k r) ∧
  g.ssL = sumSquaresUpTo ctgSum.length (ctgLeft obsCell lo hi ctgSum k r)

/-- The part of the state of a regression accumulator that the scans leave alone: the
cell and its bounds. -/
def RegBounds (obsCell : List (Obs F)) (lo hi cr : Nat) (_k : Nat) (_r : Bool)
    (c : CutAccum F) : Prop :=
  c.obsCell = obsCell ∧ c.obsStart = lo ∧ c.obsEnd = hi ∧ c.cutResidual = cr

/-- The part of the state of a categorical accumulator that the scans leave alone: the
cell, its bounds and the sizes of the per-category vectors. -/
def CtgBounds (obsCell : List (ObsCtg F)) (lo hi cr nCtg : Nat) (_k : Nat) (_r : Bool)
    (g : CutAccumCtg F) : Prop :=
  g.obsCell = obsCell ∧ g.obsStart = lo ∧ g.obsEnd = hi ∧ g.cutResidual = cr ∧
  g.ctgSum.length = nCtg ∧ g.ctgAccum.length = nCtg

/-- A trace stays within the cell `lo ≤ i < hi`: every call `splitRL(a, b)` has `a < b`
and runs exactly `b - 1 - a` iterations, which accumulate `b - 1, ..., a + 1`
in this order; every cut is recorded under an index `j` with
`lo ≤ j ≤ hi - 2`; the indices the scan accumulates lie in `[lo, hi)` and none
is accumulated twice. -/
def TraceInBounds {F A : Type} (lo hi : Nat) (tr : List (ScanEvent F A)) : Prop :=
  (∀ a b body, ScanEvent.call a b body ∈ tr →
    a < b ∧ (stepsOf body).length = b - 1 - a ∧
    stepsOf body = (List.range' (a + 1) (b - 1 - a)).reverse ∧
    ∀ j x p, LoopEvent.cut j x p ∈ body → lo ≤ j ∧ j + 2 ≤ hi) ∧
  (∀ idx ∈ readsOf tr, lo ≤ idx ∧ idx < hi) ∧
  (readsOf tr).Nodup

/-- A regression accumulator over `cellExample` whose last observation stands for the
explicit part right of the residual slot `2`: node totals `(20, 6)`, so the
implicit observations hold `(4, 2)`. -/
def accumImplicit (monoMode : Int) : CutAccum ℚ :=
  CutAccumRegCart.ctor (CutAccum.ctor cellExample 0 4 2 ⟨20, 6⟩ monoMode)

/-- A categorical cell of three observations over two categories. -/
def cellCtgExample : List (ObsCtg ℚ) :=
  [⟨1, 1, false, 0⟩, ⟨2, 1, false, 1⟩, ⟨3, 1, false, 0⟩]

/-- The categorical accumulator over `cellCtgExample` with residual slot `1`: category
sums `(4, 3)` and node totals `(7, 4)`, so the one implicit observation has
category `1` and response `1`. -/
def accumCtgExample : CutAccumCtg ℚ :=
  CutAccumCtgCart.ctor (CutAccumCtg.ctor cellCtgExample 0 3 1 ⟨7, 4⟩ [4, 3])

/-- How a loop that starts from the pair `start` (best statistic, its index) and makes
the offers `offers`, in this order, ends with the pair `final`: when no offer
is above the statistic of `start` the pair is unchanged; otherwise `final` is
the first offer that attains the largest statistic: every earlier offer is
strictly smaller, every later offer is no larger and recorded under a smaller
index. -/
def KeepsFirstMaximum (start final : F × Nat) (offers : List (F × Nat)) : Prop :=
  ((∀ o ∈ offers, o.1 ≤ start.1) → final = start) ∧
  ((∃ o ∈ offers, start.1 < o.1) →
    ∃ l1 l2, offers = l1 ++ final :: l2 ∧ start.1 < final.1 ∧
      (∀ q ∈ l1, q.1 < final.1) ∧ (∀ q ∈ l2, q.1 ≤ final.1 ∧ q.2 < final.2))

/-- A regression cell with responses `1, 5, 1, 5` and unit counts: the cuts left of
positions `1` and `3` both have the largest statistic `124/3`. -/
def cellTies : List (Obs ℚ) :=
  [⟨1, 1, false⟩, ⟨5, 1, false⟩, ⟨1, 1, false⟩, ⟨5, 1, false⟩]

/-- A categorical cell of three observations of one category. -/
def cellCtgTies : List (ObsCtg ℚ) :=
  [⟨1, 1, false, 0⟩, ⟨1, 1, false, 0⟩, ⟨1, 1, false, 0⟩]

/-- What a categorical cut evaluates when the observations `k ≤ i < hi` are on the right
side, and the implicit observations iff `r`: the statistic `x` is `infoGini` of
the arguments `p`, that is `(ssLeft + ssRight) / totalSum`, where `ssLeft` and
`ssRight` are the sums of the squared per-category sums of the two sides. -/
def GiniCut (obsCell : List (ObsCtg F)) (lo hi : Nat) (total : SumCount F) (ctgSum : List F)
    (k : Nat) (r : Bool) (x : F) (p : CtgArgs F) : Prop :=
  x = infoGini p.ssLeft p.ssRight p.sumLeft p.sumRight ∧
  x = (p.ssLeft + p.ssRight) / total.sum ∧
  p.ssLeft = sumSquaresUpTo ctgSum.length (ctgLeft obsCell lo hi ctgSum k r) ∧
  p.ssRight = sumSquaresUpTo ctgSum.length (ctgRight obsCell lo hi ctgSum k r)

/-! ## Theorems -/

/-! ### The L2 update -/

theorem updateL2Loop_eq (estimate : List F) :
    ∀ (l : List (SampleNux F)) (sIdx : Nat) (bagSum : F),
      sIdx + l.length ≤ estimate.length →
      updateL2Loop estimate l sIdx bagSum =
        some (List.zipWith residualNux l (estimate.drop sIdx),
              bagSum + (List.zipWith (fun nux e => nux.sum - e * (nux.sampleCount : F)) l
                (estimate.drop sIdx)).sum) := by
  intro l
  induction l with
  | nil => intro sIdx bagSum _; simp [updateL2Loop]
  | cons nux rest ih =>
    intro sIdx bagSum h
    have hlt : sIdx < estimate.length := by simp at h; omega
    have hdrop : estimate.drop sIdx = estimate[sIdx] :: estimate.drop (sIdx + 1) :=
      List.drop_eq_getElem_cons hlt
    have h2 : sIdx + 1 + rest.length ≤ estimate.length := by simp at h; omega
    simp only [updateL2Loop, List.getElem?_eq_getElem hlt, ih (sIdx + 1) _ h2, hdrop]
    simp [SampleNux.decrementSum, SampleNux.getSCount, residualNux, add_assoc,
      -List.getElem_cons_drop]

theorem zipWith_sum_eq_fin {α β : Type} (f : α → β → F) (l1 : List α) (l2 : List β)
    (h : l1.length = l2.length) :
    (List.zipWith f l1 l2).sum = ∑ i : Fin l1.length, f (l1.get i) (l2.get (Fin.cast h i)) := by
  rw [← List.sum_ofFn]
  congr 1
  apply List.ext_getElem
  · simp [h]
  · intro i h1 h2
    simp

/-- What `updateResidual` computes in L2 mode when `estimate` covers `baseSamples`. -/
theorem updateResidual_L2_eq (boosting : Booster F → Bool) (exp : F → F)
    (st : TrainState F) (b : Booster F)
    (hb : st.booster = some b) (hon : boosting b = true)
    (hmode : b.updater = Updater.updateL2)
    (hlen : b.baseSamples.length ≤ b.estimate.length) :
    updateResidual boosting exp st =
      some { st with
        booster := some b,
        sampledObs := st.sampledObs.setSamples (List.zipWith residualNux b.baseSamples b.estimate),
        bagSum := (List.zipWith (fun nux e => nux.sum - e * (nux.sampleCount : F))
          b.baseSamples b.estimate).sum } := by
  have h := updateL2Loop_eq b.estimate b.baseSamples 0 0 (by simpa using hlen)
  simp [updateResidual, hb, hon, Booster.update, hmode, Booster.updateL2, h]

/-- C1. In L2 mode with boosting enabled and `baseSamples`, `estimate` of one length
`n`, `updateResidual` returns, and the sequence it installs into `sampledObs` has
length `n`, keeps every sample count and has
`r[i].sum = b[i].sum - e[i] * b[i].sampleCount`. -/
theorem updateResidual_L2_installs_residual (boosting : Booster F → Bool) (exp : F → F)
    (st : TrainState F) (b : Booster F)
    (hb : st.booster = some b) (hon : boosting b = true)
    (hmode : b.updater = Updater.updateL2)
    (hlen : b.baseSamples.length = b.estimate.length) :
    ∃ st1, updateResidual boosting exp st = some st1 ∧
      st1.sampledObs.samples.length = b.baseSamples.length ∧
      ∀ (i : Nat) (hi : i < b.baseSamples.length) (he : i < b.estimate.length)
        (hr : i < st1.sampledObs.samples.length),
        st1.sampledObs.samples[i].sampleCount = b.baseSamples[i].sampleCount ∧
        st1.sampledObs.samples[i].sum =
          b.baseSamples[i].sum - b.estimate[i] * (b.baseSamples[i].sampleCount : F) := by
  refine ⟨_, updateResidual_L2_eq boosting exp st b hb hon hmode hlen.le, ?_, ?_⟩
  · simp [SampledObs.setSamples, hlen]
  · intro i hi he hr
    simp [SampledObs.setSamples, residualNux]

/-- C1, the spec's scenario: `y = [1, 3, 5]`, unit counts, estimate `[3, 3, 3]`;
the installed residual is `[-2, 0, 2]`. -/
theorem updateResidual_L2_installs_residual_witness :
    (∃ st1, updateResidual boostingByRate (fun x => x) stateL2Example = some st1 ∧
      st1.sampledObs.samples.length = boosterL2Example.baseSamples.length ∧
      ∀ (i : Nat) (hi : i < boosterL2Example.baseSamples.length)
        (he : i < boosterL2Example.estimate.length)
        (hr : i < st1.sampledObs.samples.length),
        st1.sampledObs.samples[i].sampleCount = boosterL2Example.baseSamples[i].sampleCount ∧
        st1.sampledObs.samples[i].sum =
          boosterL2Example.baseSamples[i].sum -
            boosterL2Example.estimate[i] * (boosterL2Example.baseSamples[i].sampleCount : ℚ)) ∧
    (updateResidual boostingByRate (fun x => x) stateL2Example).map
        (fun st1 => st1.sampledObs.samples) = some [⟨-2, 1⟩, ⟨0, 1⟩, ⟨2, 1⟩] :=
  ⟨updateResidual_L2_installs_residual boostingByRate (fun x => x) stateL2Example
      boosterL2Example rfl (by simp [boostingByRate, boosterL2Example]) rfl rfl,
    by
      simp [updateResidual, stateL2Example, boostingByRate, boosterL2Example, bag135,
        Booster.update, Booster.updateL2, updateL2Loop, SampleNux.decrementSum,
        SampleNux.getSCount, SampledObs.setSamples]
      norm_num⟩

/-- C2. In L2 mode with boosting enabled, `updateResidual` returns with `bagSum`
equal to the sum over the bagged samples of `sampleCount * (y - estimate)`, for
the per-observation responses `y` that `baseSamples` holds
(`sum = sampleCount * y`); the `bagSum` held before the call plays no part. -/
theorem updateResidual_L2_bagSum (boosting : Booster F → Bool) (exp : F → F)
    (st : TrainState F) (b : Booster F)
    (hb : st.booster = some b) (hon : boosting b = true)
    (hmode : b.updater = Updater.updateL2)
    (hlen : b.baseSamples.length = b.estimate.length)
    (y : Fin b.baseSamples.length → F)
    (hy : ∀ i, (b.baseSamples.get i).sum = ((b.baseSamples.get i).sampleCount : F) * y i) :
    (∃ st1, updateResidual boosting exp st = some st1 ∧
      st1.bagSum = ∑ i : Fin b.baseSamples.length,
        ((b.baseSamples.get i).sampleCount : F) * (y i - b.estimate.get (Fin.cast hlen i))) ∧
    ∀ stale : F,
      (updateResidual boosting exp { st with bagSum := stale }).map (fun st1 => st1.bagSum) =
        (updateResidual boosting exp st).map (fun st1 => st1.bagSum) := by
  constructor
  · refine ⟨_, updateResidual_L2_eq boosting exp st b hb hon hmode hlen.le, ?_⟩
    simp only []
    rw [zipWith_sum_eq_fin _ _ _ hlen]
    apply Finset.sum_congr rfl
    intro i _
    rw [hy i]
    ring
  · intro stale
    rw [updateResidual_L2_eq boosting exp st b hb hon hmode hlen.le,
      updateResidual_L2_eq boosting exp { st with bagSum := stale } b hb hon hmode hlen.le]

/-- C2, the spec's scenario: `y = [1, 3, 5]`, unit counts, estimate `[3, 3, 3]` and a
stale `bagSum` of `17`; the call leaves `bagSum = 0`. -/
theorem updateResidual_L2_bagSum_witness :
    ((∃ st1, updateResidual boostingByRate (fun x => x) stateL2Example = some st1 ∧
      st1.bagSum = ∑ i : Fin boosterL2Example.baseSamples.length,
        ((boosterL2Example.baseSamples.get i).sampleCount : ℚ) *
          ((boosterL2Example.baseSamples.get i).sum -
            boosterL2Example.estimate.get (Fin.cast rfl i))) ∧
    ∀ stale : ℚ,
      (updateResidual boostingByRate (fun x => x)
          { stateL2Example with bagSum := stale }).map (fun st1 => st1.bagSum) =
        (updateResidual boostingByRate (fun x => x) stateL2Example).map
          (fun st1 => st1.bagSum)) ∧
    (updateResidual boostingByRate (fun x => x) stateL2Example).map
        (fun st1 => st1.bagSum) = some 0 :=
  ⟨updateResidual_L2_bagSum boostingByRate (fun x => x) stateL2Example
      boosterL2Example rfl (by simp [boostingByRate, boosterL2Example]) rfl rfl
      (fun i => (boosterL2Example.baseSamples.get i).sum)
      (by
        intro i
        have h1 : ∀ nux ∈ boosterL2Example.baseSamples,
            nux.sum = (nux.sampleCount : ℚ) * nux.sum := by
          simp [boosterL2Example, bag135]
        exact h1 _ (List.get_mem _ _ _)),
    by
      simp [updateResidual, stateL2Example, boostingByRate, boosterL2Example, bag135,
        Booster.update, Booster.updateL2, updateL2Loop, SampleNux.decrementSum,
        SampleNux.getSCount, SampledObs.setSamples]
      norm_num⟩

theorem zipWith_replicate_right {α β γ : Type} (f : α → β → γ) (m : β) :
    ∀ l : List α, List.zipWith f l (List.replicate l.length m) = l.map fun x => f x m := by
  intro l
  induction l with
  | nil => simp
  | cons a rest ih => simp [List.replicate_succ, ih]

theorem sum_map_residual (l : List (SampleNux F)) (m : F) :
    (l.map fun nux => nux.sum - m * (nux.sampleCount : F)).sum =
      (l.map fun nux => nux.sum).sum - m * ((l.map fun nux => nux.sampleCount).sum : Nat) := by
  induction l with
  | nil => simp
  | cons a rest ih =>
    simp only [List.map_cons, List.sum_cons, ih]
    push_cast
    ring

/-- C3. In L2 mode, for a bag of positive total sample count whose root carries the
bag's sum and sample count, `setEstimate` sets the base score to their quotient
and the following `updateResidual` installs a residual whose sums add up to `0`
and leaves `bagSum = 0`: the count-weighted mean of the residual is `0`. -/
theorem setEstimate_updateResidual_L2_mean_zero (boosting : Booster F → Bool)
    (root : SampledObs F → IndexSet F) (log exp : F → F)
    (st : TrainState F) (b : Booster F)
    (hb : st.booster = some b)
    (hscorer : b.baseScorer = BaseScorer.mean) (hmode : b.updater = Updater.updateL2)
    (hon : boosting b = true)
    (hon1 : boosting (b.baseEstimate root log st.sampledObs) = true)
    (hbag : st.sampledObs.getBagCount = st.sampledObs.samples.length)
    (hsum : (root st.sampledObs).getSum = (st.sampledObs.samples.map fun nux => nux.sum).sum)
    (hcnt : (root st.sampledObs).getSCount =
      (st.sampledObs.samples.map fun nux => nux.sampleCount).sum)
    (hpos : 0 < (st.sampledObs.samples.map fun nux => nux.sampleCount).sum) :
    ∃ st1 st2 b1, setEstimate boosting root log st = some st1 ∧
      st1.booster = some b1 ∧
      b1.baseScore = (st.sampledObs.samples.map fun nux => nux.sum).sum /
        (((st.sampledObs.samples.map fun nux => nux.sampleCount).sum : Nat) : F) ∧
      b1.estimate = List.replicate st.sampledObs.samples.length b1.baseScore ∧
      updateResidual boosting exp st1 = some st2 ∧
      st2.bagSum = 0 ∧
      (st2.sampledObs.samples.map fun nux => nux.sum).sum = 0 ∧
      (st2.sampledObs.samples.map fun nux => nux.sampleCount) =
        (st.sampledObs.samples.map fun nux => nux.sampleCount) ∧
      (st2.sampledObs.samples.map fun nux => nux.sum).sum /
        (((st2.sampledObs.samples.map fun nux => nux.sampleCount).sum : Nat) : F) = 0 := by
  have hne : (((st.sampledObs.samples.map fun nux => nux.sampleCount).sum : Nat) : F) ≠ 0 := by
    exact_mod_cast hpos.ne.symm
  have hb1 : (b.baseEstimate root log st.sampledObs).baseSamples.length ≤
      (b.baseEstimate root log st.sampledObs).estimate.length := by
    simp [Booster.baseEstimate, SampledObs.getSamples, hbag]
  have hscore : (b.baseEstimate root log st.sampledObs).baseScore =
      (st.sampledObs.samples.map fun nux => nux.sum).sum /
        (((st.sampledObs.samples.map fun nux => nux.sampleCount).sum : Nat) : F) := by
    simp [Booster.baseEstimate, Booster.applyBaseScorer, hscorer, Booster.mean, hsum, hcnt]
  have hest : (b.baseEstimate root log st.sampledObs).estimate =
      List.replicate st.sampledObs.samples.length
        (b.baseEstimate root log st.sampledObs).baseScore := by
    simp [Booster.baseEstimate, hbag]
  have hzero : (List.zipWith (fun nux e => nux.sum - e * (nux.sampleCount : F))
      (b.baseEstimate root log st.sampledObs).baseSamples
      (b.baseEstimate root log st.sampledObs).estimate).sum = 0 := by
    rw [hest]
    have hs : (b.baseEstimate root log st.sampledObs).baseSamples = st.sampledObs.samples := by
      simp [Booster.baseEstimate, SampledObs.getSamples]
    rw [hs, zipWith_replicate_right, sum_map_residual, hscore, div_mul_cancel₀ _ hne, sub_self]
  have hres : (List.zipWith residualNux
      (b.baseEstimate root log st.sampledObs).baseSamples
      (b.baseEstimate root log st.sampledObs).estimate) =
      st.sampledObs.samples.map fun nux =>
        residualNux nux (b.baseEstimate root log st.sampledObs).baseScore := by
    rw [hest]
    have hs : (b.baseEstimate root log st.sampledObs).baseSamples = st.sampledObs.samples := by
      simp [Booster.baseEstimate, SampledObs.getSamples]
    rw [hs, zipWith_replicate_right]
  have hsums : ((List.zipWith residualNux
      (b.baseEstimate root log st.sampledObs).baseSamples
      (b.baseEstimate root log st.sampledObs).estimate).map fun nux => nux.sum).sum = 0 := by
    rw [← hzero, hres, hest]
    have hs : (b.baseEstimate root log st.sampledObs).baseSamples = st.sampledObs.samples := by
      simp [Booster.baseEstimate, SampledObs.getSamples]
    rw [hs, zipWith_replicate_right]
    simp [residualNux, Function.comp_def]
  refine ⟨{ st with booster := some (b.baseEstimate root log st.sampledObs) }, _,
    b.baseEstimate root log st.sampledObs, ?_, rfl, hscore, hest,
    updateResidual_L2_eq boosting exp _ _ rfl hon1 (by simpa [Booster.baseEstimate] using hmode) hb1,
    hzero, ?_, ?_, ?_⟩
  · simp [setEstimate, hb, hon]
  · simpa [SampledObs.setSamples] using hsums
  · simp [SampledObs.setSamples, hres, residualNux, Function.comp_def]
  · have h0 := hsums
    simp only [SampledObs.setSamples] at h0 ⊢
    rw [h0, zero_div]

/-- C3, the spec's scenario: `y = [1, 3, 5]` with unit counts gives base score `3`,
and `bagSum = 0` after the first `updateResidual`. -/
theorem setEstimate_updateResidual_L2_mean_zero_witness :
    0 < (stateL2Fresh.sampledObs.samples.map fun nux => nux.sampleCount).sum ∧
    (∃ st1 st2 b1, setEstimate boostingByRate rootOfBag (fun x => x) stateL2Fresh = some st1 ∧
      st1.booster = some b1 ∧
      b1.baseScore = (stateL2Fresh.sampledObs.samples.map fun nux => nux.sum).sum /
        (((stateL2Fresh.sampledObs.samples.map fun nux => nux.sampleCount).sum : Nat) : ℚ) ∧
      b1.estimate = List.replicate stateL2Fresh.sampledObs.samples.length b1.baseScore ∧
      updateResidual boostingByRate (fun x => x) st1 = some st2 ∧
      st2.bagSum = 0 ∧
      (st2.sampledObs.samples.map fun nux => nux.sum).sum = 0 ∧
      (st2.sampledObs.samples.map fun nux => nux.sampleCount) =
        (stateL2Fresh.sampledObs.samples.map fun nux => nux.sampleCount) ∧
      (st2.sampledObs.samples.map fun nux => nux.sum).sum /
        (((st2.sampledObs.samples.map fun nux => nux.sampleCount).sum : Nat) : ℚ) = 0) ∧
    (stateL2Fresh.sampledObs.samples.map fun nux => nux.sum).sum /
        (((stateL2Fresh.sampledObs.samples.map fun nux => nux.sampleCount).sum : Nat) : ℚ) = 3 :=
  ⟨by simp [stateL2Fresh, makeL2, bag135],
    setEstimate_updateResidual_L2_mean_zero boostingByRate rootOfBag (fun x => x) (fun x => x)
      stateL2Fresh (Booster.ctor BaseScorer.mean Updater.updateL2 1 0) rfl rfl rfl
      (by simp [boostingByRate, Booster.ctor])
      (by simp [boostingByRate, Booster.ctor, Booster.baseEstimate])
      rfl rfl rfl (by simp [stateL2Fresh, makeL2, bag135]),
    by
      simp [stateL2Fresh, makeL2, bag135]
      norm_num⟩
/-! ### The LogOdds update -/

theorem getElem?_append_cons_length {α : Type} (pre : List α) (q : α) (rest : List α) :
    (pre ++ q :: rest)[pre.length]? = some q := by
  induction pre with
  | nil => simp
  | cons a t ih => simpa using ih

theorem set_append_cons_length {α : Type} (pre : List α) (q x : α) (rest : List α) :
    (pre ++ q :: rest).set pre.length x = pre ++ x :: rest := by
  induction pre with
  | nil => simp
  | cons a t ih => simp

theorem updateLogOddsLoop_eq (pspost post : List F) :
    ∀ (l : List (SampleNux F)) (ps0 ps pre qs : List F) (bagSum : F),
      ps0.length = pre.length → ps.length = l.length → qs.length = l.length →
      updateLogOddsLoop (ps0 ++ ps ++ pspost) l pre.length bagSum (pre ++ qs ++ post) =
        some (List.zipWith residualNux l ps,
              bagSum + (List.zipWith (fun nux e => nux.sum - e * (nux.sampleCount : F)) l ps).sum,
              pre ++ List.zipWith (fun nux q => q * (nux.sampleCount : F)) l qs ++ post) := by
  intro l
  induction l with
  | nil =>
    intro ps0 ps pre qs bagSum _ hp hq
    simp at hp hq
    simp [updateLogOddsLoop, hp, hq]
  | cons nux rest ih =>
    intro ps0 ps pre qs bagSum h0 hp hq
    match ps, qs, hp, hq with
    | a :: ps1, q :: qs1, hp, hq =>
      simp at hp hq
      have e1 : (ps0 ++ a :: ps1 ++ pspost)[pre.length]? = some a := by
        rw [← h0, List.append_assoc, List.cons_append]
        exact getElem?_append_cons_length _ _ _
      have e2 : (pre ++ q :: qs1 ++ post)[pre.length]? = some q := by
        rw [List.append_assoc, List.cons_append]
        exact getElem?_append_cons_length _ _ _
      have e3 : (pre ++ q :: qs1 ++ post).set pre.length (q * (nux.sampleCount : F)) =
          (pre ++ [q * (nux.sampleCount : F)]) ++ qs1 ++ post := by
        rw [List.append_assoc, List.cons_append, set_append_cons_length]
        simp
      have e4 : ps0 ++ a :: ps1 ++ pspost = (ps0 ++ [a]) ++ ps1 ++ pspost := by simp
      have e5 : pre.length + 1 = (pre ++ [q * (nux.sampleCount : F)]).length := by simp
      have hih := ih (ps0 ++ [a]) ps1 (pre ++ [q * (nux.sampleCount : F)]) qs1
        (bagSum + (nux.sum - a * (nux.sampleCount : F))) (by simp [h0]) hp hq
      simp only [updateLogOddsLoop, e1, e2, SampleNux.decrementSum, SampleNux.getSCount, e3]
      rw [e5, e4, hih]
      simp [residualNux, add_assoc]

/-- What `updateResidual` computes in LogOdds mode when `estimate` covers
`baseSamples`: entries of `pq` beyond the samples keep the unscaled `p * (1 - p)`. -/
theorem updateResidual_LogOdds_eq (boosting : Booster F → Bool) (exp : F → F)
    (st : TrainState F) (b : Booster F)
    (hb : st.booster = some b) (hon : boosting b = true)
    (hmode : b.updater = Updater.updateLogOdds)
    (hlen : b.baseSamples.length ≤ b.estimate.length) :
    updateResidual boosting exp st =
      some { st with
        booster := some b,
        sampledObs := st.sampledObs.setSamples
          (List.zipWith residualNux b.baseSamples (logistic exp b.estimate)),
        bagSum := (List.zipWith (fun nux e => nux.sum - e * (nux.sampleCount : F))
          b.baseSamples (logistic exp b.estimate)).sum,
        frontierScorer := st.frontierScorer.setGamma
          (List.zipWith (fun nux q => q * (nux.sampleCount : F)) b.baseSamples
              (scaleComplement (logistic exp b.estimate)) ++
            (scaleComplement (logistic exp b.estimate)).drop b.baseSamples.length) } := by
  have hp : ((logistic exp b.estimate).take b.baseSamples.length).length =
      b.baseSamples.length := by
    simp [logistic, hlen]
  have hq : ((scaleComplement (logistic exp b.estimate)).take b.baseSamples.length).length =
      b.baseSamples.length := by
    simp [logistic, scaleComplement, hlen]
  have h := updateLogOddsLoop_eq
    ((logistic exp b.estimate).drop b.baseSamples.length)
    ((scaleComplement (logistic exp b.estimate)).drop b.baseSamples.length)
    b.baseSamples [] ((logistic exp b.estimate).take b.baseSamples.length) []
    ((scaleComplement (logistic exp b.estimate)).take b.baseSamples.length) 0 rfl hp hq
  simp only [List.nil_append, List.take_append_drop, List.length_nil, zero_add] at h
  have t1 : ∀ {α β : Type} (f : SampleNux F → α → β) (l : List α),
      List.zipWith f b.baseSamples (l.take b.baseSamples.length) =
        List.zipWith f b.baseSamples l := by
    intro α β f l
    apply List.ext_getElem
    · simp
    · intro i h1 h2
      simp
  rw [t1, t1, t1] at h
  simp [updateResidual, hb, hon, Booster.update, hmode, Booster.updateLogOdds, h]

/-- C4. In LogOdds mode with boosting enabled and `baseSamples`, `estimate` of one
length `n`, `updateResidual` returns; with `p[i] = 1 / (1 + exp (-e[i]))` the
installed residual keeps every sample count and has
`r[i].sum = b[i].sum - p[i] * b[i].sampleCount`, and the vector handed to
`setGamma` has length `n` and entries `p[i] * (1 - p[i]) * b[i].sampleCount`. -/
theorem updateResidual_LogOdds_residual_gamma (boosting : Booster F → Bool) (exp : F → F)
    (st : TrainState F) (b : Booster F)
    (hb : st.booster = some b) (hon : boosting b = true)
    (hmode : b.updater = Updater.updateLogOdds)
    (hlen : b.baseSamples.length = b.estimate.length) :
    ∃ st1, updateResidual boosting exp st = some st1 ∧
      st1.sampledObs.samples.length = b.baseSamples.length ∧
      st1.frontierScorer.gamma.length = b.baseSamples.length ∧
      st1.frontierScorer = st.frontierScorer.setGamma st1.frontierScorer.gamma ∧
      ∀ (i : Nat) (hi : i < b.baseSamples.length) (he : i < b.estimate.length)
        (hr : i < st1.sampledObs.samples.length) (hg : i < st1.frontierScorer.gamma.length),
        st1.sampledObs.samples[i].sampleCount = b.baseSamples[i].sampleCount ∧
        st1.sampledObs.samples[i].sum =
          b.baseSamples[i].sum -
            1 / (1 + exp (-b.estimate[i])) * (b.baseSamples[i].sampleCount : F) ∧
        st1.frontierScorer.gamma[i] =
          1 / (1 + exp (-b.estimate[i])) * (1 - 1 / (1 + exp (-b.estimate[i]))) *
            (b.baseSamples[i].sampleCount : F) := by
  have hdrop : (scaleComplement (logistic exp b.estimate)).drop b.baseSamples.length = [] := by
    simp [logistic, scaleComplement, hlen]
  have heq := updateResidual_LogOdds_eq boosting exp st b hb hon hmode hlen.le
  rw [hdrop, List.append_nil] at heq
  refine ⟨_, heq, ?_, ?_, ?_, ?_⟩
  · simp [SampledObs.setSamples, logistic, hlen]
  · simp [NodeScorer.setGamma, logistic, scaleComplement, hlen]
  · simp [NodeScorer.setGamma]
  · intro i hi he hr hg
    simp [SampledObs.setSamples, NodeScorer.setGamma, residualNux, logistic, scaleComplement]


/-- C4 at estimate `[0, 0]` and samples `(1, 2)`, `(0, 1)`: `p = 1/2`, so the residual
sums are `0` and `-1/2` and `gamma = [1/2, 1/4]`. -/
theorem updateResidual_LogOdds_residual_gamma_witness :
    (∃ st1, updateResidual boostingByRate Real.exp (stateLogOddsExample : TrainState ℝ) =
        some st1 ∧
      st1.sampledObs.samples.length = (boosterLogOddsExample : Booster ℝ).baseSamples.length ∧
      st1.frontierScorer.gamma.length = (boosterLogOddsExample : Booster ℝ).baseSamples.length ∧
      st1.frontierScorer =
        (stateLogOddsExample : TrainState ℝ).frontierScorer.setGamma st1.frontierScorer.gamma ∧
      ∀ (i : Nat) (hi : i < (boosterLogOddsExample : Booster ℝ).baseSamples.length)
        (he : i < (boosterLogOddsExample : Booster ℝ).estimate.length)
        (hr : i < st1.sampledObs.samples.length) (hg : i < st1.frontierScorer.gamma.length),
        st1.sampledObs.samples[i].sampleCount =
          (boosterLogOddsExample : Booster ℝ).baseSamples[i].sampleCount ∧
        st1.sampledObs.samples[i].sum =
          (boosterLogOddsExample : Booster ℝ).baseSamples[i].sum -
            1 / (1 + Real.exp (-(boosterLogOddsExample : Booster ℝ).estimate[i])) *
              ((boosterLogOddsExample : Booster ℝ).baseSamples[i].sampleCount : ℝ) ∧
        st1.frontierScorer.gamma[i] =
          1 / (1 + Real.exp (-(boosterLogOddsExample : Booster ℝ).estimate[i])) *
            (1 - 1 / (1 + Real.exp (-(boosterLogOddsExample : Booster ℝ).estimate[i]))) *
            ((boosterLogOddsExample : Booster ℝ).baseSamples[i].sampleCount : ℝ)) ∧
    (updateResidual boostingByRate Real.exp (stateLogOddsExample : TrainState ℝ)).map
        (fun st1 => (st1.sampledObs.samples, st1.frontierScorer.gamma)) =
      some ([⟨0, 2⟩, ⟨-1 / 2, 1⟩], [1 / 2, 1 / 4]) :=
  ⟨updateResidual_LogOdds_residual_gamma boostingByRate Real.exp stateLogOddsExample
      boosterLogOddsExample rfl (by simp [boostingByRate, boosterLogOddsExample]) rfl rfl,
    by
      rw [updateResidual_LogOdds_eq boostingByRate Real.exp stateLogOddsExample
        boosterLogOddsExample rfl (by simp [boostingByRate, boosterLogOddsExample]) rfl
        (by simp [boosterLogOddsExample])]
      simp [boosterLogOddsExample, logistic, scaleComplement, residualNux,
        SampledObs.setSamples, NodeScorer.setGamma]
      norm_num⟩

theorem updateLogOddsLoop_nonneg (p : List F) :
    ∀ (l : List (SampleNux F)) (sIdx : Nat) (bagSum : F) (pq : List F)
      (res : List (SampleNux F)) (total : F) (gamma : List F),
      (∀ q ∈ pq, 0 ≤ q) →
      updateLogOddsLoop p l sIdx bagSum pq = some (res, total, gamma) →
      ∀ g ∈ gamma, 0 ≤ g := by
  intro l
  induction l with
  | nil =>
    intro sIdx bagSum pq res total gamma hpq h
    simp [updateLogOddsLoop] at h
    rw [← h.2.2]
    exact hpq
  | cons nux rest ih =>
    intro sIdx bagSum pq res total gamma hpq h
    unfold updateLogOddsLoop at h
    cases hp : p[sIdx]? with
    | none => simp [hp] at h
    | some a =>
      cases hq : pq[sIdx]? with
      | none => simp [hp, hq] at h
      | some q =>
        simp only [hp, hq] at h
        cases hrec : updateLogOddsLoop p rest (sIdx + 1)
            (bagSum + (nux.decrementSum a).2)
            (pq.set sIdx (q * ((nux.decrementSum a).1.getSCount : F))) with
        | none => simp [hrec] at h
        | some r =>
          obtain ⟨res1, total1, gamma1⟩ := r
          simp [hrec] at h
          have hq0 : 0 ≤ q := hpq q (List.getElem?_mem hq)
          have hset : ∀ x ∈ pq.set sIdx (q * ((nux.decrementSum a).1.getSCount : F)),
              0 ≤ x := by
            intro x hx
            rcases List.mem_or_eq_of_mem_set hx with hx1 | hx1
            · exact hpq x hx1
            · rw [hx1]
              exact mul_nonneg hq0 (Nat.cast_nonneg _)
          have := ih (sIdx + 1) _ _ res1 total1 gamma1 hset hrec
          rw [← h.2.2]
          exact this

theorem logistic_mem_Ioo (e : List ℝ) : ∀ p ∈ logistic Real.exp e, 0 < p ∧ p < 1 := by
  intro p hp
  simp only [logistic, List.mem_map] at hp
  obtain ⟨x, _, rfl⟩ := hp
  have hpos : 0 < Real.exp (-x) := Real.exp_pos _
  constructor
  · positivity
  · rw [div_lt_one (by positivity)]
    linarith

/-- C5. With doubles read as real numbers, every probability `Booster::logistic`
computes lies strictly between `0` and `1`, and in LogOdds mode every entry of
the `gamma` that `updateResidual` hands to the scorer is non-negative; the call
returns whenever `estimate` covers `baseSamples`. -/
theorem logistic_bounds_gamma_nonneg (boosting : Booster ℝ → Bool)
    (st : TrainState ℝ) (b : Booster ℝ)
    (hb : st.booster = some b) (hon : boosting b = true)
    (hmode : b.updater = Updater.updateLogOdds) :
    (∀ p ∈ logistic Real.exp b.estimate, 0 < p ∧ p < 1) ∧
    (∀ st1, updateResidual boosting Real.exp st = some st1 →
      ∀ g ∈ st1.frontierScorer.gamma, 0 ≤ g) ∧
    (b.baseSamples.length ≤ b.estimate.length →
      ∃ st1, updateResidual boosting Real.exp st = some st1) := by
  refine ⟨logistic_mem_Ioo b.estimate, ?_, ?_⟩
  · intro st1 h
    simp only [updateResidual, hb, hon, Booster.update, hmode, Booster.updateLogOdds,
      if_true] at h
    cases hloop : updateLogOddsLoop (logistic Real.exp b.estimate) b.baseSamples 0 0
        (scaleComplement (logistic Real.exp b.estimate)) with
    | none => simp [hloop] at h
    | some r =>
      obtain ⟨res, total, gamma⟩ := r
      simp only [hloop, Option.some.injEq] at h
      have hpq : ∀ q ∈ scaleComplement (logistic Real.exp b.estimate), 0 ≤ q := by
        intro q hq
        simp only [scaleComplement, List.mem_map] at hq
        obtain ⟨p, hp, rfl⟩ := hq
        have := logistic_mem_Ioo b.estimate p hp
        exact mul_nonneg this.1.le (by linarith [this.2])
      have := updateLogOddsLoop_nonneg _ _ _ _ _ _ _ _ hpq hloop
      rw [← h]
      simpa [NodeScorer.setGamma] using this
  · intro hlen
    exact ⟨_, updateResidual_LogOdds_eq boosting Real.exp st b hb hon hmode hlen⟩

/-- C5 at `stateLogOddsExample`. -/
theorem logistic_bounds_gamma_nonneg_witness :
    (∀ p ∈ logistic Real.exp (boosterLogOddsExample : Booster ℝ).estimate, 0 < p ∧ p < 1) ∧
    (∀ st1, updateResidual boostingByRate Real.exp (stateLogOddsExample : TrainState ℝ) =
        some st1 → ∀ g ∈ st1.frontierScorer.gamma, 0 ≤ g) ∧
    ((boosterLogOddsExample : Booster ℝ).baseSamples.length ≤
        (boosterLogOddsExample : Booster ℝ).estimate.length →
      ∃ st1, updateResidual boostingByRate Real.exp (stateLogOddsExample : TrainState ℝ) =
        some st1) :=
  logistic_bounds_gamma_nonneg boostingByRate stateLogOddsExample boosterLogOddsExample rfl
    (by simp [boostingByRate, boosterLogOddsExample]) rfl



theorem logistic_replicate (exp : F → F) (n : Nat) (x : F) :
    logistic exp (List.replicate n x) = List.replicate n (1 / (1 + exp (-x))) := by
  simp [logistic]

theorem logistic_log_ratio (c0 c1 : Nat) (h0 : 0 < c0) (h1 : 0 < c1) :
    1 / (1 + Real.exp (-Real.log ((c1 : ℝ) / (c0 : ℝ)))) = (c1 : ℝ) / ((c0 : ℝ) + (c1 : ℝ)) := by
  have hc0 : (0 : ℝ) < c0 := by exact_mod_cast h0
  have hc1 : (0 : ℝ) < c1 := by exact_mod_cast h1
  have hs : (0 : ℝ) < (c0 : ℝ) + c1 := by positivity
  rw [Real.exp_neg, Real.exp_log (div_pos hc1 hc0), inv_div,
    div_eq_div_iff (by positivity) hs.ne.symm]
  field_simp
  ring

/-- C6. In LogOdds mode, for a bag whose root counts `count0` and `count1` are
positive, `setEstimate` sets the base score to `log (count1 / count0)`; the
first `updateResidual` then computes the probability
`p = count1 / (count0 + count1)` for every bagged observation, installs the
residual `sum - p * sampleCount` and hands the scorer
`gamma = p * (1 - p) * sampleCount`. -/
theorem logOdds_first_update (boosting : Booster ℝ → Bool)
    (root : SampledObs ℝ → IndexSet ℝ) (st : TrainState ℝ) (b : Booster ℝ)
    (count0 count1 : Nat)
    (hb : st.booster = some b)
    (hscorer : b.baseScorer = BaseScorer.logit) (hmode : b.updater = Updater.updateLogOdds)
    (hon : boosting b = true)
    (hon1 : boosting (b.baseEstimate root Real.log st.sampledObs) = true)
    (hbag : st.sampledObs.getBagCount = st.sampledObs.samples.length)
    (hroot0 : (root st.sampledObs).getCategoryCount 0 = count0)
    (hroot1 : (root st.sampledObs).getCategoryCount 1 = count1)
    (h0 : 0 < count0) (h1 : 0 < count1) :
    ∃ st1 st2 b1, setEstimate boosting root Real.log st = some st1 ∧
      st1.booster = some b1 ∧
      b1.baseScore = Real.log ((count1 : ℝ) / (count0 : ℝ)) ∧
      logistic Real.exp b1.estimate =
        List.replicate st.sampledObs.samples.length ((count1 : ℝ) / ((count0 : ℝ) + (count1 : ℝ))) ∧
      updateResidual boosting Real.exp st1 = some st2 ∧
      st2.sampledObs.samples = st.sampledObs.samples.map (fun nux =>
        { sum := nux.sum - (count1 : ℝ) / ((count0 : ℝ) + (count1 : ℝ)) * (nux.sampleCount : ℝ),
          sampleCount := nux.sampleCount }) ∧
      st2.frontierScorer.gamma = st.sampledObs.samples.map (fun nux =>
        (count1 : ℝ) / ((count0 : ℝ) + (count1 : ℝ)) *
          (1 - (count1 : ℝ) / ((count0 : ℝ) + (count1 : ℝ))) * (nux.sampleCount : ℝ)) := by
  have hs : (b.baseEstimate root Real.log st.sampledObs).baseSamples = st.sampledObs.samples := by
    simp [Booster.baseEstimate, SampledObs.getSamples]
  have hscore : (b.baseEstimate root Real.log st.sampledObs).baseScore =
      Real.log ((count1 : ℝ) / (count0 : ℝ)) := by
    simp [Booster.baseEstimate, Booster.applyBaseScorer, hscorer, Booster.logit, hroot0, hroot1]
  have hest : (b.baseEstimate root Real.log st.sampledObs).estimate =
      List.replicate st.sampledObs.samples.length (Real.log ((count1 : ℝ) / (count0 : ℝ))) := by
    rw [← hscore]
    simp [Booster.baseEstimate, hbag]
  have hp : logistic Real.exp (b.baseEstimate root Real.log st.sampledObs).estimate =
      List.replicate st.sampledObs.samples.length
        ((count1 : ℝ) / ((count0 : ℝ) + (count1 : ℝ))) := by
    rw [hest, logistic_replicate, logistic_log_ratio count0 count1 h0 h1]
  have hlen : (b.baseEstimate root Real.log st.sampledObs).baseSamples.length ≤
      (b.baseEstimate root Real.log st.sampledObs).estimate.length := by
    rw [hs, hest]; simp
  have heq := updateResidual_LogOdds_eq boosting Real.exp
    { st with booster := some (b.baseEstimate root Real.log st.sampledObs) }
    (b.baseEstimate root Real.log st.sampledObs) rfl hon1
    (by simpa [Booster.baseEstimate] using hmode) hlen
  rw [hp, hs] at heq
  refine ⟨{ st with booster := some (b.baseEstimate root Real.log st.sampledObs) }, _,
    b.baseEstimate root Real.log st.sampledObs, ?_, rfl, hscore, hp, heq, ?_, ?_⟩
  · simp [setEstimate, hb, hon]
  · simp [SampledObs.setSamples, zipWith_replicate_right, residualNux]
  · simp [NodeScorer.setGamma, scaleComplement, zipWith_replicate_right]

/-- C6, the spec's scenario: root counts `(3, 1)` give base score `log (1 / 3)`,
`p = 0.25` and `gamma = 0.1875 * sampleCount`. -/
theorem logOdds_first_update_witness :
    (∃ st1 st2 b1, setEstimate boostingByRate (rootOfBagCtg [3, 1]) Real.log
        (stateLogOddsFresh : TrainState ℝ) = some st1 ∧
      st1.booster = some b1 ∧
      b1.baseScore = Real.log (((1 : Nat) : ℝ) / ((3 : Nat) : ℝ)) ∧
      logistic Real.exp b1.estimate =
        List.replicate (stateLogOddsFresh : TrainState ℝ).sampledObs.samples.length
          (((1 : Nat) : ℝ) / (((3 : Nat) : ℝ) + ((1 : Nat) : ℝ))) ∧
      updateResidual boostingByRate Real.exp st1 = some st2 ∧
      st2.sampledObs.samples = (stateLogOddsFresh : TrainState ℝ).sampledObs.samples.map
        (fun nux =>
          { sum := nux.sum - ((1 : Nat) : ℝ) / (((3 : Nat) : ℝ) + ((1 : Nat) : ℝ)) *
              (nux.sampleCount : ℝ),
            sampleCount := nux.sampleCount }) ∧
      st2.frontierScorer.gamma = (stateLogOddsFresh : TrainState ℝ).sampledObs.samples.map
        (fun nux =>
          ((1 : Nat) : ℝ) / (((3 : Nat) : ℝ) + ((1 : Nat) : ℝ)) *
            (1 - ((1 : Nat) : ℝ) / (((3 : Nat) : ℝ) + ((1 : Nat) : ℝ))) *
            (nux.sampleCount : ℝ))) ∧
    ((1 : Nat) : ℝ) / (((3 : Nat) : ℝ) + ((1 : Nat) : ℝ)) = 0.25 ∧
    ((1 : Nat) : ℝ) / (((3 : Nat) : ℝ) + ((1 : Nat) : ℝ)) *
      (1 - ((1 : Nat) : ℝ) / (((3 : Nat) : ℝ) + ((1 : Nat) : ℝ))) = 0.1875 :=
  ⟨logOdds_first_update boostingByRate (rootOfBagCtg [3, 1]) stateLogOddsFresh
      (Booster.ctor BaseScorer.logit Updater.updateLogOdds 1 0) 3 1 rfl rfl rfl
      (by simp [boostingByRate, Booster.ctor])
      (by simp [boostingByRate, Booster.ctor, Booster.baseEstimate])
      rfl rfl rfl (by decide) (by decide),
    by norm_num, by norm_num⟩

/-! ### setEstimate, the Zero state and the frame of updateResidual -/

/-- C7. With boosting enabled, `setEstimate` returns with `baseSamples` equal to the
samples of `sampledObs`, `baseScore` equal to the selected base scorer applied
to the root built from `sampledObs`, and `estimate` of length `getBagCount()`
with every entry equal to `baseScore`; `sampledObs`, `bagSum`, the scorer and
the booster's `nu` and selectors are as before. -/
theorem setEstimate_captures_base (boosting : Booster F → Bool)
    (root : SampledObs F → IndexSet F) (log : F → F)
    (st : TrainState F) (b : Booster F)
    (hb : st.booster = some b) (hon : boosting b = true) :
    ∃ st1 b1, setEstimate boosting root log st = some st1 ∧
      st1.booster = some b1 ∧
      b1.baseSamples = st.sampledObs.getSamples ∧
      b1.baseScore =
        (match b.baseScorer with
          | BaseScorer.zero => 0
          | BaseScorer.mean =>
            (root st.sampledObs).getSum / ((root st.sampledObs).getSCount : F)
          | BaseScorer.logit =>
            log (((root st.sampledObs).getCategoryCount 1 : F) /
              ((root st.sampledObs).getCategoryCount 0 : F))) ∧
      b1.estimate.length = st.sampledObs.getBagCount ∧
      (∀ x ∈ b1.estimate, x = b1.baseScore) ∧
      st1.sampledObs = st.sampledObs ∧
      st1.bagSum = st.bagSum ∧
      st1.frontierScorer = st.frontierScorer ∧
      b1.nu = b.nu ∧ b1.baseScorer = b.baseScorer ∧ b1.updater = b.updater := by
  refine ⟨{ st with booster := some (b.baseEstimate root log st.sampledObs) },
    b.baseEstimate root log st.sampledObs, ?_, rfl, rfl, ?_, ?_, ?_, rfl, rfl, rfl, rfl, rfl, rfl⟩
  · simp [setEstimate, hb, hon]
  · cases hs : b.baseScorer <;>
      simp [Booster.baseEstimate, Booster.applyBaseScorer, hs, Booster.zero, Booster.mean,
        Booster.logit]
  · simp [Booster.baseEstimate]
  · intro x hx
    simp only [Booster.baseEstimate] at hx ⊢
    exact List.eq_of_mem_replicate hx

/-- C7 on the spec's L2 scenario: the bag `y = [1, 3, 5]` gives `baseScore = 3` and
`estimate = [3, 3, 3]`. -/
theorem setEstimate_captures_base_witness :
    (∃ st1 b1, setEstimate boostingByRate rootOfBag (fun x => x) stateL2Fresh = some st1 ∧
      st1.booster = some b1 ∧
      b1.baseSamples = stateL2Fresh.sampledObs.getSamples ∧
      b1.baseScore =
        (match (Booster.ctor BaseScorer.mean Updater.updateL2 (1 : ℚ) 0).baseScorer with
          | BaseScorer.zero => 0
          | BaseScorer.mean =>
            (rootOfBag stateL2Fresh.sampledObs).getSum /
              ((rootOfBag stateL2Fresh.sampledObs).getSCount : ℚ)
          | BaseScorer.logit =>
            (fun x => x) (((rootOfBag stateL2Fresh.sampledObs).getCategoryCount 1 : ℚ) /
              ((rootOfBag stateL2Fresh.sampledObs).getCategoryCount 0 : ℚ))) ∧
      b1.estimate.length = stateL2Fresh.sampledObs.getBagCount ∧
      (∀ x ∈ b1.estimate, x = b1.baseScore) ∧
      st1.sampledObs = stateL2Fresh.sampledObs ∧
      st1.bagSum = stateL2Fresh.bagSum ∧
      st1.frontierScorer = stateL2Fresh.frontierScorer ∧
      b1.nu = (Booster.ctor BaseScorer.mean Updater.updateL2 (1 : ℚ) 0).nu ∧
      b1.baseScorer = (Booster.ctor BaseScorer.mean Updater.updateL2 (1 : ℚ) 0).baseScorer ∧
      b1.updater = (Booster.ctor BaseScorer.mean Updater.updateL2 (1 : ℚ) 0).updater) ∧
    (setEstimate boostingByRate rootOfBag (fun x => x) stateL2Fresh).map
        (fun st1 => st1.booster.map fun b1 => (b1.baseScore, b1.estimate)) =
      some (some (3, [3, 3, 3])) :=
  ⟨setEstimate_captures_base boostingByRate rootOfBag (fun x => x) stateL2Fresh
      (Booster.ctor BaseScorer.mean Updater.updateL2 1 0) rfl
      (by simp [boostingByRate, Booster.ctor]),
    by
      simp [setEstimate, stateL2Fresh, makeL2, boostingByRate, Booster.ctor,
        Booster.baseEstimate, Booster.applyBaseScorer, Booster.mean, rootOfBag, bag135,
        IndexSet.getSum, IndexSet.getSCount, SampledObs.getBagCount, List.replicate]
      norm_num⟩

/-- C8. In the state `makeZero` creates, with `boosting()` false there, `setEstimate`,
`updateResidual` and `updateEstimate` return the state they were given: for
every `sampledObs`, `bagSum` and scorer, neither these nor the booster's fields
change.  `updateResidual` leaves the state as it was whatever `boosting()`
answers, since the installed updater is `noUpdate`. -/
theorem zero_state_calls_are_noops (boosting : Booster F → Bool)
    (root : SampledObs F → IndexSet F) (log exp : F → F) (scale : List F → F → List F)
    (st : TrainState F) (junk : F)
    (hoff : boosting (Booster.ctor BaseScorer.zero Updater.noUpdate 0 junk) = false) :
    setEstimate boosting root log (makeZero st junk) = some (makeZero st junk) ∧
    updateResidual boosting exp (makeZero st junk) = some (makeZero st junk) ∧
    updateEstimate boosting scale (makeZero st junk) = some (makeZero st junk) ∧
    (∀ anyBoosting : Booster F → Bool,
      updateResidual anyBoosting exp (makeZero st junk) = some (makeZero st junk)) ∧
    (makeZero st junk).sampledObs = st.sampledObs ∧
    (makeZero st junk).bagSum = st.bagSum ∧
    (makeZero st junk).frontierScorer = st.frontierScorer := by
  refine ⟨?_, ?_, ?_, ?_, rfl, rfl, rfl⟩
  · simp [setEstimate, makeZero, hoff]
  · simp [updateResidual, makeZero, hoff]
  · simp [updateEstimate, makeZero, hoff]
  · intro anyBoosting
    cases h : anyBoosting (Booster.ctor BaseScorer.zero Updater.noUpdate 0 junk) <;>
      simp [updateResidual, makeZero, h, Booster.update, Booster.ctor, Booster.noUpdate]

/-- C8 on the state of the L2 scenario re-made by `makeZero`, with boosting decided
by the learning rate. -/
theorem zero_state_calls_are_noops_witness :
    boostingByRate (Booster.ctor BaseScorer.zero Updater.noUpdate (0 : ℚ) 5) = false ∧
    (setEstimate boostingByRate rootOfBag (fun x => x) (makeZero stateL2Example 5) =
        some (makeZero stateL2Example 5) ∧
      updateResidual boostingByRate (fun x => x) (makeZero stateL2Example 5) =
        some (makeZero stateL2Example 5) ∧
      updateEstimate boostingByRate (fun est _ => est.map fun x => x + 1)
          (makeZero stateL2Example 5) = some (makeZero stateL2Example 5) ∧
      (∀ anyBoosting : Booster ℚ → Bool,
        updateResidual anyBoosting (fun x => x) (makeZero stateL2Example 5) =
          some (makeZero stateL2Example 5)) ∧
      (makeZero stateL2Example 5).sampledObs = stateL2Example.sampledObs ∧
      (makeZero stateL2Example 5).bagSum = stateL2Example.bagSum ∧
      (makeZero stateL2Example 5).frontierScorer = stateL2Example.frontierScorer) :=
  ⟨by simp [boostingByRate, Booster.ctor],
    zero_state_calls_are_noops boostingByRate rootOfBag (fun x => x) (fun x => x)
      (fun est _ => est.map fun x => x + 1) stateL2Example 5
      (by simp [boostingByRate, Booster.ctor])⟩

/-- C9. In L2 or LogOdds mode, whenever `updateResidual` returns, the booster it
leaves is the booster it found: `baseSamples`, `estimate`, `nu` and `baseScore`
are as before.  Of the scorer only `gamma` can differ, and in L2 mode the
scorer is untouched.  The call returns whenever `estimate` covers
`baseSamples`. -/
theorem updateResidual_keeps_booster (boosting : Booster F → Bool) (exp : F → F)
    (st : TrainState F) (b : Booster F)
    (hb : st.booster = some b)
    (hmode : b.updater = Updater.updateL2 ∨ b.updater = Updater.updateLogOdds) :
    (∀ st1, updateResidual boosting exp st = some st1 →
      ∃ b1, st1.booster = some b1 ∧
        b1.baseSamples = b.baseSamples ∧ b1.estimate = b.estimate ∧
        b1.nu = b.nu ∧ b1.baseScore = b.baseScore ∧
        st1.frontierScorer.ctgJitter = st.frontierScorer.ctgJitter ∧
        st1.frontierScorer.scorer = st.frontierScorer.scorer ∧
        (b.updater = Updater.updateL2 → st1.frontierScorer = st.frontierScorer)) ∧
    (b.baseSamples.length ≤ b.estimate.length →
      ∃ st1, updateResidual boosting exp st = some st1) := by
  constructor
  · intro st1 h
    cases hon : boosting b with
    | false =>
      simp [updateResidual, hb, hon] at h
      subst h
      exact ⟨b, hb, rfl, rfl, rfl, rfl, rfl, rfl, fun _ => rfl⟩
    | true =>
      rcases hmode with hm | hm
      · simp only [updateResidual, hb, hon, Booster.update, hm, Booster.updateL2, if_true] at h
        cases hloop : updateL2Loop b.estimate b.baseSamples 0 0 with
        | none => simp [hloop] at h
        | some r =>
          obtain ⟨res, total⟩ := r
          simp only [hloop, Option.some.injEq] at h
          subst h
          exact ⟨b, rfl, rfl, rfl, rfl, rfl, rfl, rfl, fun _ => rfl⟩
      · simp only [updateResidual, hb, hon, Booster.update, hm, Booster.updateLogOdds,
          if_true] at h
        cases hloop : updateLogOddsLoop (logistic exp b.estimate) b.baseSamples 0 0
            (scaleComplement (logistic exp b.estimate)) with
        | none => simp [hloop] at h
        | some r =>
          obtain ⟨res, total, gamma⟩ := r
          simp only [hloop, Option.some.injEq] at h
          subst h
          refine ⟨b, rfl, rfl, rfl, rfl, rfl, rfl, rfl, ?_⟩
          intro h2
          rw [hm] at h2
          cases h2
  · intro hlen
    cases hon : boosting b with
    | false => exact ⟨st, by simp [updateResidual, hb, hon]⟩
    | true =>
      rcases hmode with hm | hm
      · exact ⟨_, updateResidual_L2_eq boosting exp st b hb hon hm hlen⟩
      · exact ⟨_, updateResidual_LogOdds_eq boosting exp st b hb hon hm hlen⟩

/-- C9 on the spec's L2 scenario. -/
theorem updateResidual_keeps_booster_witness :
    (∀ st1, updateResidual boostingByRate (fun x => x) stateL2Example = some st1 →
      ∃ b1, st1.booster = some b1 ∧
        b1.baseSamples = boosterL2Example.baseSamples ∧
        b1.estimate = boosterL2Example.estimate ∧
        b1.nu = boosterL2Example.nu ∧ b1.baseScore = boosterL2Example.baseScore ∧
        st1.frontierScorer.ctgJitter = stateL2Example.frontierScorer.ctgJitter ∧
        st1.frontierScorer.scorer = stateL2Example.frontierScorer.scorer ∧
        (boosterL2Example.updater = Updater.updateL2 →
          st1.frontierScorer = stateL2Example.frontierScorer)) ∧
    (boosterL2Example.baseSamples.length ≤ boosterL2Example.estimate.length →
      ∃ st1, updateResidual boostingByRate (fun x => x) stateL2Example = some st1) :=
  updateResidual_keeps_booster boostingByRate (fun x => x) stateL2Example boosterL2Example
    rfl (Or.inl rfl)


/-! ### The regression scan without implicit observations -/

theorem segment_split {α M : Type} [AddCommMonoid M] (g : α → M) (l : List α)
    (lo mid hi : Nat) (h1 : lo ≤ mid) (h2 : mid ≤ hi) :
    (((l.take hi).drop lo).map g).sum =
      (((l.take mid).drop lo).map g).sum + (((l.take hi).drop mid).map g).sum := by
  have e1 : (l.take hi).drop lo =
      ((l.take hi).drop lo).take (mid - lo) ++ ((l.take hi).drop lo).drop (mid - lo) :=
    (List.take_append_drop _ _).symm
  have e2 : ((l.take hi).drop lo).drop (mid - lo) = (l.take hi).drop mid := by
    rw [List.drop_drop]
    congr 1
    omega
  have e3 : ((l.take hi).drop lo).take (mid - lo) = (l.take mid).drop lo := by
    rw [List.drop_take, List.drop_take, List.take_take]
    congr 1
    omega
  rw [e1, e2, e3, List.map_append, List.sum_append]

theorem segment_single {α M : Type} [AddCommMonoid M] (g : α → M) (l : List α)
    (idx : Nat) (h : idx < l.length) :
    (((l.take (idx + 1)).drop idx).map g).sum = g l[idx] := by
  have : (l.take (idx + 1)).drop idx = [l[idx]] := by
    rw [List.drop_take, List.drop_eq_getElem_cons h]
    have : idx + 1 - idx = 1 := by omega
    rw [this]
    rfl
  rw [this]
  simp

theorem cellSum_split (obsCell : List (Obs F)) (lo mid hi : Nat) (h1 : lo ≤ mid)
    (h2 : mid ≤ hi) :
    cellSum obsCell lo hi = cellSum obsCell lo mid + cellSum obsCell mid hi :=
  segment_split _ obsCell lo mid hi h1 h2

omit [LinearOrderedField F] in
theorem cellCount_split (obsCell : List (Obs F)) (lo mid hi : Nat) (h1 : lo ≤ mid)
    (h2 : mid ≤ hi) :
    cellCount obsCell lo hi = cellCount obsCell lo mid + cellCount obsCell mid hi :=
  segment_split _ obsCell lo mid hi h1 h2

theorem cellSum_succ (obsCell : List (Obs F)) (lo idx : Nat) (h1 : lo ≤ idx)
    (h : idx < obsCell.length) :
    cellSum obsCell lo (idx + 1) = cellSum obsCell lo idx + obsCell[idx].ySum := by
  rw [cellSum_split obsCell lo idx (idx + 1) h1 (Nat.le_succ _)]
  congr 1
  exact segment_single _ obsCell idx h

omit [LinearOrderedField F] in
theorem cellCount_succ (obsCell : List (Obs F)) (lo idx : Nat) (h1 : lo ≤ idx)
    (h : idx < obsCell.length) :
    cellCount obsCell lo (idx + 1) = cellCount obsCell lo idx + obsCell[idx].sCount := by
  rw [cellCount_split obsCell lo idx (idx + 1) h1 (Nat.le_succ _)]
  congr 1
  exact segment_single _ obsCell idx h

theorem subIdx_add_right (a b : Nat) (h : a + b < wordSize) : subIdx (a + b) b = a := by
  unfold subIdx
  have hb : b % wordSize = b := Nat.mod_eq_of_lt (by omega)
  rw [hb]
  have : a + b + wordSize - b = a + wordSize := by omega
  rw [this, Nat.add_mod_right, Nat.mod_eq_of_lt (by omega)]

theorem subIdx_add_left (a b : Nat) (h : a + b < wordSize) : subIdx (a + b) a = b := by
  rw [Nat.add_comm]
  exact subIdx_add_right b a (by omega)

theorem subIdx_one (idx : Nat) (h0 : 0 < idx) (h : idx < wordSize) : subIdx idx 1 = idx - 1 := by
  have := subIdx_add_right (idx - 1) 1 (by omega)
  rwa [Nat.sub_add_cancel h0] at this

theorem argmaxRL_info (c : CutAccum F) (x : F) (idx : Nat) :
    (c.argmaxRL x idx).info = max c.info x := by
  unfold CutAccum.argmaxRL
  split
  · rename_i h
    simp [max_eq_right h.le]
  · rename_i h
    simp [max_eq_left (not_lt.mp h)]

theorem splitRLFrom_scan (obsCell : List (Obs F)) (lo hi : Nat)
    (hhi : hi ≤ obsCell.length) (hw : hi ≤ wordSize)
    (hC : cellCount obsCell lo hi < wordSize) :
    ∀ (n fuel : Nat) (c : CutAccum F), n < fuel → lo + n < hi →
      ScanInv obsCell lo hi c (lo + n + 1) →
      ∃ c1, splitRLFrom fuel lo (lo + n) c = some c1 ∧
        c1.info = List.foldl max c.info
          ((cutsUpTo obsCell lo n).map (cutStat obsCell lo hi)) ∧
        ScanInv obsCell lo hi c1 (lo + 1) ∧
        c1.obsStart = c.obsStart ∧ c1.obsEnd = c.obsEnd ∧
        c1.cutResidual = c.cutResidual ∧ c1.monoMode = c.monoMode := by
  intro n
  induction n with
  | zero =>
    intro fuel c hf _ hinv
    match fuel, hf with
    | f + 1, _ =>
      refine ⟨c, ?_, ?_, hinv, rfl, rfl, rfl, rfl⟩
      · simp [splitRLFrom]
      · simp [cutsUpTo]
  | succ n ih =>
    intro fuel c hf hlt hinv
    obtain ⟨hcell, hT, hCnt, hsum, hcount⟩ := hinv
    match fuel, hf with
    | f + 1, hf =>
      have hidx : lo + (n + 1) < obsCell.length := by omega
      have hne : lo + (n + 1) ≠ lo := by omega
      have hsub : subIdx (lo + (n + 1)) 1 = lo + n := by
        rw [subIdx_one _ (by omega) (by omega)]
        omega
      have hsumS := cellSum_succ obsCell lo (lo + (n + 1)) (by omega) hidx
      have hcntS := cellCount_succ obsCell lo (lo + (n + 1)) (by omega) hidx
      have hsplitS := cellSum_split obsCell lo (lo + (n + 1)) hi (by omega) (by omega)
      have hsplitC := cellCount_split obsCell lo (lo + (n + 1)) hi (by omega) (by omega)
      have hsplitC1 := cellCount_split obsCell lo (lo + (n + 1) + 1) hi (by omega) (by omega)
      -- the state after accumulateReg
      have hacc : ScanInv obsCell lo hi (c.accumulateReg obsCell[lo + (n + 1)]).2
          (lo + (n + 1)) := by
        refine ⟨hcell, hT, hCnt, ?_, ?_⟩
        · simp only [CutAccum.accumulateReg, hsum, hsumS]
          ring
        · simp only [CutAccum.accumulateReg, hcount, hcntS]
          exact subIdx_add_right _ _ (by omega)
      have hstat : (c.accumulateReg obsCell[lo + (n + 1)]).2.infoVarHere =
          cutStat obsCell lo hi (lo + (n + 1)) := by
        obtain ⟨_, h2, h3, h4, h5⟩ := hacc
        unfold CutAccum.infoVarHere cutStat
        rw [h2, h3, h4, h5, hsplitS, hsplitC, subIdx_add_left _ _ (by omega),
          add_sub_cancel_left]
      have hlist : cutsUpTo obsCell lo (n + 1) =
          if untiedAt obsCell (lo + (n + 1)) then (lo + (n + 1)) :: cutsUpTo obsCell lo n
          else cutsUpTo obsCell lo n := by
        unfold cutsUpTo
        rw [List.range'_concat, List.reverse_append, List.reverse_singleton,
          List.singleton_append, List.filter_cons]
        have : lo + 1 + 1 * n = lo + (n + 1) := by omega
        rw [this]
      have huntied : untiedAt obsCell (lo + (n + 1)) = !(obsCell[lo + (n + 1)]).tied := by
        simp [untiedAt, List.getElem?_eq_getElem hidx]
      have hread : c.obsCell[lo + (n + 1)]? = some obsCell[lo + (n + 1)] := by
        rw [hcell]
        exact List.getElem?_eq_getElem hidx
      cases htied : (obsCell[lo + (n + 1)]).tied with
      | true =>
        obtain ⟨c1, h1, h2, h3, h4, h5, h6, h7⟩ :=
          ih f (c.accumulateReg obsCell[lo + (n + 1)]).2 (by omega) (by omega) hacc
        refine ⟨c1, ?_, ?_, h3, h4, h5, h6, h7⟩
        · rw [splitRLFrom]
          simp only [hne, if_false, hread, hsub]
          have : (c.accumulateReg obsCell[lo + (n + 1)]).1 = true := by
            simpa [CutAccum.accumulateReg] using htied
          simp only [this, if_true]
          exact h1
        · rw [h2, hlist, huntied, htied]
          simp [CutAccum.accumulateReg]
      | false =>
        have hacc2 : ScanInv obsCell lo hi
            ((c.accumulateReg obsCell[lo + (n + 1)]).2.argmaxRL
              (c.accumulateReg obsCell[lo + (n + 1)]).2.infoVarHere (lo + n))
            (lo + (n + 1)) := by
          unfold CutAccum.argmaxRL
          split
          · exact hacc
          · exact hacc
        obtain ⟨c1, h1, h2, h3, h4, h5, h6, h7⟩ :=
          ih f _ (by omega) (by omega) hacc2
        refine ⟨c1, ?_, ?_, h3, ?_, ?_, ?_, ?_⟩
        · rw [splitRLFrom]
          simp only [hne, if_false, hread, hsub]
          have : (c.accumulateReg obsCell[lo + (n + 1)]).1 = false := by
            simpa [CutAccum.accumulateReg] using htied
          simp only [this]
          exact h1
        · rw [h2, hlist, huntied, htied, argmaxRL_info, hstat]
          simp [CutAccum.accumulateReg]
        · rw [h4]; unfold CutAccum.argmaxRL; split <;> rfl
        · rw [h5]; unfold CutAccum.argmaxRL; split <;> rfl
        · rw [h6]; unfold CutAccum.argmaxRL; split <;> rfl
        · rw [h7]; unfold CutAccum.argmaxRL; split <;> rfl

theorem le_foldl_max (l : List F) : ∀ a : F, a ≤ List.foldl max a l := by
  induction l with
  | nil => intro a; simp
  | cons x rest ih =>
    intro a
    simp only [List.foldl_cons]
    exact le_trans (le_max_left a x) (ih (max a x))

theorem mem_le_foldl_max (l : List F) : ∀ (a x : F), x ∈ l → x ≤ List.foldl max a l := by
  induction l with
  | nil => intro a x hx; simp at hx
  | cons y rest ih =>
    intro a x hx
    simp only [List.foldl_cons]
    rcases List.mem_cons.mp hx with h | h
    · rw [h]
      exact le_trans (le_max_right a y) (le_foldl_max rest (max a y))
    · exact ih (max a y) x h

theorem foldl_max_attained (l : List F) :
    ∀ a : F, List.foldl max a l = a ∨ ∃ x ∈ l, List.foldl max a l = x := by
  induction l with
  | nil => intro a; simp
  | cons y rest ih =>
    intro a
    simp only [List.foldl_cons]
    rcases ih (max a y) with h | ⟨x, hx, h⟩
    · rcases max_choice a y with h1 | h1
      · left; rw [h, h1]
      · right; exact ⟨y, List.mem_cons_self _ _, by rw [h, h1]⟩
    · right; exact ⟨x, List.mem_cons_of_mem _ hx, h⟩

theorem foldl_max_sub (l : List F) (b : F) :
    ∀ a : F, List.foldl max a l - b = List.foldl max (a - b) (l.map fun x => x - b) := by
  induction l with
  | nil => intro a; simp
  | cons y rest ih =>
    intro a
    simp only [List.foldl_cons, List.map_cons]
    rw [ih (max a y), max_sub_sub_right]

omit [LinearOrderedField F] in
theorem mem_cutsUpTo (obsCell : List (Obs F)) (lo n idx : Nat)
    (h : idx ∈ cutsUpTo obsCell lo n) : lo < idx ∧ idx ≤ lo + n ∧ idx < obsCell.length := by
  unfold cutsUpTo at h
  rw [List.mem_filter, List.mem_reverse, List.mem_range'] at h
  obtain ⟨⟨i, hi, rfl⟩, hu⟩ := h
  refine ⟨by omega, by omega, ?_⟩
  by_contra hlen
  unfold untiedAt at hu
  rw [List.getElem?_eq_none (not_lt.mp hlen)] at hu
  simp at hu

omit [LinearOrderedField F] in
theorem cellCount_pos (obsCell : List (Obs F)) (hpos : ∀ obs ∈ obsCell, 0 < obs.sCount)
    (lo hi : Nat) (h1 : lo < hi) (h2 : hi ≤ obsCell.length) : 0 < cellCount obsCell lo hi := by
  have hsplit := cellCount_split obsCell lo (lo + 1) hi (by omega) (by omega)
  have hone := cellCount_succ obsCell lo lo (le_refl _) (by omega)
  have hlo : lo < obsCell.length := by omega
  have hmem : 0 < obsCell[lo].sCount := hpos _ (List.getElem_mem _)
  omega

/-- C10. A regression candidate without implicit observations and without constraint,
over a cell `obsStart ≤ i < obsEnd` with `obsStart < obsEnd` whose positive
sample counts and response sums add up to the node totals: `splitReg` returns
`info_after - info_before`, where `info_before = sum² / sCount` of the node and
`info_after` is the largest of `info_before` and of
`sumLeft²/countLeft + sumRight²/countRight` over the evaluated cuts (those left
of an untied observation).  The gain is the largest of `0` and the improvements
of the cuts, so it is never negative; both sides of every evaluated cut hold
samples. -/
theorem splitReg_gain_is_best_cut (obsCell : List (Obs F))
    (obsStart obsEnd cutResidual : Nat) (sumCount : SumCount F)
    (hlt : obsStart < obsEnd) (hend : obsEnd ≤ obsCell.length) (hw : obsEnd < wordSize)
    (hT : sumCount.sum = cellSum obsCell obsStart obsEnd)
    (hC : sumCount.sCount = cellCount obsCell obsStart obsEnd)
    (hCw : sumCount.sCount < wordSize)
    (hpos : ∀ obs ∈ obsCell, 0 < obs.sCount) :
    ∃ c1 gain,
      (CutAccumRegCart.ctor
          (CutAccum.ctor obsCell obsStart obsEnd cutResidual sumCount 0)).splitReg 0 =
        some (c1, gain) ∧
      (CutAccumRegCart.ctor
          (CutAccum.ctor obsCell obsStart obsEnd cutResidual sumCount 0)).info =
        sumCount.sum * sumCount.sum / (sumCount.sCount : F) ∧
      c1.info = List.foldl max (sumCount.sum * sumCount.sum / (sumCount.sCount : F))
        ((cutsUpTo obsCell obsStart (obsEnd - (obsStart + 1))).map
          (cutStat obsCell obsStart obsEnd)) ∧
      gain = c1.info - sumCount.sum * sumCount.sum / (sumCount.sCount : F) ∧
      gain = List.foldl max 0
        ((cutsUpTo obsCell obsStart (obsEnd - (obsStart + 1))).map fun idx =>
          cutStat obsCell obsStart obsEnd idx -
            sumCount.sum * sumCount.sum / (sumCount.sCount : F)) ∧
      0 ≤ gain ∧
      (∀ idx ∈ cutsUpTo obsCell obsStart (obsEnd - (obsStart + 1)),
        cutStat obsCell obsStart obsEnd idx -
          sumCount.sum * sumCount.sum / (sumCount.sCount : F) ≤ gain) ∧
      (gain = 0 ∨ ∃ idx ∈ cutsUpTo obsCell obsStart (obsEnd - (obsStart + 1)),
        gain = cutStat obsCell obsStart obsEnd idx -
          sumCount.sum * sumCount.sum / (sumCount.sCount : F)) ∧
      0 < sumCount.sCount ∧
      (∀ idx ∈ cutsUpTo obsCell obsStart (obsEnd - (obsStart + 1)),
        0 < cellCount obsCell obsStart idx ∧ 0 < cellCount obsCell idx obsEnd) := by
  have hinv : ScanInv obsCell obsStart obsEnd
      (CutAccumRegCart.ctor (CutAccum.ctor obsCell obsStart obsEnd cutResidual sumCount 0))
      (obsStart + (obsEnd - (obsStart + 1)) + 1) := by
    have e : obsStart + (obsEnd - (obsStart + 1)) + 1 = obsEnd := by omega
    rw [e]
    exact ⟨rfl, hT, hC, hT, hC⟩
  obtain ⟨c1, h1, h2, _, _, _, _, _⟩ :=
    splitRLFrom_scan obsCell obsStart obsEnd hend hw.le (by rw [← hC]; exact hCw)
      (obsEnd - (obsStart + 1)) wordSize _ (by omega) (by omega) hinv
  have hidx : subIdx obsEnd 1 = obsStart + (obsEnd - (obsStart + 1)) := by
    have h0 : obsEnd - 1 + 1 = obsEnd := by omega
    have := subIdx_add_right (obsEnd - 1) 1 (by omega)
    rw [h0] at this
    rw [this]
    omega
  have hinfo0 : (CutAccumRegCart.ctor
      (CutAccum.ctor obsCell obsStart obsEnd cutResidual sumCount 0)).info =
      sumCount.sum * sumCount.sum / (sumCount.sCount : F) := rfl
  rw [hinfo0] at h2
  have hsub := foldl_max_sub
    ((cutsUpTo obsCell obsStart (obsEnd - (obsStart + 1))).map
      (cutStat obsCell obsStart obsEnd))
    (sumCount.sum * sumCount.sum / (sumCount.sCount : F))
    (sumCount.sum * sumCount.sum / (sumCount.sCount : F))
  rw [sub_self, List.map_map] at hsub
  refine ⟨c1, c1.info - sumCount.sum * sumCount.sum / (sumCount.sCount : F),
    ?_, rfl, h2, rfl, ?_, ?_, ?_, ?_, ?_, ?_⟩
  · simp only [CutAccum.splitReg, CutAccum.splitRL]
    have hm : (CutAccumRegCart.ctor
        (CutAccum.ctor obsCell obsStart obsEnd cutResidual sumCount 0)).monoMode = 0 := rfl
    have hs : (CutAccumRegCart.ctor
        (CutAccum.ctor obsCell obsStart obsEnd cutResidual sumCount 0)).obsStart = obsStart := rfl
    have he : (CutAccumRegCart.ctor
        (CutAccum.ctor obsCell obsStart obsEnd cutResidual sumCount 0)).obsEnd = obsEnd := rfl
    simp only [hm, hs, he, ne_eq, not_true_eq_false, if_false, hidx, h1, Option.map_some',
      hinfo0]
  · rw [h2, hsub]
    rfl
  · rw [h2, sub_nonneg]
    exact le_foldl_max _ _
  · intro idx hidx1
    rw [h2]
    apply sub_le_sub_right
    exact mem_le_foldl_max _ _ _ (List.mem_map_of_mem _ hidx1)
  · rw [h2]
    rcases foldl_max_attained
      ((cutsUpTo obsCell obsStart (obsEnd - (obsStart + 1))).map
        (cutStat obsCell obsStart obsEnd))
      (sumCount.sum * sumCount.sum / (sumCount.sCount : F)) with h | ⟨x, hx, h⟩
    · left; rw [h, sub_self]
    · right
      obtain ⟨idx, hidx1, rfl⟩ := List.mem_map.mp hx
      exact ⟨idx, hidx1, by rw [h]⟩
  · rw [hC]
    exact cellCount_pos obsCell hpos obsStart obsEnd hlt hend
  · intro idx hidx1
    obtain ⟨ha, hb, _⟩ := mem_cutsUpTo obsCell obsStart _ idx hidx1
    exact ⟨cellCount_pos obsCell hpos obsStart idx ha (by omega),
      cellCount_pos obsCell hpos idx obsEnd (by omega) hend⟩

/-- C10 on `accumExample`: responses `1, 2, 6, 7` with the last observation tied.  The
baseline is `16² / 4 = 64`, the cuts left of positions `2` and `1` score `89`
and `76`, and the returned gain is `25`. -/
theorem splitReg_gain_is_best_cut_witness :
    (∃ c1 gain,
      (CutAccumRegCart.ctor
          (CutAccum.ctor cellExample 0 4 0 ⟨16, 4⟩ 0)).splitReg 0 = some (c1, gain) ∧
      (CutAccumRegCart.ctor (CutAccum.ctor cellExample 0 4 0 ⟨16, 4⟩ 0)).info =
        (16 : ℚ) * 16 / ((4 : Nat) : ℚ) ∧
      c1.info = List.foldl max ((16 : ℚ) * 16 / ((4 : Nat) : ℚ))
        ((cutsUpTo cellExample 0 (4 - (0 + 1))).map (cutStat cellExample 0 4)) ∧
      gain = c1.info - (16 : ℚ) * 16 / ((4 : Nat) : ℚ) ∧
      gain = List.foldl max 0
        ((cutsUpTo cellExample 0 (4 - (0 + 1))).map fun idx =>
          cutStat cellExample 0 4 idx - (16 : ℚ) * 16 / ((4 : Nat) : ℚ)) ∧
      0 ≤ gain ∧
      (∀ idx ∈ cutsUpTo cellExample 0 (4 - (0 + 1)),
        cutStat cellExample 0 4 idx - (16 : ℚ) * 16 / ((4 : Nat) : ℚ) ≤ gain) ∧
      (gain = 0 ∨ ∃ idx ∈ cutsUpTo cellExample 0 (4 - (0 + 1)),
        gain = cutStat cellExample 0 4 idx - (16 : ℚ) * 16 / ((4 : Nat) : ℚ)) ∧
      0 < 4 ∧
      (∀ idx ∈ cutsUpTo cellExample 0 (4 - (0 + 1)),
        0 < cellCount cellExample 0 idx ∧ 0 < cellCount cellExample idx 4)) ∧
    cutsUpTo cellExample 0 (4 - (0 + 1)) = [2, 1] ∧
    (cutsUpTo cellExample 0 (4 - (0 + 1))).map (cutStat cellExample 0 4) = [89, 76] ∧
    List.foldl max 0
        ((cutsUpTo cellExample 0 (4 - (0 + 1))).map fun idx =>
          cutStat cellExample 0 4 idx - (16 : ℚ) * 16 / ((4 : Nat) : ℚ)) = 25 ∧
    (accumExample.splitReg 0).map (fun r => (r.2, r.1.info)) = some (25, 89) :=
  have hcuts : cutsUpTo cellExample 0 (4 - (0 + 1)) = [2, 1] := by decide
  have hstats : (cutsUpTo cellExample 0 (4 - (0 + 1))).map (cutStat cellExample 0 4) =
      [89, 76] := by
    rw [hcuts]
    simp [cutStat, infoVar, cellSum, cellCount, cellExample]
    norm_num
  have hgain : List.foldl max 0
      ((cutsUpTo cellExample 0 (4 - (0 + 1))).map fun idx =>
        cutStat cellExample 0 4 idx - (16 : ℚ) * 16 / ((4 : Nat) : ℚ)) = 25 := by
    rw [hcuts]
    simp [cutStat, infoVar, cellSum, cellCount, cellExample]
    norm_num
  have hthm := splitReg_gain_is_best_cut cellExample 0 4 0 ⟨16, 4⟩ (by decide) (by decide)
    (by unfold wordSize; norm_num)
    (by simp [cellSum, cellExample]; norm_num)
    (by decide)
    (by unfold wordSize; norm_num)
    (by decide)
  ⟨hthm, hcuts, hstats, hgain,
    by
      obtain ⟨c1, gain, h1, _, _, h4, h5, _⟩ := hthm
      rw [hgain] at h5
      have h6 : c1.info = 89 := by
        rw [h5] at h4
        have h7 : ((16 : ℚ) * 16 / ((4 : Nat) : ℚ)) = 64 := by norm_num
        rw [h7] at h4
        linarith
      simp only [accumExample, h1, Option.map_some', h5, h6]⟩

/-! ### IndexRange, meanTrain, areEqual -/

/-- C15, as stated, fails: for the range `(4294967295, 2)` the unsigned sum `getEnd()`
is `1`, not `start + extent`, and `adjust(4294967295, 0)`, with
`margin ≤ start` and `implicit ≤ extent`, moves the end from `1` up to `2`. -/
theorem indexRange_end_overflow :
    rangeOverflow.getStart < wordSize ∧ rangeOverflow.getExtent < wordSize ∧
    4294967295 ≤ rangeOverflow.getStart ∧ 0 ≤ rangeOverflow.getExtent ∧
    rangeOverflow.getEnd = 1 ∧
    rangeOverflow.getEnd ≠ rangeOverflow.getStart + rangeOverflow.getExtent ∧
    (rangeOverflow.adjust 4294967295 0).getEnd = 2 ∧
    ¬ (rangeOverflow.adjust 4294967295 0).getEnd ≤ rangeOverflow.getEnd := by
  decide

/-- C15, amended.  For a range of `IndexT` values whose end `start + extent` is
representable: `getEnd() = getStart() + getExtent()`, `empty()` holds iff the
extent is `0`, and for `margin ≤ start`, `implicit ≤ extent` the call
`adjust(margin, implicit)` leaves `start - margin` and `extent - implicit`
without wrap-around, with `start' ≤ start` and
`end' = end - margin - implicit ≤ end`. -/
theorem indexRange_adjust_shrinks (r : IndexRange) (margin implicit : Nat)
    (hend : r.idxStart + r.idxExtent < wordSize)
    (hm : margin ≤ r.idxStart) (hi : implicit ≤ r.idxExtent) :
    r.getEnd = r.getStart + r.getExtent ∧
    (r.empty = true ↔ r.getExtent = 0) ∧
    (r.adjust margin implicit).getStart = r.getStart - margin ∧
    (r.adjust margin implicit).getExtent = r.getExtent - implicit ∧
    (r.adjust margin implicit).getStart ≤ r.getStart ∧
    (r.adjust margin implicit).getEnd = r.getEnd - margin - implicit ∧
    (r.adjust margin implicit).getEnd ≤ r.getEnd := by
  have h1 : subIdx r.idxStart margin = r.idxStart - margin := by
    have := subIdx_add_right (r.idxStart - margin) margin (by omega)
    rwa [Nat.sub_add_cancel hm] at this
  have h2 : subIdx r.idxExtent implicit = r.idxExtent - implicit := by
    have := subIdx_add_right (r.idxExtent - implicit) implicit (by omega)
    rwa [Nat.sub_add_cancel hi] at this
  have h3 : (r.idxStart + r.idxExtent) % wordSize = r.idxStart + r.idxExtent :=
    Nat.mod_eq_of_lt hend
  have h4 : (r.idxStart - margin + (r.idxExtent - implicit)) % wordSize =
      r.idxStart - margin + (r.idxExtent - implicit) := Nat.mod_eq_of_lt (by omega)
  simp only [IndexRange.getEnd, IndexRange.getStart, IndexRange.getExtent, IndexRange.empty,
    IndexRange.adjust, h1, h2, h3, h4]
  refine ⟨trivial, by simp, trivial, trivial, by omega, by omega, by omega⟩

/-- C15, amended, on the range `(10, 5)` with `adjust(3, 2)`: the range becomes
`(7, 3)` and its end moves from `15` to `10`. -/
theorem indexRange_adjust_shrinks_witness :
    (rangeExample.getEnd = rangeExample.getStart + rangeExample.getExtent ∧
      (rangeExample.empty = true ↔ rangeExample.getExtent = 0) ∧
      (rangeExample.adjust 3 2).getStart = rangeExample.getStart - 3 ∧
      (rangeExample.adjust 3 2).getExtent = rangeExample.getExtent - 2 ∧
      (rangeExample.adjust 3 2).getStart ≤ rangeExample.getStart ∧
      (rangeExample.adjust 3 2).getEnd = rangeExample.getEnd - 3 - 2 ∧
      (rangeExample.adjust 3 2).getEnd ≤ rangeExample.getEnd) ∧
    rangeExample.adjust 3 2 = { idxStart := 7, idxExtent := 3 } ∧
    rangeExample.getEnd = 15 ∧ (rangeExample.adjust 3 2).getEnd = 10 :=
  ⟨indexRange_adjust_shrinks rangeExample 3 2 (by decide) (by decide) (by decide),
    by decide, by decide, by decide⟩

theorem foldl_add_eq_sum (l : List F) : ∀ a : F, l.foldl (fun acc y => acc + y) a = a + l.sum := by
  induction l with
  | nil => intro a; simp
  | cons x rest ih =>
    intro a
    simp only [List.foldl_cons, List.sum_cons, ih]
    ring

/-- C16. `meanTrain` returns `0` on the empty response and the arithmetic mean, the
sum divided by the length, on every non-empty one; the divisor it uses is then
not zero. -/
theorem meanTrain_is_mean :
    meanTrain ([] : List F) = 0 ∧
    ∀ (y0 : F) (rest : List F),
      meanTrain (y0 :: rest) = (y0 :: rest).sum / ((y0 :: rest).length : F) ∧
      ((y0 :: rest).length : F) ≠ 0 := by
  refine ⟨by simp [meanTrain], ?_⟩
  intro y0 rest
  constructor
  · simp only [meanTrain, List.isEmpty_cons, Bool.false_eq_true, if_false]
    rw [foldl_add_eq_sum, zero_add]
  · have : 0 < (y0 :: rest).length := by simp
    exact_mod_cast this.ne.symm

/-- The training mean of `[1, 2, 6]` is `3`. -/
theorem meanTrain_example : meanTrain ([1, 2, 6] : List ℚ) = 3 := by
  simp [meanTrain]
  norm_num

/-- C20. The `double` overload of `areEqual` is true iff the two doubles compare equal
under `==` or both are NaN.  It is reflexive, NaN included, symmetric and
transitive, and NaN is not equal to any number. -/
theorem areEqual_nan_aware {V : Type} [DecidableEq V] :
    (∀ x y : Dbl V, areEqual x y = true ↔
      (Dbl.eqCmp x y = true ∨ (x.isnan = true ∧ y.isnan = true))) ∧
    (∀ x : Dbl V, areEqual x x = true) ∧
    areEqual (Dbl.nan : Dbl V) Dbl.nan = true ∧
    Dbl.eqCmp (Dbl.nan : Dbl V) Dbl.nan = false ∧
    (∀ x y : Dbl V, areEqual x y = areEqual y x) ∧
    (∀ x y z : Dbl V, areEqual x y = true → areEqual y z = true → areEqual x z = true) ∧
    (∀ y : Dbl V, y.isnan = false → areEqual Dbl.nan y = false ∧ areEqual y Dbl.nan = false) ∧
    (∀ x y : Dbl V, areEqual x y = true ↔ x = y) := by
  refine ⟨?_, ?_, ?_, ?_, ?_, ?_, ?_, ?_⟩
  · intro x y
    simp [areEqual]
  · intro x
    cases x <;> simp [areEqual, Dbl.eqCmp, Dbl.isnan]
  · simp [areEqual, Dbl.eqCmp, Dbl.isnan]
  · simp [Dbl.eqCmp]
  · intro x y
    cases x <;> cases y <;> simp [areEqual, Dbl.eqCmp, Dbl.isnan, eq_comm]
  · intro x y z
    cases x <;> cases y <;> cases z <;> simp [areEqual, Dbl.eqCmp, Dbl.isnan]
    intro h1 h2
    exact h1.trans h2
  · intro y hy
    cases y <;> simp_all [areEqual, Dbl.eqCmp, Dbl.isnan]
  · intro x y
    cases x <;> cases y <;> simp [areEqual, Dbl.eqCmp, Dbl.isnan]

/-! ### The score descriptor, sizes and determinism of the Booster -/

/-- What `getScoreDesc` returns after `makeZero` and `setEstimate`: the learning rate
`0` and, when `boosting()` is false in that state, the value `baseScore` had
when the object was built; `0` when `boosting()` is true there. -/
theorem makeZero_getScoreDesc (boosting : Booster F → Bool)
    (root : SampledObs F → IndexSet F) (log : F → F) (st : TrainState F) (junk : F) :
    (setEstimate boosting root log (makeZero st junk)).bind getScoreDesc =
      some { nu := 0,
             baseScore :=
               if boosting (Booster.ctor BaseScorer.zero Updater.noUpdate 0 junk) then 0
               else junk } := by
  cases h : boosting (Booster.ctor BaseScorer.zero Updater.noUpdate 0 junk) <;>
    simp [setEstimate, makeZero, h, getScoreDesc, Booster.baseEstimate,
      Booster.applyBaseScorer, Booster.zero] <;>
    simp [Booster.ctor]

/-- C21, where the code departs from it: in the state `makeZero` builds, with boosting
off (the learning rate is `0`), `setEstimate` writes nothing, and
`getScoreDesc` hands back the value the constructor left in `baseScore`: here
`5`, not `0`. -/
theorem makeZero_scoreDesc_keeps_initial_value :
    boostingByRate (Booster.ctor BaseScorer.zero Updater.noUpdate (0 : ℚ) 5) = false ∧
    (setEstimate boostingByRate rootOfBag (fun x => x) (makeZero stateL2Example 5)).bind
        getScoreDesc = some { nu := 0, baseScore := 5 } ∧
    (setEstimate boostingByRate rootOfBag (fun x => x) (makeZero stateL2Example 5)).bind
        getScoreDesc ≠ some { nu := 0, baseScore := 0 } := by
  have hoff : boostingByRate (Booster.ctor BaseScorer.zero Updater.noUpdate (0 : ℚ) 5) = false := by
    simp [boostingByRate, Booster.ctor]
  have h := makeZero_getScoreDesc boostingByRate rootOfBag (fun x => x) stateL2Example (5 : ℚ)
  rw [hoff] at h
  refine ⟨hoff, ?_, ?_⟩
  · simpa using h
  · rw [h]
    simp

/-- One `updateResidual` on a booster in L2 or LogOdds mode whose `estimate` and
`baseSamples` both have length `n`: the call returns, the booster is the one it
found, the installed samples have length `n`, and in LogOdds mode so has
`gamma`. -/
theorem updateResidual_sizes (boosting : Booster F → Bool) (exp : F → F)
    (st : TrainState F) (b : Booster F) (n : Nat)
    (hb : st.booster = some b) (hon : boosting b = true)
    (hmode : b.updater = Updater.updateL2 ∨ b.updater = Updater.updateLogOdds)
    (hs : b.baseSamples.length = n) (he : b.estimate.length = n) :
    ∃ st1, updateResidual boosting exp st = some st1 ∧
      st1.booster = some b ∧
      st1.sampledObs.samples.length = n ∧
      st1.sampledObs.bagCount = st.sampledObs.bagCount ∧
      (b.updater = Updater.updateLogOdds → st1.frontierScorer.gamma.length = n) := by
  rcases hmode with hm | hm
  · refine ⟨_, updateResidual_L2_eq boosting exp st b hb hon hm (by omega), rfl, ?_, rfl, ?_⟩
    · simp [SampledObs.setSamples, hs, he]
    · intro h
      rw [hm] at h
      cases h
  · refine ⟨_, updateResidual_LogOdds_eq boosting exp st b hb hon hm (by omega), rfl, ?_, rfl, ?_⟩
    · simp [SampledObs.setSamples, logistic, hs, he]
    · intro _
      simp [NodeScorer.setGamma, logistic, scaleComplement, hs, he]

/-- C22. After `setEstimate` on a `SampledObs` whose sample sequence has length
`bagCount`, with boosting enabled in L2 or LogOdds mode,
`estimate.size() = baseSamples.size() = bagCount`; every run of `k` further
calls of `updateResidual` returns and leaves that booster in place, so the
equality persists, and after at least one call the installed residual has
length `bagCount`, as has `gamma` in LogOdds mode. -/
theorem booster_size_invariant (boosting : Booster F → Bool)
    (root : SampledObs F → IndexSet F) (log exp : F → F)
    (st : TrainState F) (b : Booster F)
    (hb : st.booster = some b)
    (hmode : b.updater = Updater.updateL2 ∨ b.updater = Updater.updateLogOdds)
    (hon : boosting b = true)
    (hon1 : boosting (b.baseEstimate root log st.sampledObs) = true)
    (hbag : st.sampledObs.samples.length = st.sampledObs.getBagCount) :
    ∃ st1 b1, setEstimate boosting root log st = some st1 ∧
      st1.booster = some b1 ∧
      b1.estimate.length = st.sampledObs.getBagCount ∧
      b1.baseSamples.length = st.sampledObs.getBagCount ∧
      ∀ k : Nat, ∃ stk, updateResidualTimes boosting exp k st1 = some stk ∧
        stk.booster = some b1 ∧
        (0 < k → stk.sampledObs.samples.length = st.sampledObs.getBagCount) ∧
        (0 < k → b.updater = Updater.updateLogOdds →
          stk.frontierScorer.gamma.length = st.sampledObs.getBagCount) := by
  have hmode1 : (b.baseEstimate root log st.sampledObs).updater = Updater.updateL2 ∨
      (b.baseEstimate root log st.sampledObs).updater = Updater.updateLogOdds := by
    simpa [Booster.baseEstimate] using hmode
  have he : (b.baseEstimate root log st.sampledObs).estimate.length =
      st.sampledObs.getBagCount := by
    simp [Booster.baseEstimate]
  have hs : (b.baseEstimate root log st.sampledObs).baseSamples.length =
      st.sampledObs.getBagCount := by
    simp [Booster.baseEstimate, SampledObs.getSamples, hbag]
  refine ⟨{ st with booster := some (b.baseEstimate root log st.sampledObs) },
    b.baseEstimate root log st.sampledObs, by simp [setEstimate, hb, hon], rfl, he, hs, ?_⟩
  have hstep : ∀ (k : Nat) (s : TrainState F),
      s.booster = some (b.baseEstimate root log st.sampledObs) →
      ∃ stk, updateResidualTimes boosting exp (k + 1) s = some stk ∧
        stk.booster = some (b.baseEstimate root log st.sampledObs) ∧
        stk.sampledObs.samples.length = st.sampledObs.getBagCount ∧
        (b.updater = Updater.updateLogOdds →
          stk.frontierScorer.gamma.length = st.sampledObs.getBagCount) := by
    intro k
    induction k with
    | zero =>
      intro s hsb
      obtain ⟨s1, h1, h2, h3, _, h5⟩ :=
        updateResidual_sizes boosting exp s _ _ hsb hon1 hmode1 hs he
      refine ⟨s1, by simp [updateResidualTimes, h1], h2, h3, ?_⟩
      intro hm
      exact h5 (by simpa [Booster.baseEstimate] using hm)
    | succ k ih =>
      intro s hsb
      obtain ⟨s1, h1, h2, _, _, _⟩ :=
        updateResidual_sizes boosting exp s _ _ hsb hon1 hmode1 hs he
      obtain ⟨stk, h6, h7⟩ := ih s1 h2
      refine ⟨stk, ?_, h7⟩
      rw [updateResidualTimes, h1]
      exact h6
  intro k
  cases k with
  | zero =>
    exact ⟨_, rfl, rfl, fun h => absurd h (lt_irrefl 0), fun h => absurd h (lt_irrefl 0)⟩
  | succ k =>
    obtain ⟨stk, h1, h2, h3, h4⟩ :=
      hstep k { st with booster := some (b.baseEstimate root log st.sampledObs) } rfl
    exact ⟨stk, h1, h2, fun _ => h3, fun _ => h4⟩

/-- C22 on the spec's L2 scenario, the bag `y = [1, 3, 5]` of three samples. -/
theorem booster_size_invariant_witness :
    stateL2Fresh.sampledObs.samples.length = stateL2Fresh.sampledObs.getBagCount ∧
    ∃ st1 b1, setEstimate boostingByRate rootOfBag (fun x => x) stateL2Fresh = some st1 ∧
      st1.booster = some b1 ∧
      b1.estimate.length = stateL2Fresh.sampledObs.getBagCount ∧
      b1.baseSamples.length = stateL2Fresh.sampledObs.getBagCount ∧
      ∀ k : Nat, ∃ stk, updateResidualTimes boostingByRate (fun x => x) k st1 = some stk ∧
        stk.booster = some b1 ∧
        (0 < k → stk.sampledObs.samples.length = stateL2Fresh.sampledObs.getBagCount) ∧
        (0 < k → (Booster.ctor BaseScorer.mean Updater.updateL2 (1 : ℚ) 0).updater =
            Updater.updateLogOdds →
          stk.frontierScorer.gamma.length = stateL2Fresh.sampledObs.getBagCount) :=
  ⟨rfl,
    booster_size_invariant boostingByRate rootOfBag (fun x => x) (fun x => x) stateL2Fresh
      (Booster.ctor BaseScorer.mean Updater.updateL2 1 0) rfl (Or.inl rfl)
      (by simp [boostingByRate, Booster.ctor])
      (by simp [boostingByRate, Booster.ctor, Booster.baseEstimate]) rfl⟩

/-- C24. With boosting enabled in L2 or LogOdds mode, what `updateResidual` installs
depends on `baseSamples` and `estimate` alone: two runs on boosters that agree
on these yield the same samples, the same `bagSum` and, in LogOdds mode, the
same `gamma`, whatever `sampledObs` and `bagSum` held before.  A second call
right after a first returns the state the first one left.  The call returns
whenever `estimate` covers `baseSamples`. -/
theorem updateResidual_depends_on_base_and_estimate (boosting : Booster F → Bool)
    (exp : F → F) (st1 st2 : TrainState F) (b1 b2 : Booster F)
    (hb1 : st1.booster = some b1) (hb2 : st2.booster = some b2)
    (hon1 : boosting b1 = true) (hon2 : boosting b2 = true)
    (hmode : b1.updater = Updater.updateL2 ∨ b1.updater = Updater.updateLogOdds)
    (hsame : b2.updater = b1.updater)
    (hs : b2.baseSamples = b1.baseSamples) (he : b2.estimate = b1.estimate) :
    (updateResidual boosting exp st1).map (fun s => (s.sampledObs.samples, s.bagSum)) =
      (updateResidual boosting exp st2).map (fun s => (s.sampledObs.samples, s.bagSum)) ∧
    (b1.updater = Updater.updateLogOdds →
      (updateResidual boosting exp st1).map (fun s => s.frontierScorer.gamma) =
        (updateResidual boosting exp st2).map (fun s => s.frontierScorer.gamma)) ∧
    (∀ s, updateResidual boosting exp st1 = some s → updateResidual boosting exp s = some s) ∧
    (b1.baseSamples.length ≤ b1.estimate.length →
      ∃ s, updateResidual boosting exp st1 = some s) := by
  refine ⟨?_, ?_, ?_, ?_⟩
  · rcases hmode with hm | hm
    · simp only [updateResidual, hb1, hb2, hon1, hon2, Booster.update, hm, hsame,
        Booster.updateL2, hs, he, if_true]
      cases updateL2Loop b1.estimate b1.baseSamples 0 0 with
      | none => rfl
      | some r => rfl
    · simp only [updateResidual, hb1, hb2, hon1, hon2, Booster.update, hm, hsame,
        Booster.updateLogOdds, hs, he, if_true]
      cases updateLogOddsLoop (logistic exp b1.estimate) b1.baseSamples 0 0
          (scaleComplement (logistic exp b1.estimate)) with
      | none => rfl
      | some r => rfl
  · intro hm
    simp only [updateResidual, hb1, hb2, hon1, hon2, Booster.update, hm, hsame,
      Booster.updateLogOdds, hs, he, if_true]
    cases updateLogOddsLoop (logistic exp b1.estimate) b1.baseSamples 0 0
        (scaleComplement (logistic exp b1.estimate)) with
    | none => rfl
    | some r => rfl
  · intro s h
    rcases hmode with hm | hm
    · simp only [updateResidual, hb1, hon1, Booster.update, hm, Booster.updateL2,
        if_true] at h
      cases hloop : updateL2Loop b1.estimate b1.baseSamples 0 0 with
      | none => simp [hloop] at h
      | some r =>
        simp only [hloop, Option.some.injEq] at h
        subst h
        simp [updateResidual, hon1, Booster.update, hm, Booster.updateL2, hloop,
          SampledObs.setSamples]
    · simp only [updateResidual, hb1, hon1, Booster.update, hm, Booster.updateLogOdds,
        if_true] at h
      cases hloop : updateLogOddsLoop (logistic exp b1.estimate) b1.baseSamples 0 0
          (scaleComplement (logistic exp b1.estimate)) with
      | none => simp [hloop] at h
      | some r =>
        simp only [hloop, Option.some.injEq] at h
        subst h
        simp [updateResidual, hon1, Booster.update, hm, Booster.updateLogOdds, hloop,
          SampledObs.setSamples, NodeScorer.setGamma]
  · intro hlen
    rcases hmode with hm | hm
    · exact ⟨_, updateResidual_L2_eq boosting exp st1 b1 hb1 hon1 hm hlen⟩
    · exact ⟨_, updateResidual_LogOdds_eq boosting exp st1 b1 hb1 hon1 hm hlen⟩

/-- C24 on the spec's L2 scenario: the run from the stale state (`bagSum = 17`, the
raw bag) and the run from a state with empty `sampledObs` and `bagSum = 0`
install the same residual and `bagSum`. -/
theorem updateResidual_depends_on_base_and_estimate_witness :
    (updateResidual boostingByRate (fun x => x) stateL2Example).map
        (fun s => (s.sampledObs.samples, s.bagSum)) =
      (updateResidual boostingByRate (fun x => x)
          { stateL2Example with sampledObs := { samples := [], bagCount := 3 }, bagSum := 0 }).map
        (fun s => (s.sampledObs.samples, s.bagSum)) ∧
    (boosterL2Example.updater = Updater.updateLogOdds →
      (updateResidual boostingByRate (fun x => x) stateL2Example).map
          (fun s => s.frontierScorer.gamma) =
        (updateResidual boostingByRate (fun x => x)
            { stateL2Example with sampledObs := { samples := [], bagCount := 3 },
                                  bagSum := 0 }).map
          (fun s => s.frontierScorer.gamma)) ∧
    (∀ s, updateResidual boostingByRate (fun x => x) stateL2Example = some s →
      updateResidual boostingByRate (fun x => x) s = some s) ∧
    (boosterL2Example.baseSamples.length ≤ boosterL2Example.estimate.length →
      ∃ s, updateResidual boostingByRate (fun x => x) stateL2Example = some s) :=
  updateResidual_depends_on_base_and_estimate boostingByRate (fun x => x) stateL2Example
    { stateL2Example with sampledObs := { samples := [], bagCount := 3 }, bagSum := 0 }
    boosterL2Example boosterL2Example rfl rfl
    (by simp [boostingByRate, boosterL2Example]) (by simp [boostingByRate, boosterL2Example])
    (Or.inl rfl) rfl rfl rfl

/-! ### The regression statistic against the baseline -/

theorem infoVar_sub_baseline (sL sR : F) (cL cR : Nat) (hL : 0 < cL) (hR : 0 < cR) :
    infoVar sL sR cL cR - (sL + sR) * (sL + sR) / ((cL + cR : Nat) : F) =
      (sL * (cR : F) - sR * (cL : F)) ^ 2 /
        ((cL : F) * (cR : F) * ((cL : F) + (cR : F))) := by
  have h1 : (0 : F) < cL := by exact_mod_cast hL
  have h2 : (0 : F) < cR := by exact_mod_cast hR
  have h3 : (0 : F) < (cL : F) + (cR : F) := by positivity
  unfold infoVar
  push_cast
  field_simp
  ring

theorem infoVar_ge_baseline (sL sR : F) (cL cR : Nat) (hL : 0 < cL) (hR : 0 < cR) :
    (sL + sR) * (sL + sR) / ((cL + cR : Nat) : F) ≤ infoVar sL sR cL cR ∧
    ((sL + sR) * (sL + sR) / ((cL + cR : Nat) : F) = infoVar sL sR cL cR ↔
      sL / (cL : F) = sR / (cR : F)) := by
  have h1 : (0 : F) < cL := by exact_mod_cast hL
  have h2 : (0 : F) < cR := by exact_mod_cast hR
  have h3 : (0 : F) < (cL : F) + (cR : F) := by positivity
  have hden : (0 : F) < (cL : F) * (cR : F) * ((cL : F) + (cR : F)) := by positivity
  have hkey := infoVar_sub_baseline sL sR cL cR hL hR
  constructor
  · have : 0 ≤ infoVar sL sR cL cR - (sL + sR) * (sL + sR) / ((cL + cR : Nat) : F) := by
      rw [hkey]
      positivity
    linarith
  · constructor
    · intro h
      have h0 : (sL * (cR : F) - sR * (cL : F)) ^ 2 /
          ((cL : F) * (cR : F) * ((cL : F) + (cR : F))) = 0 := by
        rw [← hkey, h, sub_self]
      have h4 : (sL * (cR : F) - sR * (cL : F)) ^ 2 = 0 := by
        rcases div_eq_zero_iff.mp h0 with h5 | h5
        · exact h5
        · exact absurd h5 hden.ne.symm
      have h6 : sL * (cR : F) - sR * (cL : F) = 0 := pow_eq_zero_iff (by norm_num) |>.mp h4
      rw [div_eq_div_iff h1.ne.symm h2.ne.symm]
      linarith
    · intro h
      rw [div_eq_div_iff h1.ne.symm h2.ne.symm] at h
      have h6 : sL * (cR : F) - sR * (cL : F) = 0 := by linarith
      have : infoVar sL sR cL cR - (sL + sR) * (sL + sR) / ((cL + cR : Nat) : F) = 0 := by
        rw [hkey, h6]
        simp
      linarith

/-- The scan `splitReg` runs without implicit observations and without constraint, on
a cell whose totals are the node totals: it returns, with `info` the largest of
the baseline and of the statistics of the evaluated cuts. -/
theorem splitReg_plain_scan (obsCell : List (Obs F))
    (obsStart obsEnd cutResidual : Nat) (sumCount : SumCount F)
    (hlt : obsStart < obsEnd) (hend : obsEnd ≤ obsCell.length) (hw : obsEnd < wordSize)
    (hT : sumCount.sum = cellSum obsCell obsStart obsEnd)
    (hC : sumCount.sCount = cellCount obsCell obsStart obsEnd)
    (hCw : sumCount.sCount < wordSize) :
    ∃ c1,
      (CutAccumRegCart.ctor
          (CutAccum.ctor obsCell obsStart obsEnd cutResidual sumCount 0)).splitReg 0 =
        some (c1, c1.info - sumCount.sum * sumCount.sum / (sumCount.sCount : F)) ∧
      c1.info = List.foldl max (sumCount.sum * sumCount.sum / (sumCount.sCount : F))
        ((cutsUpTo obsCell obsStart (obsEnd - (obsStart + 1))).map
          (cutStat obsCell obsStart obsEnd)) := by
  have hinv : ScanInv obsCell obsStart obsEnd
      (CutAccumRegCart.ctor (CutAccum.ctor obsCell obsStart obsEnd cutResidual sumCount 0))
      (obsStart + (obsEnd - (obsStart + 1)) + 1) := by
    have e : obsStart + (obsEnd - (obsStart + 1)) + 1 = obsEnd := by omega
    rw [e]
    exact ⟨rfl, hT, hC, hT, hC⟩
  obtain ⟨c1, h1, h2, _, _, _, _, _⟩ :=
    splitRLFrom_scan obsCell obsStart obsEnd hend hw.le (by rw [← hC]; exact hCw)
      (obsEnd - (obsStart + 1)) wordSize _ (by omega) (by omega) hinv
  have hidx : subIdx obsEnd 1 = obsStart + (obsEnd - (obsStart + 1)) := by
    rw [subIdx_one obsEnd (by omega) hw]
    omega
  have hinfo0 : (CutAccumRegCart.ctor
      (CutAccum.ctor obsCell obsStart obsEnd cutResidual sumCount 0)).info =
      sumCount.sum * sumCount.sum / (sumCount.sCount : F) := rfl
  rw [hinfo0] at h2
  refine ⟨c1, ?_, h2⟩
  simp only [CutAccum.splitReg, CutAccum.splitRL]
  have hm : (CutAccumRegCart.ctor
      (CutAccum.ctor obsCell obsStart obsEnd cutResidual sumCount 0)).monoMode = 0 := rfl
  have hs : (CutAccumRegCart.ctor
      (CutAccum.ctor obsCell obsStart obsEnd cutResidual sumCount 0)).obsStart = obsStart := rfl
  have he : (CutAccumRegCart.ctor
      (CutAccum.ctor obsCell obsStart obsEnd cutResidual sumCount 0)).obsEnd = obsEnd := rfl
  simp only [hm, hs, he, ne_eq, not_true_eq_false, if_false, hidx, h1, Option.map_some',
    hinfo0]

theorem foldl_max_gt_iff (l : List F) :
    ∀ a : F, a < List.foldl max a l ↔ ∃ x ∈ l, a < x := by
  induction l with
  | nil => intro a; simp
  | cons y rest ih =>
    intro a
    simp only [List.foldl_cons, List.mem_cons]
    constructor
    · intro h
      by_cases hy : a < y
      · exact ⟨y, Or.inl rfl, hy⟩
      · have hm : max a y = a := max_eq_left (not_lt.mp hy)
        rw [hm] at h
        obtain ⟨x, hx, hax⟩ := (ih a).mp h
        exact ⟨x, Or.inr hx, hax⟩
    · rintro ⟨x, hx | hx, hax⟩
      · rw [hx] at hax
        exact lt_of_lt_of_le (lt_of_lt_of_le hax (le_max_right a y)) (le_foldl_max rest _)
      · exact lt_of_lt_of_le hax (mem_le_foldl_max rest _ x hx)

/-- C25. In exact arithmetic, for a cut with samples on both sides,
`sumLeft²/countLeft + sumRight²/countRight` is at least
`(sumLeft + sumRight)² / (countLeft + countRight)`, with equality iff the two
means agree; `argmaxRL` never lowers `info`; and the unconstrained scan of a
cell without implicit observations returns a strictly positive gain exactly
when some evaluated cut separates two sides with different means. -/
theorem gain_positive_iff_means_differ (obsCell : List (Obs F))
    (obsStart obsEnd cutResidual : Nat) (sumCount : SumCount F)
    (hlt : obsStart < obsEnd) (hend : obsEnd ≤ obsCell.length) (hw : obsEnd < wordSize)
    (hT : sumCount.sum = cellSum obsCell obsStart obsEnd)
    (hC : sumCount.sCount = cellCount obsCell obsStart obsEnd)
    (hCw : sumCount.sCount < wordSize)
    (hpos : ∀ obs ∈ obsCell, 0 < obs.sCount) :
    (∀ (sL sR : F) (cL cR : Nat), 0 < cL → 0 < cR →
      (sL + sR) * (sL + sR) / ((cL + cR : Nat) : F) ≤ infoVar sL sR cL cR ∧
      ((sL + sR) * (sL + sR) / ((cL + cR : Nat) : F) = infoVar sL sR cL cR ↔
        sL / (cL : F) = sR / (cR : F))) ∧
    (∀ (c : CutAccum F) (x : F) (idx : Nat), c.info ≤ (c.argmaxRL x idx).info) ∧
    (∀ idx ∈ cutsUpTo obsCell obsStart (obsEnd - (obsStart + 1)),
      sumCount.sum * sumCount.sum / (sumCount.sCount : F) ≤
        cutStat obsCell obsStart obsEnd idx) ∧
    ∃ c1 gain,
      (CutAccumRegCart.ctor
          (CutAccum.ctor obsCell obsStart obsEnd cutResidual sumCount 0)).splitReg 0 =
        some (c1, gain) ∧
      (CutAccumRegCart.ctor
          (CutAccum.ctor obsCell obsStart obsEnd cutResidual sumCount 0)).info ≤ c1.info ∧
      (0 < gain ↔
        ∃ idx ∈ cutsUpTo obsCell obsStart (obsEnd - (obsStart + 1)),
          cellSum obsCell obsStart idx / (cellCount obsCell obsStart idx : F) ≠
            cellSum obsCell idx obsEnd / (cellCount obsCell idx obsEnd : F)) := by
  have hcut : ∀ idx ∈ cutsUpTo obsCell obsStart (obsEnd - (obsStart + 1)),
      sumCount.sum * sumCount.sum / (sumCount.sCount : F) ≤
          cutStat obsCell obsStart obsEnd idx ∧
      (sumCount.sum * sumCount.sum / (sumCount.sCount : F) =
          cutStat obsCell obsStart obsEnd idx ↔
        cellSum obsCell obsStart idx / (cellCount obsCell obsStart idx : F) =
          cellSum obsCell idx obsEnd / (cellCount obsCell idx obsEnd : F)) := by
    intro idx hidx
    obtain ⟨ha, hb, _⟩ := mem_cutsUpTo obsCell obsStart _ idx hidx
    have hL := cellCount_pos obsCell hpos obsStart idx ha (by omega)
    have hR := cellCount_pos obsCell hpos idx obsEnd (by omega) hend
    have hs := cellSum_split obsCell obsStart idx obsEnd (by omega) (by omega)
    have hc := cellCount_split obsCell obsStart idx obsEnd (by omega) (by omega)
    have := infoVar_ge_baseline (cellSum obsCell obsStart idx) (cellSum obsCell idx obsEnd)
      (cellCount obsCell obsStart idx) (cellCount obsCell idx obsEnd) hL hR
    rw [← hs, ← hc, ← hT, ← hC] at this
    exact this
  obtain ⟨c1, h1, h2⟩ := splitReg_plain_scan obsCell obsStart obsEnd cutResidual sumCount
    hlt hend hw hT hC hCw
  refine ⟨fun sL sR cL cR hL hR => infoVar_ge_baseline sL sR cL cR hL hR, ?_,
    fun idx hidx => (hcut idx hidx).1, c1, _, h1, ?_, ?_⟩
  · intro c x idx
    rw [argmaxRL_info]
    exact le_max_left _ _
  · rw [h2]
    exact le_foldl_max _ _
  · rw [sub_pos, h2, foldl_max_gt_iff]
    constructor
    · rintro ⟨x, hx, hlt1⟩
      obtain ⟨idx, hidx, rfl⟩ := List.mem_map.mp hx
      refine ⟨idx, hidx, ?_⟩
      intro heq
      exact absurd ((hcut idx hidx).2.mpr heq) hlt1.ne
    · rintro ⟨idx, hidx, hne⟩
      refine ⟨_, List.mem_map_of_mem _ hidx, ?_⟩
      rcases lt_or_eq_of_le (hcut idx hidx).1 with h | h
      · exact h
      · exact absurd ((hcut idx hidx).2.mp h) hne

/-- C25 on `accumExample`, responses `1, 2, 6, 7`: the cut left of position `2`
separates means `3/2` and `13/2`, and the gain `25` is positive. -/
theorem gain_positive_iff_means_differ_witness :
    ((∀ (sL sR : ℚ) (cL cR : Nat), 0 < cL → 0 < cR →
      (sL + sR) * (sL + sR) / ((cL + cR : Nat) : ℚ) ≤ infoVar sL sR cL cR ∧
      ((sL + sR) * (sL + sR) / ((cL + cR : Nat) : ℚ) = infoVar sL sR cL cR ↔
        sL / (cL : ℚ) = sR / (cR : ℚ))) ∧
    (∀ (c : CutAccum ℚ) (x : ℚ) (idx : Nat), c.info ≤ (c.argmaxRL x idx).info) ∧
    (∀ idx ∈ cutsUpTo cellExample 0 (4 - (0 + 1)),
      (16 : ℚ) * 16 / ((4 : Nat) : ℚ) ≤ cutStat cellExample 0 4 idx) ∧
    ∃ c1 gain,
      (CutAccumRegCart.ctor (CutAccum.ctor cellExample 0 4 0 ⟨16, 4⟩ 0)).splitReg 0 =
        some (c1, gain) ∧
      (CutAccumRegCart.ctor (CutAccum.ctor cellExample 0 4 0 ⟨16, 4⟩ 0)).info ≤ c1.info ∧
      (0 < gain ↔
        ∃ idx ∈ cutsUpTo cellExample 0 (4 - (0 + 1)),
          cellSum cellExample 0 idx / (cellCount cellExample 0 idx : ℚ) ≠
            cellSum cellExample idx 4 / (cellCount cellExample idx 4 : ℚ))) ∧
    2 ∈ cutsUpTo cellExample 0 (4 - (0 + 1)) ∧
    cellSum cellExample 0 2 / (cellCount cellExample 0 2 : ℚ) = 3 / 2 ∧
    cellSum cellExample 2 4 / (cellCount cellExample 2 4 : ℚ) = 13 / 2 :=
  ⟨gain_positive_iff_means_differ cellExample 0 4 0 ⟨16, 4⟩ (by decide) (by decide)
      (by unfold wordSize; norm_num)
      (by simp [cellSum, cellExample]; norm_num)
      (by decide)
      (by unfold wordSize; norm_num)
      (by decide),
    by decide,
    by simp [cellSum, cellCount, cellExample]; norm_num,
    by simp [cellSum, cellCount, cellExample]; norm_num⟩

/-! ### Evaluations of the constrained and of the implicit scan -/

/-- C12. On a node with totals `(8, 2)` whose cell holds the explicit observation
`(7, 1)` and one implicit observation, the implicit-aware scan returns gain `0`:
`splitResidual` hands `argmaxResidual` the truth value of its statistic, `1`,
below the baseline `32`.  The ordinary scan of the materialised cell
`(1, 1), (7, 1)` returns gain `18`. -/
theorem splitImpl_gain_differs_from_materialised :
    (accumOf cellResidual 0 ⟨8, 2⟩ 0).gainReg 1 = some 0 ∧
    (accumOf cellMaterialised 0 ⟨8, 2⟩ 0).gainReg 0 = some 18 := by
  constructor
  · simp [accumOf, CutAccum.gainReg, cellResidual, CutAccum.splitReg, CutAccum.splitImpl,
      CutAccum.splitRL, CutAccum.splitResidual, CutAccumRegCart.ctor, CutAccum.ctor,
      splitRLFrom, wordSize, subIdx, CutAccum.accumulateReg, CutAccum.argmaxResidual,
      CutAccum.infoVarHere, infoVar, boolToDouble]
    norm_num
  · simp [accumOf, CutAccum.gainReg, cellMaterialised, CutAccum.splitReg,
      CutAccum.splitRL, CutAccumRegCart.ctor, CutAccum.ctor,
      splitRLFrom, wordSize, subIdx, CutAccum.accumulateReg, CutAccum.argmaxRL,
      CutAccum.infoVarHere, infoVar]
    norm_num

/-- A trial statistic of `0`, which is what a cut failing the sense test hands over,
leaves a non-negative `info` as it is. -/
theorem argmaxRL_failed_sense (c : CutAccum F) (x : F) (idx : Nat) (h : 0 ≤ c.info) :
    (c.argmaxRL (boolToDouble (false && decide (x ≠ 0))) idx) = c := by
  simp [CutAccum.argmaxRL, boolToDouble, not_lt.mpr h]

/-- C13. On the cell with responses `1/5, 3/10, 1/10` and a non-decreasing
constraint, the only cut above the baseline `3/25` is the one left of position
`2` (statistic `27/200`), and it fails the sense test.  The constrained scan
still returns gain `22/25`: the cut left of position `1` passes the test with
the baseline statistic and is handed over as `1`.  The unconstrained scan
returns `3/200`. -/
theorem splitRLMono_gain_without_passing_improvement :
    (accumOf cellSuppress 0 ⟨3 / 5, 3⟩ 1).gainReg 0 = some (22 / 25) ∧
    (accumOf cellSuppress 0 ⟨3 / 5, 3⟩ 0).gainReg 0 = some (3 / 200) ∧
    (accumOf cellSuppress 0 ⟨3 / 5, 3⟩ 1).info = 3 / 25 ∧
    cutStat cellSuppress 0 3 1 = 3 / 25 ∧
    cutStat cellSuppress 0 3 2 = 27 / 200 ∧
    ((accumOf cellSuppress 0 ⟨3 / 5, 3⟩ 1).accumulateReg ⟨1 / 10, 1, false⟩).2.senseMonotone
      = false := by
  refine ⟨?_, ?_, ?_, ?_, ?_, ?_⟩
  · simp [accumOf, CutAccum.gainReg, cellSuppress, CutAccum.splitReg, CutAccum.splitRLMono,
      CutAccumRegCart.ctor, CutAccum.ctor, splitRLMonoFrom, wordSize, subIdx,
      CutAccum.accumulateReg, CutAccum.argmaxRL, CutAccum.senseMonotone,
      CutAccum.infoVarHere, infoVar, boolToDouble]
    norm_num
  · simp [accumOf, CutAccum.gainReg, cellSuppress, CutAccum.splitReg, CutAccum.splitRL,
      CutAccumRegCart.ctor, CutAccum.ctor, splitRLFrom, wordSize, subIdx,
      CutAccum.accumulateReg, CutAccum.argmaxRL, CutAccum.infoVarHere, infoVar]
    norm_num
  · simp [accumOf, CutAccumRegCart.ctor, CutAccum.ctor]
    norm_num
  · simp [cutStat, infoVar, cellSum, cellCount, cellSuppress]
    norm_num
  · simp [cutStat, infoVar, cellSum, cellCount, cellSuppress]
    norm_num
  · simp [accumOf, CutAccumRegCart.ctor, CutAccum.ctor, CutAccum.accumulateReg,
      CutAccum.senseMonotone, subIdx, wordSize]
    norm_num

/-- C17. On the cell with responses `1, 3` and a non-decreasing constraint the one
cut passes the sense test with statistic `10` over the baseline `8`, yet the
constrained scan returns gain `0` where the unconstrained scan returns `2`. -/
theorem splitRLMono_gain_differs_from_splitRL :
    (accumOf cellIncreasing 0 ⟨4, 2⟩ 1).gainReg 0 = some 0 ∧
    (accumOf cellIncreasing 0 ⟨4, 2⟩ 0).gainReg 0 = some 2 ∧
    (accumOf cellIncreasing 0 ⟨4, 2⟩ 1).info = 8 ∧
    cutStat cellIncreasing 0 2 1 = 10 ∧
    ((accumOf cellIncreasing 0 ⟨4, 2⟩ 1).accumulateReg ⟨3, 1, false⟩).2.senseMonotone
      = true := by
  refine ⟨?_, ?_, ?_, ?_, ?_⟩
  · simp [accumOf, CutAccum.gainReg, cellIncreasing, CutAccum.splitReg, CutAccum.splitRLMono,
      CutAccumRegCart.ctor, CutAccum.ctor, splitRLMonoFrom, wordSize, subIdx,
      CutAccum.accumulateReg, CutAccum.argmaxRL, CutAccum.senseMonotone,
      CutAccum.infoVarHere, infoVar, boolToDouble]
    norm_num
  · simp [accumOf, CutAccum.gainReg, cellIncreasing, CutAccum.splitReg, CutAccum.splitRL,
      CutAccumRegCart.ctor, CutAccum.ctor, splitRLFrom, wordSize, subIdx,
      CutAccum.accumulateReg, CutAccum.argmaxRL, CutAccum.infoVarHere, infoVar]
    norm_num
  · simp [accumOf, CutAccumRegCart.ctor, CutAccum.ctor]
    norm_num
  · simp [cutStat, infoVar, cellSum, cellCount, cellIncreasing]
    norm_num
  · simp [accumOf, CutAccumRegCart.ctor, CutAccum.ctor, CutAccum.accumulateReg,
      CutAccum.senseMonotone, subIdx, wordSize]
    norm_num

/-- C19. On a node with totals `(1, 2)` all of whose observations have mean `1/2`, one
of them implicit, `splitReg` returns gain `1/2`: the cut at the residual slot
has the baseline statistic `1/2` and is handed over as `1`. -/
theorem splitReg_zero_variance_implicit_gain :
    (∀ obs ∈ cellConstant, obs.ySum = 1 / 2 * (obs.sCount : ℚ)) ∧
    (accumOf cellConstant 0 ⟨1, 2⟩ 0).info = 1 / 2 ∧
    (accumOf cellConstant 0 ⟨1, 2⟩ 0).gainReg 1 = some (1 / 2) ∧
    ((accumOf cellConstant 0 ⟨1, 2⟩ 0).accumulateReg ⟨1 / 2, 1, false⟩).2.infoVarHere
      = 1 / 2 := by
  refine ⟨?_, ?_, ?_, ?_⟩
  · simp [cellConstant]
  · simp [accumOf, CutAccumRegCart.ctor, CutAccum.ctor]
  · simp [accumOf, CutAccum.gainReg, cellConstant, CutAccum.splitReg, CutAccum.splitImpl,
      CutAccum.splitRL, CutAccum.splitResidual, CutAccumRegCart.ctor, CutAccum.ctor,
      splitRLFrom, wordSize, subIdx, CutAccum.accumulateReg, CutAccum.argmaxResidual,
      CutAccum.infoVarHere, infoVar, boolToDouble]
    norm_num
  · simp [accumOf, CutAccumRegCart.ctor, CutAccum.ctor, CutAccum.accumulateReg,
      CutAccum.infoVarHere, infoVar, subIdx, wordSize]
    norm_num

/-! ### The traced scans and the scans of the source -/

theorem scanFrom_regOps_false (fuel idxStart : Nat) :
    ∀ (idx : Nat) (c : CutAccum F),
      (scanFrom (regOps false) fuel idxStart idx c).map Prod.fst =
        splitRLFrom fuel idxStart idx c := by
  induction fuel with
  | zero => intro idx c; rfl
  | succ f ih =>
    intro idx c
    unfold scanFrom splitRLFrom
    by_cases h : idx = idxStart
    · simp [h]
    · simp only [h, if_false]
      cases hobs : c.obsCell[idx]? with
      | none => simp [regOps, hobs]
      | some obs =>
        cases ht : obs.tied with
        | true =>
          simp only [regOps, hobs, Option.map_some', CutAccum.accumulateReg, ht, if_true,
            Option.map_map]
          have := ih (subIdx idx 1) (c.accumulateReg obs).2
          simpa [regOps, CutAccum.accumulateReg, Function.comp_def] using this
        | false =>
          simp only [regOps, hobs, Option.map_some', CutAccum.accumulateReg, ht,
            Option.map_map, Bool.false_eq_true, if_false]
          have := ih (subIdx idx 1)
            ((c.accumulateReg obs).2.argmaxRL (c.accumulateReg obs).2.infoVarHere (subIdx idx 1))
          simpa [regOps, CutAccum.accumulateReg, Function.comp_def] using this

theorem scanFrom_regOps_true (fuel idxStart : Nat) :
    ∀ (idx : Nat) (c : CutAccum F),
      (scanFrom (regOps true) fuel idxStart idx c).map Prod.fst =
        splitRLMonoFrom fuel idxStart idx c := by
  induction fuel with
  | zero => intro idx c; rfl
  | succ f ih =>
    intro idx c
    unfold scanFrom splitRLMonoFrom
    by_cases h : idx = idxStart
    · simp [h]
    · simp only [h, if_false]
      cases hobs : c.obsCell[idx]? with
      | none => simp [regOps, hobs]
      | some obs =>
        cases ht : obs.tied with
        | true =>
          simp only [regOps, hobs, Option.map_some', CutAccum.accumulateReg, ht, if_true,
            Option.map_map]
          have := ih (subIdx idx 1) (c.accumulateReg obs).2
          simpa [regOps, CutAccum.accumulateReg, Function.comp_def] using this
        | false =>
          simp only [regOps, hobs, Option.map_some', CutAccum.accumulateReg, ht,
            Option.map_map, Bool.false_eq_true, if_false]
          have := ih (subIdx idx 1)
            ((c.accumulateReg obs).2.argmaxRL
              (boolToDouble ((c.accumulateReg obs).2.senseMonotone &&
                decide ((c.accumulateReg obs).2.infoVarHere ≠ 0))) (subIdx idx 1))
          simpa [regOps, CutAccum.accumulateReg, Function.comp_def] using this

theorem scanRL_regOps_false (idxStart idxEnd : Nat) (c : CutAccum F) :
    (scanRL (regOps false) idxStart idxEnd c).map Prod.fst = c.splitRL idxStart idxEnd := by
  unfold scanRL CutAccum.splitRL
  rw [← scanFrom_regOps_false, Option.map_map]
  rfl

theorem scanRL_regOps_true (idxStart idxEnd : Nat) (c : CutAccum F) :
    (scanRL (regOps true) idxStart idxEnd c).map Prod.fst = c.splitRLMono idxStart idxEnd := by
  unfold scanRL CutAccum.splitRLMono
  rw [← scanFrom_regOps_true, Option.map_map]
  rfl

theorem scanResidual_regOps (mono : Bool) (c : CutAccum F) :
    (scanResidual (regOps mono) c).map Prod.fst = c.splitResidual := by
  unfold scanResidual CutAccum.splitResidual
  cases hobs : c.obsCell[c.cutResidual]? with
  | none => simp [regOps, hobs]
  | some obs => simp [regOps, hobs, CutAccum.accumulateReg]

theorem scanResidualRL_regOps_false (c : CutAccum F) :
    (scanResidualRL (regOps false) c).map Prod.fst = c.residualRL := by
  unfold scanResidualRL CutAccum.residualRL
  simp only [Option.map_map]
  rw [← scanRL_regOps_false]
  simp [regOps, Function.comp_def]

theorem scanResidualRL_regOps_true (c : CutAccum F) :
    (scanResidualRL (regOps true) c).map Prod.fst = c.residualRLMono := by
  unfold scanResidualRL CutAccum.residualRLMono
  simp only [Option.map_map]
  rw [← scanRL_regOps_true]
  simp [regOps, Function.comp_def]

omit [LinearOrderedField F] in
theorem scanImpl_fst {S A : Type} (ops : ScanOps S F A) (fRL : Nat → Nat → S → Option S)
    (fRes fResRL : S → Option S)
    (h1 : ∀ a b s, (scanRL ops a b s).map Prod.fst = fRL a b s)
    (h2 : ∀ s, (scanResidual ops s).map Prod.fst = fRes s)
    (h3 : ∀ s, (scanResidualRL ops s).map Prod.fst = fResRL s) (s : S) :
    (scanImpl ops s).map Prod.fst =
      (if ops.cutResidual s < ops.obsEnd s then
          (fRL (ops.cutResidual s) (ops.obsEnd s) s).bind fRes
        else some s).bind fun s2 =>
        if ops.cutResidual s2 > ops.obsStart s2 then fResRL s2 else some s2 := by
  have tail : ∀ (r : S × List (ScanEvent F A)),
      Option.map Prod.fst
        (if ops.cutResidual r.1 > ops.obsStart r.1 then
          (scanResidualRL ops r.1).map fun r3 => (r3.1, r.2 ++ r3.2)
        else some r) =
      if ops.cutResidual r.1 > ops.obsStart r.1 then fResRL r.1 else some r.1 := by
    intro r
    by_cases h : ops.cutResidual r.1 > ops.obsStart r.1
    · simp only [h, if_true, ← h3, Option.map_map]
      rfl
    · simp only [h, if_false, Option.map_some']
  unfold scanImpl
  by_cases hc : ops.cutResidual s < ops.obsEnd s
  · simp only [hc, if_true, ← h1, ← h2]
    cases hA : scanRL ops (ops.cutResidual s) (ops.obsEnd s) s with
    | none => rfl
    | some r1 =>
      cases hB : scanResidual ops r1.1 with
      | none =>
        show Option.map Prod.fst (Option.bind (Option.bind (some r1) _) _) = _
        simp [hB]
      | some r2 =>
        show Option.map Prod.fst (Option.bind (Option.bind (some r1) _) _) = _
        simp only [Option.some_bind, hB, Option.map_some']
        exact tail (r2.1, r1.2 ++ r2.2)
  · simp only [hc, if_false, Option.bind_some]
    exact tail (s, [])

theorem scanReg_fst (implicitCount : Nat) (c : CutAccum F) :
    (c.scanReg implicitCount).map (fun r => (r.1, r.1.info - c.info)) =
      c.splitReg implicitCount := by
  have key : (c.scanReg implicitCount).map Prod.fst =
      if implicitCount ≠ 0 then
        if c.monoMode ≠ 0 then c.splitImplMono else c.splitImpl
      else
        if c.monoMode ≠ 0 then c.splitRLMono c.obsStart c.obsEnd
        else c.splitRL c.obsStart c.obsEnd := by
    unfold CutAccum.scanReg scan
    by_cases hk : implicitCount ≠ 0
    · rw [if_pos hk, if_pos hk]
      by_cases hm : c.monoMode ≠ 0
      · rw [if_pos hm, decide_eq_true hm,
          scanImpl_fst (regOps true) _ _ _ scanRL_regOps_true (scanResidual_regOps true)
            scanResidualRL_regOps_true]
        rfl
      · rw [if_neg hm, decide_eq_false hm,
          scanImpl_fst (regOps false) _ _ _ scanRL_regOps_false (scanResidual_regOps false)
            scanResidualRL_regOps_false]
        rfl
    · rw [if_neg hk, if_neg hk]
      by_cases hm : c.monoMode ≠ 0
      · rw [if_pos hm, decide_eq_true hm]
        exact scanRL_regOps_true _ _ _
      · rw [if_neg hm, decide_eq_false hm]
        exact scanRL_regOps_false _ _ _
  unfold CutAccum.splitReg
  simp only [← key, Option.map_map]
  rfl

/-! ### The loop of `splitRL`, for every accumulator -/

theorem offerStep_pair (i : F) (c : Nat) (x : F) (j : Nat) :
    offerStep (i, c) (x, j) = if i < x then (x, j) else (i, c) := rfl

theorem scanFrom_spec {S A : Type} (ops : ScanOps S F A) (lo hi cr : Nat) (tied : Nat → Bool)
    (Inv : Nat → Bool → S → Prop) (frame : ScanFrame ops lo hi cr tied Inv)
    (hw : hi ≤ wordSize) (a : Nat) (ha : lo ≤ a) (r : Bool) :
    ∀ (n fuel : Nat) (s : S), n < fuel → a + n < hi → Inv (a + n + 1) r s →
      ∃ s1 body, scanFrom ops fuel a (a + n) s = some (s1, body) ∧
        Inv (a + 1) r s1 ∧ LoopTrace ops tied Inv r a n body ∧
        (ops.info s1, ops.cutIndex s1) =
          (offersOf body).foldl offerStep (ops.info s, ops.cutIndex s) := by
  intro n
  induction n with
  | zero =>
    intro fuel s hf _ hinv
    match fuel, hf with
    | f + 1, _ =>
      refine ⟨s, [], by simp [scanFrom], hinv, ⟨by simp [stepsOf], by simp [offersOf], ?_⟩,
        by simp [offersOf]⟩
      intro j x p hmem
      simp at hmem
  | succ n ih =>
    intro fuel s hf hlt hinv
    match fuel, hf with
    | f + 1, hf =>
      have hne : a + (n + 1) ≠ a := by omega
      have hsub : subIdx (a + (n + 1)) 1 = a + n := by
        rw [subIdx_one _ (by omega) (by omega)]
        omega
      obtain ⟨s1, hacc, hinv1, hi1, hc1⟩ := frame.acc (a + (n + 1)) r s hinv (by omega) hlt
      have hrange : (List.range' (a + 1) (n + 1)).reverse =
          (a + (n + 1)) :: (List.range' (a + 1) n).reverse := by
        rw [List.range'_concat, List.reverse_append, List.reverse_singleton,
          List.singleton_append]
        have : a + 1 + 1 * n = a + (n + 1) := by omega
        rw [this]
      cases ht : tied (a + (n + 1)) with
      | true =>
        obtain ⟨s2, body, hrun, hinv2, ⟨hsteps, hoff, hcuts⟩, hbest⟩ :=
          ih f s1 (by omega) (by omega) hinv1
        refine ⟨s2, LoopEvent.step (a + (n + 1)) :: body, ?_, hinv2, ⟨?_, ?_, ?_⟩, ?_⟩
        · simp only [scanFrom, hne, if_false, hacc, ht, if_true, hsub, hrun, Option.map_some']
        · simp only [stepsOf, hsteps, hrange]
        · simp only [offersOf, hoff, hrange, List.filter_cons, ht, Bool.not_true,
            Bool.false_eq_true, if_false]
        · intro j x p hmem
          simp only [List.mem_cons, reduceCtorEq, false_or] at hmem
          obtain ⟨h1, h2, h3, h4⟩ := hcuts j x p hmem
          exact ⟨h1, by omega, h3, h4⟩
        · rw [hbest, hi1, hc1]
          rfl
      | false =>
        obtain ⟨hinvA, hbestA⟩ := frame.argRL (a + (n + 1)) r s1 (ops.trialRL s1) (a + n) hinv1
        obtain ⟨s2, body, hrun, hinv2, ⟨hsteps, hoff, hcuts⟩, hbest⟩ :=
          ih f (ops.argmaxRL s1 (ops.trialRL s1) (a + n)) (by omega) (by omega) hinvA
        refine ⟨s2, LoopEvent.step (a + (n + 1)) ::
          LoopEvent.cut (a + n) (ops.trialRL s1) (ops.args s1) :: body, ?_, hinv2,
          ⟨?_, ?_, ?_⟩, ?_⟩
        · simp only [scanFrom, hne, if_false, hacc, ht, Bool.false_eq_true, hsub, hrun,
            Option.map_some']
        · simp only [stepsOf, hsteps, hrange]
        · simp only [offersOf, hoff, hrange, List.filter_cons, ht, Bool.not_false, if_true,
            List.map_cons]
          have : a + (n + 1) - 1 = a + n := by omega
          rw [this]
        · intro j x p hmem
          simp only [List.mem_cons, reduceCtorEq, false_or] at hmem
          rcases hmem with hmem | hmem
          · injection hmem with e1 e2 e3
            subst e1 e2 e3
            exact ⟨by omega, by omega, ht, s1, hinv1, rfl, rfl⟩
          · obtain ⟨h1, h2, h3, h4⟩ := hcuts j x p hmem
            exact ⟨h1, by omega, h3, h4⟩
        · rw [hbest, hbestA, hi1, hc1]
          rfl

theorem scanRL_spec {S A : Type} (ops : ScanOps S F A) (lo hi cr : Nat) (tied : Nat → Bool)
    (Inv : Nat → Bool → S → Prop) (frame : ScanFrame ops lo hi cr tied Inv)
    (hw : hi < wordSize) (a b : Nat) (ha : lo ≤ a) (hab : a < b) (hb : b ≤ hi) (r : Bool)
    (s : S) (hinv : Inv b r s) :
    ∃ s1 body, scanRL ops a b s = some (s1, [ScanEvent.call a b body]) ∧
      Inv (a + 1) r s1 ∧ LoopTrace ops tied Inv r a (b - 1 - a) body ∧
      (ops.info s1, ops.cutIndex s1) =
        (offersOf body).foldl offerStep (ops.info s, ops.cutIndex s) := by
  have hsub : subIdx b 1 = a + (b - 1 - a) := by
    rw [subIdx_one b (by omega) (by omega)]
    omega
  have hinv0 : Inv (a + (b - 1 - a) + 1) r s := by
    have : a + (b - 1 - a) + 1 = b := by omega
    rw [this]
    exact hinv
  obtain ⟨s1, body, hrun, hinv1, htrace, hbest⟩ :=
    scanFrom_spec ops lo hi cr tied Inv frame hw.le a ha r (b - 1 - a) wordSize s
      (by omega) (by omega) hinv0
  refine ⟨s1, body, ?_, hinv1, htrace, hbest⟩
  simp only [scanRL, hsub, hrun, Option.map_some']

theorem foldl_offerStep_append (l1 l2 : List (F × Nat)) (b : F × Nat) :
    (l1 ++ l2).foldl offerStep b = l2.foldl offerStep (l1.foldl offerStep b) :=
  List.foldl_append _ _ _ _

theorem scanImpl_spec {S A : Type} (ops : ScanOps S F A) (lo hi cr : Nat) (tied : Nat → Bool)
    (Inv : Nat → Bool → S → Prop) (frame : ScanFrame ops lo hi cr tied Inv)
    (hw : hi < wordSize) (h1 : lo ≤ cr) (h2 : cr ≤ hi) (s : S) (hinv : Inv hi false s) :
    ∃ s1 tr, scanImpl ops s = some (s1, tr) ∧ ImplTrace ops tied Inv lo hi cr tr ∧
      (ops.info s1, ops.cutIndex s1) =
        (allOffers cr tr).foldl offerStep (ops.info s, ops.cutIndex s) := by
  obtain ⟨hlo, hhi, hcr⟩ := frame.bounds hi false s hinv
  -- the first pass and the cut at the residual slot
  have first : ∃ sA trA, (if ops.cutResidual s < ops.obsEnd s then
        (scanRL ops (ops.cutResidual s) (ops.obsEnd s) s).bind fun r1 =>
          (scanResidual ops r1.1).map fun r2 => (r2.1, r1.2 ++ r2.2)
      else some (s, [])) = some (sA, trA) ∧ Inv cr false sA ∧
      (cr < hi → ∃ body s1,
        trA = [ScanEvent.call cr hi body, ScanEvent.slot cr,
          ScanEvent.residualCut true (ops.trialLeft s1) (ops.args s1)] ∧
        LoopTrace ops tied Inv false cr (hi - 1 - cr) body ∧ Inv cr false s1) ∧
      (¬ cr < hi → trA = []) ∧
      (ops.info sA, ops.cutIndex sA) =
        (allOffers cr trA).foldl offerStep (ops.info s, ops.cutIndex s) := by
    rw [hcr, hhi]
    by_cases hc : cr < hi
    · obtain ⟨sB, body, hrun, hinvB, htrace, hbest⟩ :=
        scanRL_spec ops lo hi cr tied Inv frame hw cr hi h1 hc le_rfl false s hinv
      obtain ⟨_, _, hcrB⟩ := frame.bounds (cr + 1) false sB hinvB
      obtain ⟨sC, hacc, hinvC, hiC, hcC⟩ := frame.acc cr false sB hinvB h1 hc
      obtain ⟨hinvD, hbestD⟩ := frame.argRes cr false sC (ops.trialLeft sC) true hinvC
      refine ⟨ops.argmaxResidual sC (ops.trialLeft sC) true, _, ?_, hinvD,
        fun _ => ⟨body, sC, rfl, htrace, hinvC⟩, fun h => absurd hc h, ?_⟩
      · simp only [hc, if_true, hrun, Option.some_bind, scanResidual, hcrB, hacc,
          Option.map_some', List.singleton_append]
      · rw [hbestD, hiC, hcC, hbest]
        simp [allOffers]
    · refine ⟨s, [], by simp only [hc, if_false], ?_, fun h => absurd h hc, fun _ => rfl, ?_⟩
      · have : cr = hi := by omega
        rw [this]
        exact hinv
      · simp [allOffers]
  obtain ⟨sA, trA, hfirst, hinvA, htrA1, htrA2, hbestA⟩ := first
  obtain ⟨hloA, _, hcrA⟩ := frame.bounds cr false sA hinvA
  unfold scanImpl
  simp only [hfirst, Option.some_bind, hloA, hcrA]
  by_cases hc : lo < cr
  · obtain ⟨hinvR, hiR, hcR⟩ := frame.res cr sA hinvA
    obtain ⟨hinvO, hbestO⟩ :=
      frame.argRes cr true (ops.residual sA) (ops.trialRight (ops.residual sA)) false hinvR
    obtain ⟨hloO, _, hcrO⟩ := frame.bounds cr true _ hinvO
    obtain ⟨sE, body, hrun, hinvE, htrace, hbest⟩ :=
      scanRL_spec ops lo hi cr tied Inv frame hw lo cr le_rfl hc h2 true _ hinvO
    refine ⟨sE, trA ++ [ScanEvent.residualCut false (ops.trialRight (ops.residual sA))
      (ops.args (ops.residual sA)), ScanEvent.call lo cr body], ?_, ?_, ?_⟩
    · have hgt : cr > lo := hc
      simp only [hgt, if_true, scanResidualRL, hloO, hcrO, hrun, Option.map_some',
        List.singleton_append]
    · exact ⟨trA, _, rfl, htrA1, htrA2, fun _ => ⟨body, _, rfl, htrace, hinvR⟩,
        fun h => absurd hc h⟩
    · rw [hbest, hbestO, hiR, hcR, hbestA]
      have : ∀ (l : List (ScanEvent F A)) (l2 : List (ScanEvent F A)),
          allOffers cr (l ++ l2) = allOffers cr l ++ allOffers cr l2 := by
        intro l l2
        induction l with
        | nil => rfl
        | cons e rest ih =>
          cases e <;> simp [allOffers, ih]
      rw [this, foldl_offerStep_append]
      simp [allOffers]
  · refine ⟨sA, trA, ?_, ?_, ?_⟩
    · have hgt : ¬ cr > lo := hc
      simp only [hgt, if_false]
    · exact ⟨trA, [], by simp, htrA1, htrA2, fun h => absurd h hc, fun _ => rfl⟩
    · exact hbestA

theorem scan_spec {S A : Type} (ops : ScanOps S F A) (lo hi cr : Nat) (tied : Nat → Bool)
    (Inv : Nat → Bool → S → Prop) (frame : ScanFrame ops lo hi cr tied Inv)
    (hw : hi < wordSize) (h1 : lo ≤ cr) (h2 : cr ≤ hi) (implicitCount : Nat)
    (h3 : implicitCount = 0 → lo < hi) (s : S) (hinv : Inv hi false s) :
    ∃ s1 tr, scan ops implicitCount s = some (s1, tr) ∧
      ScanTrace ops tied Inv lo hi cr implicitCount tr ∧
      (ops.info s1, ops.cutIndex s1) =
        (allOffers cr tr).foldl offerStep (ops.info s, ops.cutIndex s) := by
  obtain ⟨hlo, hhi, hcr⟩ := frame.bounds hi false s hinv
  by_cases hk : implicitCount ≠ 0
  · obtain ⟨s1, tr, hrun, htrace, hbest⟩ :=
      scanImpl_spec ops lo hi cr tied Inv frame hw h1 h2 s hinv
    refine ⟨s1, tr, ?_, ⟨fun _ => htrace, fun h => absurd h hk⟩, hbest⟩
    unfold scan
    rw [if_pos hk, hrun]
  · have hk0 : implicitCount = 0 := not_not.mp hk
    obtain ⟨s1, body, hrun, _, htrace, hbest⟩ :=
      scanRL_spec ops lo hi cr tied Inv frame hw lo hi le_rfl (h3 hk0) le_rfl false s hinv
    refine ⟨s1, _, ?_, ⟨fun h => absurd hk0 h, fun _ => ⟨body, rfl, htrace⟩⟩, ?_⟩
    · unfold scan
      rw [if_neg hk, hlo, hhi, hrun]
    · rw [hbest]
      simp [allOffers]

/-! ### The regression accumulator under the scans -/

omit [LinearOrderedField F] in
theorem cellCount_mono (obsCell : List (Obs F)) (lo k hi : Nat) (h1 : lo ≤ k) (h2 : k ≤ hi) :
    cellCount obsCell lo k ≤ cellCount obsCell lo hi := by
  rw [cellCount_split obsCell lo k hi h1 h2]
  exact Nat.le_add_right _ _

theorem subIdx_of_le (a b : Nat) (h : b ≤ a) (ha : a < wordSize) : subIdx a b = a - b := by
  have := subIdx_add_right (a - b) b (by omega)
  rwa [Nat.sub_add_cancel h] at this

theorem regFrame (mono : Bool) (obsCell : List (Obs F)) (lo hi cr : Nat) (total : SumCount F)
    (hend : hi ≤ obsCell.length) (hC : cellCount obsCell lo hi ≤ total.sCount)
    (hT : total.sCount < wordSize) :
    ScanFrame (regOps mono) lo hi cr (fun i => !untiedAt obsCell i)
      (RegInv obsCell lo hi cr total) := by
  constructor
  · rintro k r c ⟨_, h2, h3, h4, _⟩
    exact ⟨h2, h3, h4⟩
  · rintro idx r c ⟨h1, h2, h3, h4, h5, h6, h7, h8, h9⟩ hlo hhi
    have hidx : idx < obsCell.length := by omega
    have hread : c.obsCell[idx]? = some obsCell[idx] := by
      rw [h1]
      exact List.getElem?_eq_getElem hidx
    have htied : (!untiedAt obsCell idx) = (obsCell[idx]).tied := by
      simp [untiedAt, List.getElem?_eq_getElem hidx]
    have hsumS := cellSum_succ obsCell lo idx hlo hidx
    have hcntS := cellCount_succ obsCell lo idx hlo hidx
    have hmono := cellCount_mono obsCell lo (idx + 1) hi (by omega) (by omega)
    refine ⟨(c.accumulateReg obsCell[idx]).2, ?_, ⟨h1, h2, h3, h4, h5, hlo, by omega, ?_, ?_⟩,
      rfl, rfl⟩
    · simp only [regOps, hread, Option.map_some', htied]
      rfl
    · simp only [CutAccum.accumulateReg, h8, hsumS]
      ring
    · simp only [CutAccum.accumulateReg, h9, hcntS]
      have e : cellCount obsCell lo idx + (obsCell[idx]).sCount +
          (if r = true then 0 else total.sCount - cellCount obsCell lo hi) =
          (cellCount obsCell lo idx +
            (if r = true then 0 else total.sCount - cellCount obsCell lo hi)) +
            (obsCell[idx]).sCount := by omega
      rw [e]
      apply subIdx_add_right
      rw [hcntS] at hmono
      split <;> omega
  · rintro k c ⟨h1, h2, h3, h4, h5, h6, h7, h8, h9⟩
    have hmono := cellCount_mono obsCell lo k hi h6 h7
    refine ⟨⟨h1, h2, h3, h4, h5, h6, h7, ?_, ?_⟩, rfl, rfl⟩
    · simp only [regOps, CutAccum.residualReg, h1, h2, h3, h5, h8, Bool.false_eq_true,
        if_false, if_true]
      ring
    · simp only [regOps, CutAccum.residualReg, h1, h2, h3, h5, h9, Bool.false_eq_true,
        if_false, if_true, add_zero]
      rw [subIdx_of_le _ _ hC hT]
      exact subIdx_add_right _ _ (by omega)
  · rintro k r c x j ⟨h1, h2, h3, h4, h5, h6, h7, h8, h9⟩
    simp only [regOps, CutAccum.argmaxRL, offerStep_pair]
    split
    · exact ⟨⟨h1, h2, h3, h4, h5, h6, h7, h8, h9⟩, rfl⟩
    · exact ⟨⟨h1, h2, h3, h4, h5, h6, h7, h8, h9⟩, rfl⟩
  · rintro k r c x b ⟨h1, h2, h3, h4, h5, h6, h7, h8, h9⟩
    simp only [regOps, CutAccum.argmaxResidual, offerStep_pair]
    split
    · exact ⟨⟨h1, h2, h3, h4, h5, h6, h7, h8, h9⟩, by rw [h4]⟩
    · exact ⟨⟨h1, h2, h3, h4, h5, h6, h7, h8, h9⟩, rfl⟩

/-- Under the invariant the arguments `infoVar` receives split the node totals. -/
theorem regInv_args (obsCell : List (Obs F)) (lo hi cr : Nat) (total : SumCount F)
    (hC : cellCount obsCell lo hi ≤ total.sCount) (hT : total.sCount < wordSize)
    (k : Nat) (r : Bool) (c : CutAccum F) (hinv : RegInv obsCell lo hi cr total k r c) :
    c.argsHere.sumLeft + c.argsHere.sumRight = total.sum ∧
    c.argsHere.sCountLeft + c.argsHere.sCountRight = total.sCount ∧
    c.argsHere.sumLeft =
      cellSum obsCell lo k + (if r then 0 else total.sum - cellSum obsCell lo hi) ∧
    c.argsHere.sCountLeft =
      cellCount obsCell lo k + (if r then 0 else total.sCount - cellCount obsCell lo hi) := by
  obtain ⟨h1, h2, h3, h4, h5, h6, h7, h8, h9⟩ := hinv
  have hmono := cellCount_mono obsCell lo k hi h6 h7
  have hle : c.sCount ≤ total.sCount := by
    rw [h9]
    split <;> omega
  refine ⟨?_, ?_, h8, h9⟩
  · simp only [CutAccum.argsHere, h5]
    ring
  · simp only [CutAccum.argsHere, h5]
    rw [subIdx_of_le _ _ hle hT]
    omega

/-! ### The traced categorical scan and the scans of the source -/

theorem scanFrom_ctgOps (fuel idxStart : Nat) :
    ∀ (idx : Nat) (g : CutAccumCtg F),
      (scanFrom ctgOps fuel idxStart idx g).map Prod.fst =
        splitRLCtgFrom fuel idxStart idx g := by
  induction fuel with
  | zero => intro idx g; rfl
  | succ f ih =>
    intro idx g
    unfold scanFrom splitRLCtgFrom
    by_cases h : idx = idxStart
    · simp [h]
    · simp only [h, if_false]
      cases hobs : g.obsCell[idx]? with
      | none => simp [ctgOps, hobs]
      | some obs =>
        cases hacc : g.accumulateCtg obs with
        | none => simp [ctgOps, hobs, hacc]
        | some r =>
          obtain ⟨t, g1⟩ := r
          cases t with
          | true =>
            have := ih (subIdx idx 1) g1
            simpa [ctgOps, hobs, hacc, Function.comp_def] using this
          | false =>
            have := ih (subIdx idx 1) (g1.argmaxRL g1.infoGiniHere (subIdx idx 1))
            simpa [ctgOps, hobs, hacc, Function.comp_def] using this

theorem scanRL_ctgOps (idxStart idxEnd : Nat) (g : CutAccumCtg F) :
    (scanRL ctgOps idxStart idxEnd g).map Prod.fst = g.splitRL idxStart idxEnd := by
  unfold scanRL CutAccumCtg.splitRL
  rw [← scanFrom_ctgOps, Option.map_map]
  rfl

theorem scanResidual_ctgOps (g : CutAccumCtg F) :
    (scanResidual ctgOps g).map Prod.fst = g.splitResidual := by
  unfold scanResidual CutAccumCtg.splitResidual
  cases hobs : g.obsCell[g.cutResidual]? with
  | none => simp [ctgOps, hobs]
  | some obs =>
    cases hacc : g.accumulateCtg obs with
    | none => simp [ctgOps, hobs, hacc]
    | some r => simp [ctgOps, hobs, hacc]

theorem scanResidualRL_ctgOps (g : CutAccumCtg F) :
    (scanResidualRL ctgOps g).map Prod.fst = g.residualRL := by
  unfold scanResidualRL CutAccumCtg.residualRL
  simp only [Option.map_map]
  rw [← scanRL_ctgOps]
  simp [ctgOps, Function.comp_def]

theorem scanCtg_fst (implicitCount : Nat) (g : CutAccumCtg F) :
    (g.scanCtg implicitCount).map (fun r => (r.1, r.1.info - g.info)) =
      g.splitCtg implicitCount := by
  have key : (g.scanCtg implicitCount).map Prod.fst =
      if implicitCount ≠ 0 then g.splitImpl else g.splitRL g.obsStart g.obsEnd := by
    unfold CutAccumCtg.scanCtg scan
    by_cases hk : implicitCount ≠ 0
    · rw [if_pos hk, if_pos hk,
        scanImpl_fst ctgOps _ _ _ scanRL_ctgOps scanResidual_ctgOps scanResidualRL_ctgOps]
      rfl
    · rw [if_neg hk, if_neg hk]
      exact scanRL_ctgOps _ _ _
  unfold CutAccumCtg.splitCtg
  simp only [← key, Option.map_map]
  rfl

/-! ### The categorical accumulator under the scans -/

theorem sumSquaresUpTo_move (n i : Nat) (hi : i < n) (R R1 : Nat → F) (y : F)
    (h : ∀ c, c < n → R1 c = if c = i then R c + y else R c) :
    sumSquaresUpTo n R1 = sumSquaresUpTo n R + y * (y + 2 * R i) := by
  unfold sumSquaresUpTo
  have h1 : ∀ c ∈ Finset.range n,
      R1 c * R1 c = R c * R c + (if c = i then y * (y + 2 * R i) else 0) := by
    intro c hc
    rw [h c (Finset.mem_range.mp hc)]
    by_cases hci : c = i
    · subst hci
      simp only [if_true]
      ring
    · simp only [hci, if_false, add_zero]
  rw [Finset.sum_congr rfl h1, Finset.sum_add_distrib, Finset.sum_ite_eq']
  simp [hi]

theorem sumSquaresUpTo_congr (n : Nat) (R R1 : Nat → F) (h : ∀ c, c < n → R1 c = R c) :
    sumSquaresUpTo n R1 = sumSquaresUpTo n R := by
  unfold sumSquaresUpTo
  apply Finset.sum_congr rfl
  intro c hc
  rw [h c (Finset.mem_range.mp hc)]

theorem sumSquares_eq_upTo (l : List F) :
    sumSquares l = sumSquaresUpTo l.length fun c => l.getD c 0 := by
  induction l with
  | nil => simp [sumSquares, sumSquaresUpTo]
  | cons x rest ih =>
    unfold sumSquares sumSquaresUpTo at *
    rw [List.length_cons, Finset.sum_range_succ', List.map_cons, List.sum_cons, ih]
    simp [add_comm]

theorem ctgCellSum_cons (obsCell : List (ObsCtg F)) (idx hi ctg : Nat) (h1 : idx < hi)
    (h2 : hi ≤ obsCell.length) :
    ctgCellSum obsCell idx hi ctg =
      (if (obsCell[idx]).ctg = ctg then (obsCell[idx]).ySum else 0) +
        ctgCellSum obsCell (idx + 1) hi ctg := by
  unfold ctgCellSum
  rw [segment_split _ obsCell idx (idx + 1) hi (Nat.le_succ _) h1,
    segment_single _ obsCell idx (by omega)]

theorem cellSumCtg_succ (obsCell : List (ObsCtg F)) (lo idx : Nat) (h1 : lo ≤ idx)
    (h : idx < obsCell.length) :
    cellSumCtg obsCell lo (idx + 1) = cellSumCtg obsCell lo idx + (obsCell[idx]).ySum := by
  unfold cellSumCtg
  rw [segment_split _ obsCell lo idx (idx + 1) h1 (Nat.le_succ _),
    segment_single _ obsCell idx h]

theorem ctgCellSum_empty (obsCell : List (ObsCtg F)) (hi ctg : Nat) :
    ctgCellSum obsCell hi hi ctg = 0 := by
  unfold ctgCellSum
  have : (obsCell.take hi).drop hi = [] := by
    apply List.drop_eq_nil_of_le
    simp
  rw [this]
  simp

theorem moveCtg_getD (g : CutAccumCtg F) (y : F) (i c : Nat) (h : i < g.ctgAccum.length) :
    (g.moveCtg y i).ctgAccum.getD c 0 =
      if c = i then g.ctgAccum.getD i 0 + y else g.ctgAccum.getD c 0 := by
  simp only [CutAccumCtg.moveCtg, List.getD_eq_getElem?_getD, List.getElem?_set]
  by_cases hci : c = i
  · subst hci
    simp [h]
  · have : ¬ i = c := fun e => hci e.symm
    simp [hci, this]

theorem moveCtg_inv (g : CutAccumCtg F) (n i : Nat) (hi : i < n) (y : F) (R R1 T : Nat → F)
    (hlen : g.ctgAccum.length = n) (hget : ∀ c, c < n → g.ctgAccum.getD c 0 = R c)
    (hT : ∀ c, c < n → g.ctgSum.getD c 0 = T c)
    (hR : g.ssR = sumSquaresUpTo n R)
    (hL : g.ssL = sumSquaresUpTo n fun c => T c - R c)
    (h1 : ∀ c, c < n → R1 c = if c = i then R c + y else R c) :
    (g.moveCtg y i).ctgAccum.length = n ∧
    (∀ c, c < n → (g.moveCtg y i).ctgAccum.getD c 0 = R1 c) ∧
    (g.moveCtg y i).ssR = sumSquaresUpTo n R1 ∧
    (g.moveCtg y i).ssL = sumSquaresUpTo n fun c => T c - R1 c := by
  refine ⟨?_, ?_, ?_, ?_⟩
  · simp [CutAccumCtg.moveCtg, hlen]
  · intro c hc
    rw [moveCtg_getD g y i c (by omega), h1 c hc, hget c hc, hget i hi]
    by_cases hci : c = i
    · subst hci
      rfl
    · simp only [hci, if_false]
  · rw [sumSquaresUpTo_move n i hi R R1 y h1]
    simp only [CutAccumCtg.moveCtg, hR, hget i hi]
  · have h2 : ∀ c, c < n →
        (fun c => T c - R1 c) c = if c = i then (fun c => T c - R c) c + (-y)
          else (fun c => T c - R c) c := by
      intro c hc
      simp only [h1 c hc]
      split <;> ring
    rw [sumSquaresUpTo_move n i hi (fun c => T c - R c) (fun c => T c - R1 c) (-y) h2]
    simp only [CutAccumCtg.moveCtg, hL, hget i hi, hT i hi]
    ring

theorem ctgRight_step (obsCell : List (ObsCtg F)) (lo hi : Nat) (ctgSum : List F) (idx : Nat)
    (r : Bool) (c : Nat) (h1 : idx < hi) (h2 : hi ≤ obsCell.length) :
    ctgRight obsCell lo hi ctgSum idx r c =
      if c = (obsCell[idx]).ctg then
        ctgRight obsCell lo hi ctgSum (idx + 1) r c + (obsCell[idx]).ySum
      else ctgRight obsCell lo hi ctgSum (idx + 1) r c := by
  unfold ctgRight
  rw [ctgCellSum_cons obsCell idx hi c h1 h2]
  by_cases hc : c = (obsCell[idx]).ctg
  · have hc1 : (obsCell[idx]).ctg = c := hc.symm
    simp only [hc1, if_true]
    ring
  · have hc1 : ¬ (obsCell[idx]).ctg = c := fun e => hc e.symm
    simp only [hc, hc1, if_false, zero_add]

theorem foldl_moveCtg (rho T : Nat → F) (n : Nat) :
    ∀ (m : Nat), m ≤ n → ∀ (g : CutAccumCtg F) (R : Nat → F),
      g.ctgAccum.length = n → (∀ c, c < n → g.ctgAccum.getD c 0 = R c) →
      (∀ c, c < n → g.ctgSum.getD c 0 = T c) →
      g.ssR = sumSquaresUpTo n R → g.ssL = sumSquaresUpTo n (fun c => T c - R c) →
      let gm := (List.range m).foldl (fun acc ctg => acc.moveCtg (rho ctg) ctg) g
      (gm.obsCell = g.obsCell ∧ gm.obsStart = g.obsStart ∧ gm.obsEnd = g.obsEnd ∧
        gm.cutResidual = g.cutResidual ∧ gm.sumCount = g.sumCount ∧ gm.sum = g.sum ∧
        gm.info = g.info ∧ gm.cutIndex = g.cutIndex ∧ gm.ctgSum = g.ctgSum) ∧
      gm.ctgAccum.length = n ∧
      (∀ c, c < n → gm.ctgAccum.getD c 0 = R c + if c < m then rho c else 0) ∧
      gm.ssR = sumSquaresUpTo n (fun c => R c + if c < m then rho c else 0) ∧
      gm.ssL = sumSquaresUpTo n (fun c => T c - (R c + if c < m then rho c else 0)) := by
  intro m
  induction m with
  | zero =>
    intro _ g R hlen hget hT hR hL
    refine ⟨⟨rfl, rfl, rfl, rfl, rfl, rfl, rfl, rfl, rfl⟩, hlen, ?_, ?_, ?_⟩
    · simpa using hget
    · simpa using hR
    · simpa using hL
  | succ m ih =>
    intro hm g R hlen hget hT hR hL
    obtain ⟨⟨f1, f2, f3, f4, f5, f6, f7, f8, f9⟩, hlen1, hget1, hR1, hL1⟩ :=
      ih (by omega) g R hlen hget hT hR hL
    simp only [List.range_succ, List.foldl_append, List.foldl_cons, List.foldl_nil]
    have hT1 : ∀ c, c < n →
        ((List.range m).foldl (fun acc ctg => acc.moveCtg (rho ctg) ctg) g).ctgSum.getD c 0 =
          T c := by
      intro c hc
      rw [f9]
      exact hT c hc
    have hstep : ∀ c, c < n →
        (fun c => R c + if c < m + 1 then rho c else 0) c =
          if c = m then (fun c => R c + if c < m then rho c else 0) c + rho m
          else (fun c => R c + if c < m then rho c else 0) c := by
      intro c _
      by_cases hcm : c = m
      · subst hcm
        simp
      · by_cases hlt : c < m
        · have : c < m + 1 := by omega
          simp [hcm, hlt, this]
        · have : ¬ c < m + 1 := by omega
          simp [hcm, hlt, this]
    obtain ⟨k1, k2, k3, k4⟩ := moveCtg_inv _ n m (by omega) (rho m) _ _ T hlen1 hget1 hT1 hR1 hL1
      hstep
    refine ⟨?_, k1, k2, k3, k4⟩
    simp only [CutAccumCtg.moveCtg]
    exact ⟨f1, f2, f3, f4, f5, f6, f7, f8, f9⟩

theorem ctgFrame (obsCell : List (ObsCtg F)) (lo hi cr : Nat) (total : SumCount F)
    (ctgSum : List F) (hend : hi ≤ obsCell.length)
    (hctg : ∀ obs ∈ obsCell, obs.ctg < ctgSum.length) :
    ScanFrame ctgOps lo hi cr (tiedAtCtg obsCell)
      (CtgInv obsCell lo hi cr total ctgSum) := by
  constructor
  · rintro k r g ⟨_, h2, h3, h4, _⟩
    exact ⟨h2, h3, h4⟩
  · rintro idx r g ⟨h1, h2, h3, h4, h5, h6, h7, h8, h9, h10, h11, h12, h13⟩ hlo hhi
    have hidx : idx < obsCell.length := by omega
    have hread : g.obsCell[idx]? = some obsCell[idx] := by
      rw [h1]
      exact List.getElem?_eq_getElem hidx
    have htied : tiedAtCtg obsCell idx = (obsCell[idx]).tied := by
      simp [tiedAtCtg, List.getElem?_eq_getElem hidx]
    have hcat : (obsCell[idx]).ctg < ctgSum.length := hctg _ (List.getElem_mem hidx)
    have hsumS := cellSumCtg_succ obsCell lo idx hlo hidx
    have hcond : (obsCell[idx]).ctg < g.ctgSum.length ∧
        (obsCell[idx]).ctg < g.ctgAccum.length := by
      rw [h6, h10]
      exact ⟨hcat, hcat⟩
    have hTg : ∀ c, c < ctgSum.length → g.ctgSum.getD c 0 = ctgSum.getD c 0 := by
      intro c _
      rw [h6]
    obtain ⟨k1, k2, k3, k4⟩ := moveCtg_inv
      { g with sum := g.sum - (obsCell[idx]).ySum,
               sCount := subIdx g.sCount (obsCell[idx]).sCount }
      ctgSum.length (obsCell[idx]).ctg hcat (obsCell[idx]).ySum
      (ctgRight obsCell lo hi ctgSum (idx + 1) r) (ctgRight obsCell lo hi ctgSum idx r)
      (fun c => ctgSum.getD c 0) h10 h11 hTg h12 h13
      (fun c _ => ctgRight_step obsCell lo hi ctgSum idx r c hhi hend)
    refine ⟨_, ?_, ⟨?_, ?_, ?_, ?_, ?_, ?_, hlo, by omega, ?_, k1, k2, k3, k4⟩, ?_, ?_⟩
    · simp only [ctgOps, hread, Option.some_bind, CutAccumCtg.accumulateCtg, hcond, and_self,
        if_true, htied]
    · simpa [CutAccumCtg.moveCtg] using h1
    · simpa [CutAccumCtg.moveCtg] using h2
    · simpa [CutAccumCtg.moveCtg] using h3
    · simpa [CutAccumCtg.moveCtg] using h4
    · simpa [CutAccumCtg.moveCtg] using h5
    · simpa [CutAccumCtg.moveCtg] using h6
    · simp only [CutAccumCtg.moveCtg, h9, hsumS]
      ring
    · simp [ctgOps, CutAccumCtg.moveCtg]
    · simp [ctgOps, CutAccumCtg.moveCtg]
  · rintro k g ⟨h1, h2, h3, h4, h5, h6, h7, h8, h9, h10, h11, h12, h13⟩
    have hTg : ∀ c, c < ctgSum.length → g.ctgSum.getD c 0 = ctgSum.getD c 0 := by
      intro c _
      rw [h6]
    obtain ⟨⟨f1, f2, f3, f4, f5, f6, f7, f8, f9⟩, hlen1, hget1, hR1, hL1⟩ :=
      foldl_moveCtg (fun c => ctgSum.getD c 0 - ctgCellSum obsCell lo hi c)
        (fun c => ctgSum.getD c 0) ctgSum.length ctgSum.length le_rfl
        { g with
          sum := g.sum - (g.sumCount.sum - cellSumCtg g.obsCell g.obsStart g.obsEnd),
          sCount := subIdx g.sCount
            (subIdx g.sumCount.sCount (cellCountCtg g.obsCell g.obsStart g.obsEnd)) }
        (ctgRight obsCell lo hi ctgSum k false) h10 h11 hTg h12 h13
    have hfold : ctgOps.residual g =
        (List.range ctgSum.length).foldl
          (fun acc ctg =>
            acc.moveCtg (ctgSum.getD ctg 0 - ctgCellSum obsCell lo hi ctg) ctg)
          { g with
            sum := g.sum - (g.sumCount.sum - cellSumCtg g.obsCell g.obsStart g.obsEnd),
            sCount := subIdx g.sCount
              (subIdx g.sumCount.sCount (cellCountCtg g.obsCell g.obsStart g.obsEnd)) } := by
      simp only [ctgOps, CutAccumCtg.residualCtg, h1, h2, h3, h6]
    have hfun : ∀ c, c < ctgSum.length →
        (ctgRight obsCell lo hi ctgSum k false c +
          if c < ctgSum.length then ctgSum.getD c 0 - ctgCellSum obsCell lo hi c else 0) =
        ctgRight obsCell lo hi ctgSum k true c := by
      intro c hc
      simp [ctgRight, hc]
    rw [hfold]
    refine ⟨⟨?_, ?_, ?_, ?_, ?_, ?_, h7, h8, ?_, hlen1, ?_, ?_, ?_⟩, ?_, ?_⟩
    · rw [f1]; exact h1
    · rw [f2]; exact h2
    · rw [f3]; exact h3
    · rw [f4]; exact h4
    · rw [f5]; exact h5
    · rw [f9]; exact h6
    · rw [f6]
      simp only [h1, h2, h3, h5, h9, Bool.false_eq_true, if_false, if_true]
      ring
    · intro c hc
      rw [hget1 c hc]
      exact hfun c hc
    · rw [hR1]
      exact sumSquaresUpTo_congr _ _ _ (fun c hc => hfun c hc)
    · rw [hL1]
      apply sumSquaresUpTo_congr
      intro c hc
      simp only [ctgLeft, ← hfun c hc]
    · exact f7
    · exact f8
  · rintro k r g x j ⟨h1, h2, h3, h4, h5, h6, h7, h8, h9, h10, h11, h12, h13⟩
    simp only [ctgOps, CutAccumCtg.argmaxRL, offerStep_pair]
    split
    · exact ⟨⟨h1, h2, h3, h4, h5, h6, h7, h8, h9, h10, h11, h12, h13⟩, rfl⟩
    · exact ⟨⟨h1, h2, h3, h4, h5, h6, h7, h8, h9, h10, h11, h12, h13⟩, rfl⟩
  · rintro k r g x b ⟨h1, h2, h3, h4, h5, h6, h7, h8, h9, h10, h11, h12, h13⟩
    simp only [ctgOps, CutAccumCtg.argmaxResidual, offerStep_pair]
    split
    · exact ⟨⟨h1, h2, h3, h4, h5, h6, h7, h8, h9, h10, h11, h12, h13⟩, by rw [h4]⟩
    · exact ⟨⟨h1, h2, h3, h4, h5, h6, h7, h8, h9, h10, h11, h12, h13⟩, rfl⟩

/-! ### What every traced scan does -/

omit [LinearOrderedField F] in
theorem readsOf_append {A : Type} (l1 l2 : List (ScanEvent F A)) :
    readsOf (l1 ++ l2) = readsOf l1 ++ readsOf l2 := by
  induction l1 with
  | nil => rfl
  | cons e rest ih => cases e <;> simp [readsOf, ih]

omit [LinearOrderedField F] in
theorem nodup_two_passes (lo cr hi : Nat) (h1 : lo ≤ cr) (h2 : cr < hi) :
    ((List.range' (cr + 1) (hi - 1 - cr)).reverse ++
      (cr :: (List.range' (lo + 1) (cr - 1 - lo)).reverse)).Nodup := by
  rw [List.nodup_append]
  refine ⟨List.nodup_reverse.mpr (List.nodup_range' _ _), ?_, ?_⟩
  · rw [List.nodup_cons]
    refine ⟨?_, List.nodup_reverse.mpr (List.nodup_range' _ _)⟩
    simp only [List.mem_reverse, List.mem_range'_1]
    omega
  · intro x hx hx2
    simp only [List.mem_reverse, List.mem_range'_1, List.mem_cons] at hx hx2
    omega

omit [LinearOrderedField F] in
theorem scanTrace_events {S A : Type} (ops : ScanOps S F A) (tied : Nat → Bool)
    (Inv : Nat → Bool → S → Prop) (lo hi cr implicitCount : Nat) (tr : List (ScanEvent F A))
    (h1 : lo ≤ cr) (h2 : cr ≤ hi) (h3 : implicitCount = 0 → lo < hi)
    (htr : ScanTrace ops tied Inv lo hi cr implicitCount tr) :
    (∀ a b body, ScanEvent.call a b body ∈ tr →
      a < b ∧ lo ≤ a ∧ b ≤ hi ∧ ∃ r, LoopTrace ops tied Inv r a (b - 1 - a) body) ∧
    (∀ idx, ScanEvent.slot idx ∈ tr → idx = cr ∧ cr < hi) ∧
    (∀ onLeft x p, ScanEvent.residualCut onLeft x p ∈ tr →
      ∃ s1, Inv cr (!onLeft) s1 ∧ p = ops.args s1 ∧
        x = if onLeft then ops.trialLeft s1 else ops.trialRight s1) ∧
    (∀ idx ∈ readsOf tr, lo ≤ idx ∧ idx < hi) ∧ (readsOf tr).Nodup := by
  obtain ⟨himpl, hplain⟩ := htr
  by_cases hk : implicitCount = 0
  · obtain ⟨body, rfl, hbody⟩ := hplain hk
    have hlt := h3 hk
    refine ⟨?_, ?_, ?_, ?_, ?_⟩
    · intro a b body1 hmem
      simp only [List.mem_singleton] at hmem
      injection hmem with e1 e2 e3
      subst e1 e2 e3
      exact ⟨hlt, le_rfl, le_rfl, false, hbody⟩
    · intro idx hmem
      simp at hmem
    · intro onLeft x p hmem
      simp at hmem
    · intro idx hmem
      simp only [readsOf, List.append_nil, hbody.1, List.mem_reverse, List.mem_range'_1] at hmem
      omega
    · simp only [readsOf, List.append_nil, hbody.1]
      exact List.nodup_reverse.mpr (List.nodup_range' _ _)
  · obtain ⟨first, second, rfl, hf1, hf2, hs1, hs2⟩ := himpl hk
    by_cases hA : cr < hi
    · obtain ⟨bodyA, sA, rfl, htrA, hinvA⟩ := hf1 hA
      by_cases hB : lo < cr
      · obtain ⟨bodyB, sB, rfl, htrB, hinvB⟩ := hs1 hB
        refine ⟨?_, ?_, ?_, ?_, ?_⟩
        · intro a b body1 hmem
          simp only [List.cons_append, List.nil_append, List.mem_cons, reduceCtorEq,
            false_or, List.mem_singleton, List.not_mem_nil, or_false] at hmem
          rcases hmem with hmem | hmem
          · injection hmem with e1 e2 e3
            subst e1 e2 e3
            exact ⟨hA, h1, le_rfl, false, htrA⟩
          · injection hmem with e1 e2 e3
            subst e1 e2 e3
            exact ⟨hB, le_rfl, h2, true, htrB⟩
        · intro idx hmem
          simp only [List.cons_append, List.nil_append, List.mem_cons, reduceCtorEq,
            false_or, List.mem_singleton, List.not_mem_nil, or_false] at hmem
          injection hmem with e1
          exact ⟨e1, hA⟩
        · intro onLeft x p hmem
          simp only [List.cons_append, List.nil_append, List.mem_cons, reduceCtorEq,
            false_or, List.mem_singleton, List.not_mem_nil, or_false] at hmem
          rcases hmem with hmem | hmem
          · injection hmem with e1 e2 e3
            subst e1 e2 e3
            exact ⟨sA, hinvA, rfl, rfl⟩
          · injection hmem with e1 e2 e3
            subst e1 e2 e3
            exact ⟨sB, hinvB, rfl, rfl⟩
        · intro idx hmem
          simp only [List.cons_append, List.nil_append, readsOf, htrA.1, htrB.1,
            List.append_nil, List.mem_append, List.mem_cons, List.mem_reverse,
            List.mem_range'_1] at hmem
          omega
        · simp only [List.cons_append, List.nil_append, readsOf, htrA.1, htrB.1,
            List.append_nil]
          exact nodup_two_passes lo cr hi h1 hA
      · rw [hs2 hB]
        have hcr : cr = lo := by omega
        refine ⟨?_, ?_, ?_, ?_, ?_⟩
        · intro a b body1 hmem
          simp only [List.append_nil, List.mem_cons, reduceCtorEq,
            false_or, List.mem_singleton, List.not_mem_nil, or_false] at hmem
          injection hmem with e1 e2 e3
          subst e1 e2 e3
          exact ⟨hA, h1, le_rfl, false, htrA⟩
        · intro idx hmem
          simp only [List.append_nil, List.mem_cons, reduceCtorEq,
            false_or, List.mem_singleton, List.not_mem_nil, or_false] at hmem
          injection hmem with e1
          exact ⟨e1, hA⟩
        · intro onLeft x p hmem
          simp only [List.append_nil, List.mem_cons, reduceCtorEq,
            false_or, List.mem_singleton, List.not_mem_nil, or_false] at hmem
          injection hmem with e1 e2 e3
          subst e1 e2 e3
          exact ⟨sA, hinvA, rfl, rfl⟩
        · intro idx hmem
          simp only [List.append_nil, readsOf, htrA.1, List.mem_append, List.mem_cons,
            List.mem_reverse, List.mem_range'_1, List.not_mem_nil, or_false] at hmem
          omega
        · have := nodup_two_passes lo cr hi h1 hA
          have e : cr - 1 - lo = 0 := by omega
          rw [e] at this
          simpa [readsOf, htrA.1] using this
    · rw [hf2 hA]
      have hcr : cr = hi := by omega
      by_cases hB : lo < cr
      · obtain ⟨bodyB, sB, rfl, htrB, hinvB⟩ := hs1 hB
        refine ⟨?_, ?_, ?_, ?_, ?_⟩
        · intro a b body1 hmem
          simp only [List.nil_append, List.mem_cons, reduceCtorEq,
            false_or, List.mem_singleton, List.not_mem_nil, or_false] at hmem
          injection hmem with e1 e2 e3
          subst e1 e2 e3
          exact ⟨hB, le_rfl, h2, true, htrB⟩
        · intro idx hmem
          simp at hmem
        · intro onLeft x p hmem
          simp only [List.nil_append, List.mem_cons, reduceCtorEq,
            false_or, List.mem_singleton, List.not_mem_nil, or_false] at hmem
          injection hmem with e1 e2 e3
          subst e1 e2 e3
          exact ⟨sB, hinvB, rfl, rfl⟩
        · intro idx hmem
          simp only [List.nil_append, readsOf, htrB.1, List.append_nil, List.mem_reverse,
            List.mem_range'_1] at hmem
          omega
        · simp only [List.nil_append, readsOf, htrB.1, List.append_nil]
          exact List.nodup_reverse.mpr (List.nodup_range' _ _)
      · rw [hs2 hB]
        refine ⟨?_, ?_, ?_, ?_, ?_⟩
        · intro a b body1 hmem
          simp at hmem
        · intro idx hmem
          simp at hmem
        · intro onLeft x p hmem
          simp at hmem
        · intro idx hmem
          simp [readsOf] at hmem
        · simp [readsOf]

theorem regBoundsFrame (mono : Bool) (obsCell : List (Obs F)) (lo hi cr : Nat)
    (hend : hi ≤ obsCell.length) :
    ScanFrame (regOps mono) lo hi cr (fun i => !untiedAt obsCell i)
      (RegBounds obsCell lo hi cr) := by
  constructor
  · rintro k r c ⟨_, h2, h3, h4⟩
    exact ⟨h2, h3, h4⟩
  · rintro idx r c ⟨h1, h2, h3, h4⟩ hlo hhi
    have hidx : idx < obsCell.length := by omega
    have hread : c.obsCell[idx]? = some obsCell[idx] := by
      rw [h1]
      exact List.getElem?_eq_getElem hidx
    have htied : (!untiedAt obsCell idx) = (obsCell[idx]).tied := by
      simp [untiedAt, List.getElem?_eq_getElem hidx]
    refine ⟨(c.accumulateReg obsCell[idx]).2, ?_, ⟨h1, h2, h3, h4⟩, rfl, rfl⟩
    simp only [regOps, hread, Option.map_some', htied]
    rfl
  · rintro k c ⟨h1, h2, h3, h4⟩
    exact ⟨⟨h1, h2, h3, h4⟩, rfl, rfl⟩
  · rintro k r c x j ⟨h1, h2, h3, h4⟩
    simp only [regOps, CutAccum.argmaxRL, offerStep_pair]
    split
    · exact ⟨⟨h1, h2, h3, h4⟩, rfl⟩
    · exact ⟨⟨h1, h2, h3, h4⟩, rfl⟩
  · rintro k r c x b ⟨h1, h2, h3, h4⟩
    simp only [regOps, CutAccum.argmaxResidual, offerStep_pair]
    split
    · exact ⟨⟨h1, h2, h3, h4⟩, by rw [h4]⟩
    · exact ⟨⟨h1, h2, h3, h4⟩, rfl⟩

theorem foldl_moveCtg_frame (rho : Nat → F) (l : List Nat) :
    ∀ (g : CutAccumCtg F),
      let gm := l.foldl (fun acc ctg => acc.moveCtg (rho ctg) ctg) g
      gm.obsCell = g.obsCell ∧ gm.obsStart = g.obsStart ∧ gm.obsEnd = g.obsEnd ∧
      gm.cutResidual = g.cutResidual ∧ gm.info = g.info ∧ gm.cutIndex = g.cutIndex ∧
      gm.ctgSum = g.ctgSum ∧ gm.ctgAccum.length = g.ctgAccum.length := by
  induction l with
  | nil => intro g; exact ⟨rfl, rfl, rfl, rfl, rfl, rfl, rfl, rfl⟩
  | cons x rest ih =>
    intro g
    obtain ⟨h1, h2, h3, h4, h5, h6, h7, h8⟩ := ih (g.moveCtg (rho x) x)
    simp only [List.foldl_cons]
    refine ⟨h1, h2, h3, h4, h5, h6, h7, ?_⟩
    rw [h8]
    simp [CutAccumCtg.moveCtg]

theorem ctgBoundsFrame (obsCell : List (ObsCtg F)) (lo hi cr nCtg : Nat)
    (hend : hi ≤ obsCell.length) (hctg : ∀ obs ∈ obsCell, obs.ctg < nCtg) :
    ScanFrame ctgOps lo hi cr (tiedAtCtg obsCell) (CtgBounds obsCell lo hi cr nCtg) := by
  constructor
  · rintro k r g ⟨_, h2, h3, h4, _⟩
    exact ⟨h2, h3, h4⟩
  · rintro idx r g ⟨h1, h2, h3, h4, h5, h6⟩ hlo hhi
    have hidx : idx < obsCell.length := by omega
    have hread : g.obsCell[idx]? = some obsCell[idx] := by
      rw [h1]
      exact List.getElem?_eq_getElem hidx
    have htied : tiedAtCtg obsCell idx = (obsCell[idx]).tied := by
      simp [tiedAtCtg, List.getElem?_eq_getElem hidx]
    have hcat : (obsCell[idx]).ctg < nCtg := hctg _ (List.getElem_mem hidx)
    have hcond : (obsCell[idx]).ctg < g.ctgSum.length ∧
        (obsCell[idx]).ctg < g.ctgAccum.length := by
      rw [h5, h6]
      exact ⟨hcat, hcat⟩
    refine ⟨({ g with sum := g.sum - (obsCell[idx]).ySum,
                      sCount := subIdx g.sCount (obsCell[idx]).sCount }).moveCtg
        (obsCell[idx]).ySum (obsCell[idx]).ctg, ?_, ⟨?_, ?_, ?_, ?_, ?_, ?_⟩, ?_, ?_⟩
    · simp only [ctgOps, hread, Option.some_bind, CutAccumCtg.accumulateCtg, hcond, and_self,
        if_true, htied]
    · simpa [CutAccumCtg.moveCtg] using h1
    · simpa [CutAccumCtg.moveCtg] using h2
    · simpa [CutAccumCtg.moveCtg] using h3
    · simpa [CutAccumCtg.moveCtg] using h4
    · simpa [CutAccumCtg.moveCtg] using h5
    · simpa [CutAccumCtg.moveCtg] using h6
    · simp [ctgOps, CutAccumCtg.moveCtg]
    · simp [ctgOps, CutAccumCtg.moveCtg]
  · rintro k g ⟨h1, h2, h3, h4, h5, h6⟩
    obtain ⟨f1, f2, f3, f4, f5, f6, f7, f8⟩ := foldl_moveCtg_frame
      (fun ctg => g.ctgSum.getD ctg 0 - ctgCellSum g.obsCell g.obsStart g.obsEnd ctg)
      (List.range g.ctgSum.length)
      { g with
        sum := g.sum - (g.sumCount.sum - cellSumCtg g.obsCell g.obsStart g.obsEnd),
        sCount := subIdx g.sCount
          (subIdx g.sumCount.sCount (cellCountCtg g.obsCell g.obsStart g.obsEnd)) }
    exact ⟨⟨f1.trans h1, f2.trans h2, f3.trans h3, f4.trans h4, (congrArg _ f7).trans h5,
      f8.trans h6⟩, f5, f6⟩
  · rintro k r g x j ⟨h1, h2, h3, h4, h5, h6⟩
    simp only [ctgOps, CutAccumCtg.argmaxRL, offerStep_pair]
    split
    · exact ⟨⟨h1, h2, h3, h4, h5, h6⟩, rfl⟩
    · exact ⟨⟨h1, h2, h3, h4, h5, h6⟩, rfl⟩
  · rintro k r g x b ⟨h1, h2, h3, h4, h5, h6⟩
    simp only [ctgOps, CutAccumCtg.argmaxResidual, offerStep_pair]
    split
    · exact ⟨⟨h1, h2, h3, h4, h5, h6⟩, by rw [h4]⟩
    · exact ⟨⟨h1, h2, h3, h4, h5, h6⟩, rfl⟩

omit [LinearOrderedField F] in
theorem traceInBounds_of_scanTrace {S A : Type} (ops : ScanOps S F A) (tied : Nat → Bool)
    (Inv : Nat → Bool → S → Prop) (lo hi cr implicitCount : Nat) (tr : List (ScanEvent F A))
    (h1 : lo ≤ cr) (h2 : cr ≤ hi) (h3 : implicitCount = 0 → lo < hi)
    (htr : ScanTrace ops tied Inv lo hi cr implicitCount tr) : TraceInBounds lo hi tr := by
  obtain ⟨hcalls, _, _, hreads, hnodup⟩ :=
    scanTrace_events ops tied Inv lo hi cr implicitCount tr h1 h2 h3 htr
  refine ⟨?_, hreads, hnodup⟩
  intro a b body hmem
  obtain ⟨hab, hlo, hhi, r, hsteps, _, hcuts⟩ := hcalls a b body hmem
  refine ⟨hab, ?_, hsteps, ?_⟩
  · rw [hsteps]
    simp
  · intro j x p hcut
    obtain ⟨k1, k2, _⟩ := hcuts j x p hcut
    omega

/-- C23. Under `obsStart ≤ cutResidual ≤ obsEnd` (and `obsStart < obsEnd` when there are
no implicit observations), with the cell inside `obsCell`, `obsEnd` an `IndexT`
value and, for the categorical accumulator, every category inside the
per-category vectors, the regression scan `splitReg` and the categorical scan
`splitCtg` return: no index wraps around and the loops end within their fuel.
Every call `splitRL(idxStart, idxEnd)` has `idxStart < idxEnd` and runs
`idxEnd - 1 - idxStart` iterations, every index accumulated lies in
`[obsStart, obsEnd)`, none is accumulated twice, and every cut is recorded
under an index in `[obsStart, obsEnd - 2]`. -/
theorem scans_terminate_within_cell (c : CutAccum F) (g : CutAccumCtg F)
    (implicitCount : Nat)
    (hc1 : c.obsStart ≤ c.cutResidual) (hc2 : c.cutResidual ≤ c.obsEnd)
    (hc3 : implicitCount = 0 → c.obsStart < c.obsEnd)
    (hc4 : c.obsEnd ≤ c.obsCell.length) (hc5 : c.obsEnd < wordSize)
    (hg1 : g.obsStart ≤ g.cutResidual) (hg2 : g.cutResidual ≤ g.obsEnd)
    (hg3 : implicitCount = 0 → g.obsStart < g.obsEnd)
    (hg4 : g.obsEnd ≤ g.obsCell.length) (hg5 : g.obsEnd < wordSize)
    (hg6 : g.ctgAccum.length = g.ctgSum.length)
    (hg7 : ∀ obs ∈ g.obsCell, obs.ctg < g.ctgSum.length) :
    (∃ c1 tr, c.scanReg implicitCount = some (c1, tr) ∧
      c.splitReg implicitCount = some (c1, c1.info - c.info) ∧
      TraceInBounds c.obsStart c.obsEnd tr) ∧
    (∃ g1 tr, g.scanCtg implicitCount = some (g1, tr) ∧
      g.splitCtg implicitCount = some (g1, g1.info - g.info) ∧
      TraceInBounds g.obsStart g.obsEnd tr) := by
  constructor
  · obtain ⟨c1, tr, hrun, htrace, _⟩ :=
      scan_spec (regOps (decide (c.monoMode ≠ 0))) c.obsStart c.obsEnd c.cutResidual _ _
        (regBoundsFrame _ c.obsCell c.obsStart c.obsEnd c.cutResidual hc4)
        hc5 hc1 hc2 implicitCount hc3 c ⟨rfl, rfl, rfl, rfl⟩
    have hrun1 : c.scanReg implicitCount = some (c1, tr) := hrun
    refine ⟨c1, tr, hrun1, ?_, traceInBounds_of_scanTrace _ _ _ _ _ _ _ _ hc1 hc2 hc3 htrace⟩
    rw [← scanReg_fst, hrun1]
    rfl
  · obtain ⟨g1, tr, hrun, htrace, _⟩ :=
      scan_spec ctgOps g.obsStart g.obsEnd g.cutResidual _ _
        (ctgBoundsFrame g.obsCell g.obsStart g.obsEnd g.cutResidual g.ctgSum.length hg4 hg7)
        hg5 hg1 hg2 implicitCount hg3 g ⟨rfl, rfl, rfl, rfl, rfl, hg6⟩
    have hrun1 : g.scanCtg implicitCount = some (g1, tr) := hrun
    refine ⟨g1, tr, hrun1, ?_, traceInBounds_of_scanTrace _ _ _ _ _ _ _ _ hg1 hg2 hg3 htrace⟩
    rw [← scanCtg_fst, hrun1]
    rfl

/-- C23 on the constrained regression accumulator `accumImplicit 1` and the categorical
accumulator `accumCtgExample`, each with one residual slot inside its cell. -/
theorem scans_terminate_within_cell_witness :
    (∃ c1 tr, (accumImplicit 1).scanReg 1 = some (c1, tr) ∧
      (accumImplicit 1).splitReg 1 = some (c1, c1.info - (accumImplicit 1).info) ∧
      TraceInBounds (accumImplicit 1).obsStart (accumImplicit 1).obsEnd tr) ∧
    (∃ g1 tr, accumCtgExample.scanCtg 1 = some (g1, tr) ∧
      accumCtgExample.splitCtg 1 = some (g1, g1.info - accumCtgExample.info) ∧
      TraceInBounds accumCtgExample.obsStart accumCtgExample.obsEnd tr) :=
  scans_terminate_within_cell (accumImplicit 1) accumCtgExample 1
    (by decide) (by decide) (by decide) (by decide) (by unfold wordSize; decide)
    (by decide) (by decide) (by decide) (by decide) (by unfold wordSize; decide)
    (by decide) (by decide)

omit [LinearOrderedField F] in
theorem mem_argsOf {A : Type} (tr : List (ScanEvent F A)) (p : A) :
    p ∈ argsOf tr ↔
      (∃ a b body j x, ScanEvent.call a b body ∈ tr ∧ LoopEvent.cut j x p ∈ body) ∨
      (∃ onLeft x, ScanEvent.residualCut onLeft x p ∈ tr) := by
  induction tr with
  | nil => simp [argsOf]
  | cons e rest ih =>
    cases e with
    | call a b body =>
      simp only [argsOf, List.mem_append, ih, List.mem_cons, reduceCtorEq, false_or,
        List.mem_filterMap]
      constructor
      · rintro (⟨e, he, hp⟩ | ⟨a1, b1, body1, j, x, h1, h2⟩ | ⟨o, x, h⟩)
        · cases e with
          | step idx => simp at hp
          | cut j x q =>
            simp only [Option.some.injEq] at hp
            subst hp
            exact Or.inl ⟨a, b, body, j, x, Or.inl rfl, he⟩
        · exact Or.inl ⟨a1, b1, body1, j, x, Or.inr h1, h2⟩
        · exact Or.inr ⟨o, x, h⟩
      · rintro (⟨a1, b1, body1, j, x, h1 | h1, h2⟩ | ⟨o, x, h⟩)
        · injection h1 with e1 e2 e3
          subst e1 e2 e3
          exact Or.inl ⟨LoopEvent.cut j x p, h2, rfl⟩
        · exact Or.inr (Or.inl ⟨a1, b1, body1, j, x, h1, h2⟩)
        · exact Or.inr (Or.inr ⟨o, x, h⟩)
    | slot idx =>
      simp only [argsOf, ih, List.mem_cons, reduceCtorEq, false_or]
    | residualCut o x q =>
      simp only [argsOf, List.mem_cons, ih, reduceCtorEq, false_or]
      constructor
      · rintro (h | h | ⟨o1, x1, h⟩)
        · subst h
          exact Or.inr ⟨o, x, Or.inl rfl⟩
        · exact Or.inl h
        · exact Or.inr ⟨o1, x1, Or.inr h⟩
      · rintro (h | ⟨o1, x1, h | h⟩)
        · exact Or.inr (Or.inl h)
        · injection h with e1 e2 e3
          exact Or.inl e3
        · exact Or.inr (Or.inr ⟨o1, x1, h⟩)

omit [LinearOrderedField F] in
/-- Every statistic of a traced scan is computed from an accumulator that satisfies the
invariant at a position of the cell. -/
theorem scanTrace_args {S A : Type} (ops : ScanOps S F A) (tied : Nat → Bool)
    (Inv : Nat → Bool → S → Prop) (lo hi cr implicitCount : Nat) (tr : List (ScanEvent F A))
    (h1 : lo ≤ cr) (h2 : cr ≤ hi) (h3 : implicitCount = 0 → lo < hi)
    (htr : ScanTrace ops tied Inv lo hi cr implicitCount tr) :
    ∀ p ∈ argsOf tr, ∃ k r s1, lo ≤ k ∧ k ≤ hi ∧ Inv k r s1 ∧ p = ops.args s1 := by
  obtain ⟨hcalls, _, hres, _, _⟩ :=
    scanTrace_events ops tied Inv lo hi cr implicitCount tr h1 h2 h3 htr
  intro p hp
  rcases (mem_argsOf tr p).mp hp with ⟨a, b, body, j, x, hcall, hcut⟩ | ⟨o, x, hmem⟩
  · obtain ⟨hab, hlo, hhi, r, _, _, hcuts⟩ := hcalls a b body hcall
    obtain ⟨k1, k2, _, s1, hinv, _, hargs⟩ := hcuts j x p hcut
    exact ⟨j + 1, r, s1, by omega, by omega, hinv, hargs⟩
  · obtain ⟨s1, hinv, hargs, _⟩ := hres o x p hmem
    exact ⟨cr, !o, s1, h1, h2, hinv, hargs⟩

theorem regInv_ctor (obsCell : List (Obs F)) (lo hi cr : Nat) (total : SumCount F)
    (monoMode : Int) (h : lo ≤ hi) (hC : cellCount obsCell lo hi ≤ total.sCount) :
    RegInv obsCell lo hi cr total hi false
      (CutAccumRegCart.ctor (CutAccum.ctor obsCell lo hi cr total monoMode)) := by
  refine ⟨rfl, rfl, rfl, rfl, rfl, h, le_rfl, ?_, ?_⟩
  · simp only [CutAccumRegCart.ctor, CutAccum.ctor, Bool.false_eq_true, if_false]
    ring
  · simp only [CutAccumRegCart.ctor, CutAccum.ctor, Bool.false_eq_true, if_false]
    omega

theorem ctgInv_ctor (obsCell : List (ObsCtg F)) (lo hi cr : Nat) (total : SumCount F)
    (ctgSum : List F) (h : lo ≤ hi) :
    CtgInv obsCell lo hi cr total ctgSum hi false
      (CutAccumCtgCart.ctor (CutAccumCtg.ctor obsCell lo hi cr total ctgSum)) := by
  have hR : ∀ c, ctgRight obsCell lo hi ctgSum hi false c = 0 := by
    intro c
    simp [ctgRight, ctgCellSum_empty]
  refine ⟨rfl, rfl, rfl, rfl, rfl, rfl, h, le_rfl, ?_, ?_, ?_, ?_, ?_⟩
  · simp only [CutAccumCtgCart.ctor, CutAccumCtg.ctor, Bool.false_eq_true, if_false]
    ring
  · simp [CutAccumCtgCart.ctor, CutAccumCtg.ctor]
  · intro c hc
    simp [CutAccumCtgCart.ctor, CutAccumCtg.ctor, hR, List.getD_eq_getElem?_getD, hc]
  · simp [CutAccumCtgCart.ctor, CutAccumCtg.ctor, sumSquaresUpTo, hR]
  · simp only [CutAccumCtgCart.ctor, CutAccumCtg.ctor, sumSquares_eq_upTo]
    apply sumSquaresUpTo_congr
    intro c _
    simp [ctgLeft, hR]

/-- C11. For a regression accumulator built over a cell whose sample counts the node
total covers, and for a categorical accumulator whose categories lie inside the
per-category vectors, with or without implicit observations and with or
without a monotone constraint: the scan returns, and at every cut at which a
statistic is evaluated the two sums passed as left and right add up to
`sumCount.sum`; the two sample counts `infoVar` receives add up to
`sumCount.sCount`.  `infoGini` receives the two sums and no counts. -/
theorem scan_cuts_conserve_totals (obsCell : List (Obs F)) (lo hi cr : Nat)
    (total : SumCount F) (monoMode : Int) (ctgCell : List (ObsCtg F)) (loC hiC crC : Nat)
    (totalC : SumCount F) (ctgSum : List F) (implicitCount : Nat)
    (h1 : lo ≤ cr) (h2 : cr ≤ hi) (h3 : implicitCount = 0 → lo < hi)
    (h4 : hi ≤ obsCell.length) (h5 : hi < wordSize)
    (h6 : cellCount obsCell lo hi ≤ total.sCount) (h7 : total.sCount < wordSize)
    (k1 : loC ≤ crC) (k2 : crC ≤ hiC) (k3 : implicitCount = 0 → loC < hiC)
    (k4 : hiC ≤ ctgCell.length) (k5 : hiC < wordSize)
    (k6 : ∀ obs ∈ ctgCell, obs.ctg < ctgSum.length) :
    (∃ c1 tr,
      (CutAccumRegCart.ctor (CutAccum.ctor obsCell lo hi cr total monoMode)).scanReg
        implicitCount = some (c1, tr) ∧
      ((CutAccumRegCart.ctor (CutAccum.ctor obsCell lo hi cr total monoMode)).splitReg
        implicitCount).map Prod.fst = some c1 ∧
      ∀ p ∈ argsOf tr,
        p.sumLeft + p.sumRight = total.sum ∧ p.sCountLeft + p.sCountRight = total.sCount) ∧
    (∃ g1 tr,
      (CutAccumCtgCart.ctor (CutAccumCtg.ctor ctgCell loC hiC crC totalC ctgSum)).scanCtg
        implicitCount = some (g1, tr) ∧
      ((CutAccumCtgCart.ctor (CutAccumCtg.ctor ctgCell loC hiC crC totalC ctgSum)).splitCtg
        implicitCount).map Prod.fst = some g1 ∧
      ∀ p ∈ argsOf tr, p.sumLeft + p.sumRight = totalC.sum) := by
  constructor
  · obtain ⟨c1, tr, hrun, htrace, _⟩ :=
      scan_spec (regOps (decide
          ((CutAccumRegCart.ctor (CutAccum.ctor obsCell lo hi cr total monoMode)).monoMode ≠ 0)))
        lo hi cr _ _ (regFrame _ obsCell lo hi cr total h4 h6 h7)
        h5 h1 h2 implicitCount h3 _
        (regInv_ctor obsCell lo hi cr total monoMode (by omega) h6)
    have hrun1 : (CutAccumRegCart.ctor (CutAccum.ctor obsCell lo hi cr total monoMode)).scanReg
        implicitCount = some (c1, tr) := hrun
    refine ⟨c1, tr, hrun1, ?_, ?_⟩
    · rw [← scanReg_fst, hrun1]
      rfl
    · intro p hp
      obtain ⟨k, r, s1, _, _, hinv, rfl⟩ :=
        scanTrace_args _ _ _ lo hi cr implicitCount tr h1 h2 h3 htrace p hp
      obtain ⟨e1, e2, _, _⟩ := regInv_args obsCell lo hi cr total h6 h7 k r s1 hinv
      exact ⟨e1, e2⟩
  · obtain ⟨g1, tr, hrun, htrace, _⟩ :=
      scan_spec ctgOps loC hiC crC _ _ (ctgFrame ctgCell loC hiC crC totalC ctgSum k4 k6)
        k5 k1 k2 implicitCount k3 _
        (ctgInv_ctor ctgCell loC hiC crC totalC ctgSum (by omega))
    have hrun1 : (CutAccumCtgCart.ctor
        (CutAccumCtg.ctor ctgCell loC hiC crC totalC ctgSum)).scanCtg implicitCount =
        some (g1, tr) := hrun
    refine ⟨g1, tr, hrun1, ?_, ?_⟩
    · rw [← scanCtg_fst, hrun1]
      rfl
    · intro p hp
      obtain ⟨k, r, s1, _, _, hinv, rfl⟩ :=
        scanTrace_args _ _ _ loC hiC crC implicitCount tr k1 k2 k3 htrace p hp
      obtain ⟨_, _, _, _, e5, _⟩ := hinv
      simp only [ctgOps, CutAccumCtg.argsHere, e5]
      ring

/-- C11 on the constrained regression accumulator over `cellExample` with totals
`(20, 6)` and residual slot `2`, and on the categorical accumulator over
`cellCtgExample` with totals `(7, 4)` and residual slot `1`. -/
theorem scan_cuts_conserve_totals_witness :
    (∃ c1 tr,
      (CutAccumRegCart.ctor (CutAccum.ctor cellExample 0 4 2 ⟨20, 6⟩ 1)).scanReg 1 =
        some (c1, tr) ∧
      ((CutAccumRegCart.ctor (CutAccum.ctor cellExample 0 4 2 ⟨20, 6⟩ 1)).splitReg 1).map
        Prod.fst = some c1 ∧
      ∀ p ∈ argsOf tr,
        p.sumLeft + p.sumRight = (⟨20, 6⟩ : SumCount ℚ).sum ∧
        p.sCountLeft + p.sCountRight = (⟨20, 6⟩ : SumCount ℚ).sCount) ∧
    (∃ g1 tr,
      (CutAccumCtgCart.ctor (CutAccumCtg.ctor cellCtgExample 0 3 1 ⟨7, 4⟩ [4, 3])).scanCtg 1 =
        some (g1, tr) ∧
      ((CutAccumCtgCart.ctor (CutAccumCtg.ctor cellCtgExample 0 3 1 ⟨7, 4⟩ [4, 3])).splitCtg
        1).map Prod.fst = some g1 ∧
      ∀ p ∈ argsOf tr, p.sumLeft + p.sumRight = (⟨7, 4⟩ : SumCount ℚ).sum) :=
  scan_cuts_conserve_totals cellExample 0 4 2 ⟨20, 6⟩ 1 cellCtgExample 0 3 1 ⟨7, 4⟩ [4, 3] 1
    (by decide) (by decide) (by decide) (by decide) (by unfold wordSize; decide)
    (by decide) (by unfold wordSize; decide)
    (by decide) (by decide) (by decide) (by decide) (by unfold wordSize; decide)
    (by decide)

/-! ### The best statistic and its index -/

theorem foldl_offerStep_fst (l : List (F × Nat)) :
    ∀ b : F × Nat, (l.foldl offerStep b).1 = List.foldl max b.1 (l.map Prod.fst) := by
  induction l with
  | nil => intro b; rfl
  | cons y rest ih =>
    intro b
    simp only [List.foldl_cons, List.map_cons, ih]
    congr 1
    unfold offerStep
    split
    · rename_i h
      exact (max_eq_right h.le).symm
    · rename_i h
      exact (max_eq_left (not_lt.mp h)).symm

theorem foldl_offerStep_keep (l : List (F × Nat)) :
    ∀ b : F × Nat, (∀ o ∈ l, o.1 ≤ b.1) → l.foldl offerStep b = b := by
  induction l with
  | nil => intro b _; rfl
  | cons y rest ih =>
    intro b h
    have hy : ¬ b.1 < y.1 := not_lt.mpr (h y (List.mem_cons_self _ _))
    simp only [List.foldl_cons, offerStep, hy, if_false]
    exact ih b fun o ho => h o (List.mem_cons_of_mem _ ho)

theorem foldl_offerStep_first (l : List (F × Nat)) :
    ∀ b : F × Nat, (∃ o ∈ l, b.1 < o.1) →
      ∃ l1 o l2, l = l1 ++ o :: l2 ∧ l.foldl offerStep b = o ∧ b.1 < o.1 ∧
        (∀ q ∈ l1, q.1 < o.1) ∧ (∀ q ∈ l2, q.1 ≤ o.1) := by
  induction l with
  | nil =>
    rintro b ⟨o, ho, _⟩
    simp at ho
  | cons y rest ih =>
    rintro b ⟨o, ho, hlt⟩
    by_cases hy : b.1 < y.1
    · have hstep : offerStep b y = y := by simp [offerStep, hy]
      by_cases hex : ∃ q ∈ rest, y.1 < q.1
      · obtain ⟨l1, o1, l2, e1, e2, e3, e4, e5⟩ := ih y hex
        refine ⟨y :: l1, o1, l2, by rw [e1]; rfl, ?_, lt_trans hy e3, ?_, e5⟩
        · rw [List.foldl_cons, hstep, e2]
        · intro q hq
          rcases List.mem_cons.mp hq with rfl | hq
          · exact e3
          · exact e4 q hq
      · have hall : ∀ q ∈ rest, q.1 ≤ y.1 := by
          intro q hq
          by_contra hc
          exact hex ⟨q, hq, not_le.mp hc⟩
        refine ⟨[], y, rest, rfl, ?_, hy, ?_, hall⟩
        · rw [List.foldl_cons, hstep, foldl_offerStep_keep rest y hall]
        · intro q hq
          simp at hq
    · have hstep : offerStep b y = b := by simp [offerStep, hy]
      have ho1 : o ∈ rest := by
        rcases List.mem_cons.mp ho with rfl | h
        · exact absurd hlt hy
        · exact h
      obtain ⟨l1, o1, l2, e1, e2, e3, e4, e5⟩ := ih b ⟨o, ho1, hlt⟩
      refine ⟨y :: l1, o1, l2, by rw [e1]; rfl, ?_, e3, ?_, e5⟩
      · rw [List.foldl_cons, hstep, e2]
      · intro q hq
        rcases List.mem_cons.mp hq with rfl | hq
        · exact lt_of_le_of_lt (not_lt.mp hy) e3
        · exact e4 q hq

omit [LinearOrderedField F] in
/-- The indices under which a loop offers its cuts decrease strictly. -/
theorem loopTrace_indices_decrease {S A : Type} (ops : ScanOps S F A) (tied : Nat → Bool)
    (Inv : Nat → Bool → S → Prop) (r : Bool) (a n : Nat) (body : List (LoopEvent F A))
    (h : LoopTrace ops tied Inv r a n body) :
    ((offersOf body).map Prod.snd).Pairwise (fun i j => j < i) := by
  rw [h.2.1, List.pairwise_map]
  have hp : (List.range' (a + 1) n).reverse.Pairwise (fun i j => j < i) :=
    List.pairwise_reverse.mpr (List.pairwise_lt_range' _ _)
  have hf : (((List.range' (a + 1) n).reverse).filter fun i => !tied i).Pairwise
      (fun i j => j < i) := hp.sublist (List.filter_sublist _)
  refine List.Pairwise.imp_of_mem ?_ hf
  intro i j _ hj hij
  have hj1 : j ∈ (List.range' (a + 1) n).reverse := (List.filter_sublist _).subset hj
  simp only [List.mem_reverse, List.mem_range'_1] at hj1
  omega

theorem keepsFirstMaximum_of_fold (offers : List (F × Nat)) (start : F × Nat)
    (hp : (offers.map Prod.snd).Pairwise (fun i j => j < i)) :
    KeepsFirstMaximum start (offers.foldl offerStep start) offers := by
  refine ⟨foldl_offerStep_keep offers start, ?_⟩
  intro hex
  obtain ⟨l1, o, l2, e1, e2, e3, e4, e5⟩ := foldl_offerStep_first offers start hex
  rw [e2]
  refine ⟨l1, l2, e1, e3, e4, ?_⟩
  intro q hq
  refine ⟨e5 q hq, ?_⟩
  rw [e1, List.map_append, List.map_cons, List.pairwise_append] at hp
  obtain ⟨_, hp2, _⟩ := hp
  rw [List.pairwise_cons] at hp2
  exact hp2.1 q.2 (List.mem_map_of_mem _ hq)

/-- C18. With no implicit observations and no constraint, `splitReg` runs the one call
`splitRL(obsStart, obsEnd)`, offers `infoVar` of each cut, and ends with the
first offer that attains the largest statistic, which has the largest index
among the offers attaining it: earlier offers are strictly smaller, later
offers are no larger and have smaller indices.  The same holds for `splitCtg`
and `infoGini`.  An offer that does not exceed `info` leaves the accumulator
unchanged. -/
theorem splitRL_keeps_first_maximum (c : CutAccum F) (g : CutAccumCtg F)
    (hmono : c.monoMode = 0)
    (hc3 : c.obsStart < c.obsEnd) (hc4 : c.obsEnd ≤ c.obsCell.length)
    (hc5 : c.obsEnd < wordSize) (hc1 : c.obsStart ≤ c.cutResidual)
    (hc2 : c.cutResidual ≤ c.obsEnd)
    (hg3 : g.obsStart < g.obsEnd) (hg4 : g.obsEnd ≤ g.obsCell.length)
    (hg5 : g.obsEnd < wordSize) (hg1 : g.obsStart ≤ g.cutResidual)
    (hg2 : g.cutResidual ≤ g.obsEnd)
    (hg6 : g.ctgAccum.length = g.ctgSum.length)
    (hg7 : ∀ obs ∈ g.obsCell, obs.ctg < g.ctgSum.length) :
    (∃ c1 body,
      c.scanReg 0 = some (c1, [ScanEvent.call c.obsStart c.obsEnd body]) ∧
      (c.splitReg 0).map Prod.fst = some c1 ∧
      (∀ j x p, LoopEvent.cut j x p ∈ body →
        x = infoVar p.sumLeft p.sumRight p.sCountLeft p.sCountRight) ∧
      KeepsFirstMaximum (c.info, c.cutIndex) (c1.info, c1.cutIndex) (offersOf body)) ∧
    (∃ g1 body,
      g.scanCtg 0 = some (g1, [ScanEvent.call g.obsStart g.obsEnd body]) ∧
      (g.splitCtg 0).map Prod.fst = some g1 ∧
      (∀ j x p, LoopEvent.cut j x p ∈ body →
        x = infoGini p.ssLeft p.ssRight p.sumLeft p.sumRight) ∧
      KeepsFirstMaximum (g.info, g.cutIndex) (g1.info, g1.cutIndex) (offersOf body)) ∧
    (∀ (c0 : CutAccum F) (x : F) (idx : Nat), x ≤ c0.info → c0.argmaxRL x idx = c0) ∧
    (∀ (g0 : CutAccumCtg F) (x : F) (idx : Nat), x ≤ g0.info → g0.argmaxRL x idx = g0) := by
  refine ⟨?_, ?_, ?_, ?_⟩
  · obtain ⟨c1, tr, hrun, htrace, hbest⟩ :=
      scan_spec (regOps (decide (c.monoMode ≠ 0))) c.obsStart c.obsEnd c.cutResidual _ _
        (regBoundsFrame _ c.obsCell c.obsStart c.obsEnd c.cutResidual hc4)
        hc5 hc1 hc2 0 (fun _ => hc3) c ⟨rfl, rfl, rfl, rfl⟩
    obtain ⟨body, rfl, hbody⟩ := htrace.2 rfl
    have hrun1 : c.scanReg 0 = some (c1, [ScanEvent.call c.obsStart c.obsEnd body]) := hrun
    refine ⟨c1, body, hrun1, ?_, ?_, ?_⟩
    · rw [← scanReg_fst, hrun1]
      rfl
    · intro j x p hcut
      obtain ⟨_, _, _, s1, _, hx, hp⟩ := hbody.2.2 j x p hcut
      rw [hx, hp]
      simp [regOps, hmono, CutAccum.infoVarHere, CutAccum.argsHere]
    · have hfold : (c1.info, c1.cutIndex) =
          (offersOf body).foldl offerStep (c.info, c.cutIndex) := by
        simpa [allOffers, regOps] using hbest
      rw [hfold]
      exact keepsFirstMaximum_of_fold _ _ (loopTrace_indices_decrease _ _ _ _ _ _ _ hbody)
  · obtain ⟨g1, tr, hrun, htrace, hbest⟩ :=
      scan_spec ctgOps g.obsStart g.obsEnd g.cutResidual _ _
        (ctgBoundsFrame g.obsCell g.obsStart g.obsEnd g.cutResidual g.ctgSum.length hg4 hg7)
        hg5 hg1 hg2 0 (fun _ => hg3) g ⟨rfl, rfl, rfl, rfl, rfl, hg6⟩
    obtain ⟨body, rfl, hbody⟩ := htrace.2 rfl
    have hrun1 : g.scanCtg 0 = some (g1, [ScanEvent.call g.obsStart g.obsEnd body]) := hrun
    refine ⟨g1, body, hrun1, ?_, ?_, ?_⟩
    · rw [← scanCtg_fst, hrun1]
      rfl
    · intro j x p hcut
      obtain ⟨_, _, _, s1, _, hx, hp⟩ := hbody.2.2 j x p hcut
      rw [hx, hp]
      simp [ctgOps, CutAccumCtg.infoGiniHere, CutAccumCtg.argsHere]
    · have hfold : (g1.info, g1.cutIndex) =
          (offersOf body).foldl offerStep (g.info, g.cutIndex) := by
        simpa [allOffers, ctgOps] using hbest
      rw [hfold]
      exact keepsFirstMaximum_of_fold _ _ (loopTrace_indices_decrease _ _ _ _ _ _ _ hbody)
  · intro c0 x idx hx
    simp [CutAccum.argmaxRL, not_lt.mpr hx]
  · intro g0 x idx hx
    simp [CutAccumCtg.argmaxRL, not_lt.mpr hx]

/-- C18 on the regression cell with responses `1, 5, 1, 5`, where the cuts left of
positions `3` and `1` tie at `124/3`: the scan records index `2`, the cut left
of position `3`; and on the categorical cell `cellCtgExample`. -/
theorem splitRL_keeps_first_maximum_witness :
    ((∃ c1 body,
      (accumOf cellTies 0 ⟨12, 4⟩ 0).scanReg 0 =
        some (c1, [ScanEvent.call (accumOf cellTies 0 ⟨12, 4⟩ 0).obsStart
          (accumOf cellTies 0 ⟨12, 4⟩ 0).obsEnd body]) ∧
      ((accumOf cellTies 0 ⟨12, 4⟩ 0).splitReg 0).map Prod.fst = some c1 ∧
      (∀ j x p, LoopEvent.cut j x p ∈ body →
        x = infoVar p.sumLeft p.sumRight p.sCountLeft p.sCountRight) ∧
      KeepsFirstMaximum ((accumOf cellTies 0 ⟨12, 4⟩ 0).info,
        (accumOf cellTies 0 ⟨12, 4⟩ 0).cutIndex) (c1.info, c1.cutIndex) (offersOf body)) ∧
    (∃ g1 body,
      accumCtgExample.scanCtg 0 =
        some (g1, [ScanEvent.call accumCtgExample.obsStart accumCtgExample.obsEnd body]) ∧
      (accumCtgExample.splitCtg 0).map Prod.fst = some g1 ∧
      (∀ j x p, LoopEvent.cut j x p ∈ body →
        x = infoGini p.ssLeft p.ssRight p.sumLeft p.sumRight) ∧
      KeepsFirstMaximum (accumCtgExample.info, accumCtgExample.cutIndex)
        (g1.info, g1.cutIndex) (offersOf body)) ∧
    (∀ (c0 : CutAccum ℚ) (x : ℚ) (idx : Nat), x ≤ c0.info → c0.argmaxRL x idx = c0) ∧
    (∀ (g0 : CutAccumCtg ℚ) (x : ℚ) (idx : Nat), x ≤ g0.info → g0.argmaxRL x idx = g0)) ∧
    cutStat cellTies 0 4 3 = 124 / 3 ∧ cutStat cellTies 0 4 2 = 36 ∧
    cutStat cellTies 0 4 1 = 124 / 3 ∧
    ((accumOf cellTies 0 ⟨12, 4⟩ 0).splitReg 0).map (fun r => (r.1.info, r.1.cutIndex)) =
      some (124 / 3, 2) :=
  ⟨splitRL_keeps_first_maximum (accumOf cellTies 0 ⟨12, 4⟩ 0) accumCtgExample
      (by decide) (by decide) (by decide) (by unfold wordSize; decide) (by decide) (by decide)
      (by decide) (by decide) (by unfold wordSize; decide) (by decide) (by decide)
      (by decide) (by decide),
    by simp [cutStat, infoVar, cellSum, cellCount, cellTies]; norm_num,
    by simp [cutStat, infoVar, cellSum, cellCount, cellTies]; norm_num,
    by simp [cutStat, infoVar, cellSum, cellCount, cellTies]; norm_num,
    by
      simp [accumOf, cellTies, CutAccum.splitReg, CutAccum.splitRL, CutAccumRegCart.ctor,
        CutAccum.ctor, splitRLFrom, wordSize, subIdx, CutAccum.accumulateReg,
        CutAccum.argmaxRL, CutAccum.infoVarHere, infoVar]
      norm_num⟩

/-! ### The categorical statistic -/

theorem ctgInv_gini (obsCell : List (ObsCtg F)) (lo hi cr : Nat) (total : SumCount F)
    (ctgSum : List F) (k : Nat) (r : Bool) (g : CutAccumCtg F)
    (hinv : CtgInv obsCell lo hi cr total ctgSum k r g) :
    GiniCut obsCell lo hi total ctgSum k r g.infoGiniHere g.argsHere := by
  obtain ⟨_, _, _, _, h5, _, _, _, _, _, _, h12, h13⟩ := hinv
  refine ⟨rfl, ?_, h13, h12⟩
  simp only [CutAccumCtg.infoGiniHere, CutAccumCtg.argsHere, infoGini, h5]
  congr 1
  ring

/-- C14. `CutAccumCtgCart` sets the baseline `info` to the sum of the squared category
sums over the total sum.  The scan `splitCtg` returns; the statistic of each cut
it evaluates is `infoGini = (ssLeft + ssRight) / totalSum` with `ssLeft` and
`ssRight` the sums of the squared per-category sums of the two sides of the cut;
the final `info` is the largest of the baseline and these statistics, and the
value returned is the final `info` minus the baseline. -/
theorem splitCtg_statistic_is_gini (obsCell : List (ObsCtg F)) (lo hi cr : Nat)
    (total : SumCount F) (ctgSum : List F) (implicitCount : Nat)
    (k1 : lo ≤ cr) (k2 : cr ≤ hi) (k3 : implicitCount = 0 → lo < hi)
    (k4 : hi ≤ obsCell.length) (k5 : hi < wordSize)
    (k6 : ∀ obs ∈ obsCell, obs.ctg < ctgSum.length) :
    (CutAccumCtgCart.ctor (CutAccumCtg.ctor obsCell lo hi cr total ctgSum)).info =
      sumSquares ctgSum / total.sum ∧
    ∃ g1 tr,
      (CutAccumCtgCart.ctor (CutAccumCtg.ctor obsCell lo hi cr total ctgSum)).scanCtg
        implicitCount = some (g1, tr) ∧
      (CutAccumCtgCart.ctor (CutAccumCtg.ctor obsCell lo hi cr total ctgSum)).splitCtg
        implicitCount = some (g1, g1.info - sumSquares ctgSum / total.sum) ∧
      g1.info = List.foldl max (sumSquares ctgSum / total.sum)
        ((allOffers cr tr).map Prod.fst) ∧
      (∀ a b body j x p, ScanEvent.call a b body ∈ tr → LoopEvent.cut j x p ∈ body →
        ∃ r, GiniCut obsCell lo hi total ctgSum (j + 1) r x p) ∧
      (∀ onLeft x p, ScanEvent.residualCut onLeft x p ∈ tr →
        GiniCut obsCell lo hi total ctgSum cr (!onLeft) x p) := by
  refine ⟨rfl, ?_⟩
  obtain ⟨g1, tr, hrun, htrace, hbest⟩ :=
    scan_spec ctgOps lo hi cr _ _ (ctgFrame obsCell lo hi cr total ctgSum k4 k6)
      k5 k1 k2 implicitCount k3 _ (ctgInv_ctor obsCell lo hi cr total ctgSum (by omega))
  have hrun1 : (CutAccumCtgCart.ctor (CutAccumCtg.ctor obsCell lo hi cr total ctgSum)).scanCtg
      implicitCount = some (g1, tr) := hrun
  obtain ⟨hcalls, _, hres, _, _⟩ :=
    scanTrace_events _ _ _ lo hi cr implicitCount tr k1 k2 k3 htrace
  refine ⟨g1, tr, hrun1, ?_, ?_, ?_, ?_⟩
  · rw [← scanCtg_fst, hrun1]
    rfl
  · have h1 := congrArg Prod.fst hbest
    rw [foldl_offerStep_fst] at h1
    exact h1
  · intro a b body j x p hcall hcut
    obtain ⟨_, _, _, r, _, _, hcuts⟩ := hcalls a b body hcall
    obtain ⟨_, _, _, s1, hinv, hx, hp⟩ := hcuts j x p hcut
    rw [hx, hp]
    exact ⟨r, ctgInv_gini obsCell lo hi cr total ctgSum (j + 1) r s1 hinv⟩
  · intro onLeft x p hmem
    obtain ⟨s1, hinv, hp, hx⟩ := hres onLeft x p hmem
    have hx1 : x = s1.infoGiniHere := by
      rw [hx]
      cases onLeft <;> rfl
    rw [hx1, hp]
    exact ctgInv_gini obsCell lo hi cr total ctgSum cr (!onLeft) s1 hinv

/-- C14 on the categorical cell `cellCtgExample` with category sums `(4, 3)`, totals
`(7, 4)` and residual slot `1`: the baseline is `25/7`. -/
theorem splitCtg_statistic_is_gini_witness :
    ((CutAccumCtgCart.ctor (CutAccumCtg.ctor cellCtgExample 0 3 1 ⟨7, 4⟩ [4, 3])).info =
      sumSquares ([4, 3] : List ℚ) / (⟨7, 4⟩ : SumCount ℚ).sum ∧
    ∃ g1 tr,
      (CutAccumCtgCart.ctor (CutAccumCtg.ctor cellCtgExample 0 3 1 ⟨7, 4⟩ [4, 3])).scanCtg 1 =
        some (g1, tr) ∧
      (CutAccumCtgCart.ctor (CutAccumCtg.ctor cellCtgExample 0 3 1 ⟨7, 4⟩ [4, 3])).splitCtg 1 =
        some (g1, g1.info - sumSquares ([4, 3] : List ℚ) / (⟨7, 4⟩ : SumCount ℚ).sum) ∧
      g1.info = List.foldl max (sumSquares ([4, 3] : List ℚ) / (⟨7, 4⟩ : SumCount ℚ).sum)
        ((allOffers 1 tr).map Prod.fst) ∧
      (∀ a b body j x p, ScanEvent.call a b body ∈ tr → LoopEvent.cut j x p ∈ body →
        ∃ r, GiniCut cellCtgExample 0 3 ⟨7, 4⟩ [4, 3] (j + 1) r x p) ∧
      (∀ onLeft x p, ScanEvent.residualCut onLeft x p ∈ tr →
        GiniCut cellCtgExample 0 3 ⟨7, 4⟩ [4, 3] 1 (!onLeft) x p)) ∧
    sumSquares ([4, 3] : List ℚ) / (⟨7, 4⟩ : SumCount ℚ).sum = 25 / 7 :=
  ⟨splitCtg_statistic_is_gini cellCtgExample 0 3 1 ⟨7, 4⟩ [4, 3] 1
      (by decide) (by decide) (by decide) (by decide) (by unfold wordSize; decide)
      (by decide),
    by simp [sumSquares]; norm_num⟩

end Arborist
